import Mathlib

/-!
Verification of the htmldiff2 structural HTML diff engine.

This file shallowly embeds the core of the htmldiff2 pipeline
(src/src/htmldiff2/: differ.py, event_differ.py, block_processor.py,
text_differ.py, table_differ.py, atomization.py, visual_replace.py,
diff_inline_formatting.py, utils.py, config.py) together with the parts of
Python's difflib.SequenceMatcher that the engine relies on, and proves or
refutes the specification claims about it.

Modelling conventions:
* Genshi events are `(kind, data, pos)` triples.  Every event produced by the
  fragment parser carries the constant position `(None, -1, -1)`, and the
  engine never branches on positions, so the embedding drops the position
  component; event equality in the embedding therefore coincides with Python
  event equality on parser-produced streams.
* Tags (genshi `QName`s) are plain strings; `qname_localname` is the identity
  because the parser already emits local names.
* `Attrs` is the insertion-ordered list of `(name, value)` pairs; `attrsOr`
  models genshi's `Attrs.__or__` (replace in place, append new names) and
  `attrsGet` returns the first binding.
* Python strings are Lean `String`s; `or ''` coalescing of `None` is modelled
  with `Option.getD`.
* Functions from this repository that are imported by the sources but whose
  defining module is absent from the source tree (`normalization.py`,
  `normalize_style_value`, `events_equal_normalized`) are modelled from the
  specification text; each such definition is marked `Modelled from the spec`.
-/

namespace HD

/-- Python tuple/str values used as alignment keys by the atomizer.  Keys in
the source are heterogeneous Python tuples compared with `==`; `PyVal` gives
them exact structural equality. -/
inductive PyVal where
  | s (v : String)
  | n (v : Int)
  | tup (vs : List PyVal)
deriving Repr

mutual

/-- Structural equality test for Python key values. -/
def PyVal.beq : PyVal → PyVal → Bool
  | .s a, .s b => a = b
  | .n a, .n b => a = b
  | .tup a, .tup b => PyVal.beqList a b
  | _, _ => false

/-- Structural equality test for lists of Python key values. -/
def PyVal.beqList : List PyVal → List PyVal → Bool
  | [], [] => true
  | x :: xs, y :: ys => PyVal.beq x y && PyVal.beqList xs ys
  | _, _ => false

end

mutual

theorem PyVal.beq_iff : ∀ a b : PyVal, PyVal.beq a b = true ↔ a = b
  | .s a, .s b => by simp [PyVal.beq]
  | .s _, .n _ => by simp [PyVal.beq]
  | .s _, .tup _ => by simp [PyVal.beq]
  | .n _, .s _ => by simp [PyVal.beq]
  | .n a, .n b => by simp [PyVal.beq]
  | .n _, .tup _ => by simp [PyVal.beq]
  | .tup _, .s _ => by simp [PyVal.beq]
  | .tup _, .n _ => by simp [PyVal.beq]
  | .tup a, .tup b => by
      simp only [PyVal.beq, PyVal.tup.injEq]
      exact PyVal.beqList_iff a b

theorem PyVal.beqList_iff : ∀ a b : List PyVal, PyVal.beqList a b = true ↔ a = b
  | [], [] => by simp [PyVal.beqList]
  | [], _ :: _ => by simp [PyVal.beqList]
  | _ :: _, [] => by simp [PyVal.beqList]
  | x :: xs, y :: ys => by
      simp only [PyVal.beqList, Bool.and_eq_true, List.cons.injEq]
      exact and_congr (PyVal.beq_iff x y) (PyVal.beqList_iff xs ys)

end

instance : DecidableEq PyVal := fun a b =>
  decidable_of_iff (PyVal.beq a b = true) (PyVal.beq_iff a b)

/-- Attribute lists (genshi `Attrs`): insertion-ordered `(name, value)` pairs. -/
abbrev Attrs := List (String × String)

/-- Genshi stream event without the (constant) position component. -/
inductive Event where
  | Start (tag : String) (attrs : Attrs)
  | End (tag : String)
  | Text (s : String)
deriving DecidableEq, Repr

/-- First binding of an attribute name, like genshi `Attrs.get`. -/
def attrsGet (attrs : Attrs) (name : String) : Option String :=
  match attrs with
  | [] => none
  | (k, v) :: rest => if k = name then some v else attrsGet rest name

/-- Genshi `Attrs.__or__`: values of names already present are replaced in
place, fresh names are appended at the end. -/
def attrsOr (attrs : Attrs) (other : Attrs) : Attrs :=
  (attrs.map (fun kv => match attrsGet other kv.1 with
    | some v => (kv.1, v)
    | none => kv))
    ++ other.filter (fun kv => (attrsGet attrs kv.1).isNone)

/-- Membership test used by `attrsOr` filtering and `_set_attr`. -/
def attrsHas (attrs : Attrs) (name : String) : Bool :=
  (attrsGet attrs name).isSome

/-! ## difflib.SequenceMatcher

Embedding of the parts of CPython's `difflib.SequenceMatcher` (isjunk=None,
autojunk=True) that the engine uses: `find_longest_match`,
`get_matching_blocks`, `get_opcodes` and `ratio`.  The queue in CPython's
`get_matching_blocks` together with the final sort is expressed as the
in-order recursion it implements. -/

/-- Positions of value `x` in list `b` (ascending), like the `b2j` chains. -/
def positionsOf {α : Type} [DecidableEq α] (b : List α) (x : α) : List Nat :=
  (List.range b.length).filter (fun i => b.get? i = some x)

/-- Autojunk: an element is "popular" when the sequence has at least 200
elements and the element accounts for more than `n / 100 + 1` of them. -/
def isPopular {α : Type} [DecidableEq α] (b : List α) (x : α) : Bool :=
  b.length ≥ 200 && b.count x > b.length / 100 + 1

/-- The `b2j` map after purging popular elements (`isjunk` is `None`
throughout the engine, so no junk purge happens and `bjunk` is empty). -/
def b2j {α : Type} [DecidableEq α] (b : List α) (x : α) : List Nat :=
  if isPopular b x then [] else positionsOf b x

/-- A matching block `(besti, bestj, bestsize)`. -/
structure Match where
  a : Nat
  b : Nat
  size : Nat
deriving DecidableEq, Repr

/-- One row of the chain loop of `find_longest_match`: processes the candidate
positions `js` of the element `a[i]` in `b` (already restricted to
`blo ≤ j < bhi`).  Chain lengths are read from the previous row's map `j2len`
and written into a fresh map, exactly as CPython reads `j2lenget` (the old
map) while filling `newj2len`. -/
def flmRow (i : Nat) (js : List Nat) (j2len : Nat → Nat) (best : Match) :
    (Nat → Nat) × Match :=
  js.foldl
    (fun acc j =>
      let k := (if j = 0 then 0 else j2len (j - 1)) + 1
      let newmap : Nat → Nat := fun q => if q = j then k else acc.1 q
      let best' := if k > acc.2.size then Match.mk (i + 1 - k) (j + 1 - k) k else acc.2
      (newmap, best'))
    ((fun _ => 0 : Nat → Nat), best)

/-- One outer iteration of the chain loop at row `i` (the element `a[i]`).
The candidate list is `b2j` of the element restricted by the
`j < blo`-continue and `j ≥ bhi`-break tests (the positions are ascending, so
both amount to this filter).  An out-of-range row resets the map, matching a
loop that never runs. -/
def flmStepRow {α : Type} [DecidableEq α] (a b : List α) (blo bhi : Nat)
    (st : (Nat → Nat) × Match) (i : Nat) : (Nat → Nat) × Match :=
  match a.get? i with
  | none => ((fun _ => 0 : Nat → Nat), st.2)
  | some ai =>
    let js := (b2j b ai).filter (fun j => blo ≤ j && j < bhi)
    flmRow i js st.1 st.2

/-- Chain phase after processing `t` rows starting at `alo`. -/
def flmRows {α : Type} [DecidableEq α] (a b : List α) (alo blo bhi : Nat) :
    Nat → (Nat → Nat) × Match
  | 0 => ((fun _ => 0 : Nat → Nat), Match.mk alo blo 0)
  | t + 1 => flmStepRow a b blo bhi (flmRows a b alo blo bhi t) (alo + t)

/-- Best junk-free chain over the window, the state of `find_longest_match`
after its `for i in range(alo, ahi)` loop. -/
def flmChain {α : Type} [DecidableEq α] (a b : List α) (alo ahi blo bhi : Nat) :
    Match :=
  (flmRows a b alo blo bhi (ahi - alo)).2

/-- Guard of the front extension loops of `find_longest_match`: the elements
just before the block match and the `b`-side one passes the junk test `p`
(`p` is the negated junk test for the first pair of loops and the junk test
itself for the second; `isjunk=None` throughout the engine, so the junk set
is empty). -/
def extFrontCond {α : Type} [DecidableEq α] (a b : List α) (alo blo : Nat)
    (p : α → Bool) (bi bj : Nat) : Bool :=
  bi > alo && bj > blo &&
    ((b.get? (bj - 1)).elim false p) &&
    (a.get? (bi - 1)).isSome && a.get? (bi - 1) == b.get? (bj - 1)

/-- Front extension loop, structurally recursive on the `a`-side index. -/
def extFront {α : Type} [DecidableEq α] (a b : List α) (alo blo : Nat)
    (p : α → Bool) : Nat → Nat → Nat → Match
  | 0, bj, sz => Match.mk 0 bj sz
  | bi + 1, bj, sz =>
    if extFrontCond a b alo blo p (bi + 1) bj then
      extFront a b alo blo p bi (bj - 1) (sz + 1)
    else Match.mk (bi + 1) bj sz

/-- Guard of the back extension loops of `find_longest_match`. -/
def extBackCond {α : Type} [DecidableEq α] (a b : List α) (ahi bhi : Nat)
    (p : α → Bool) (bi bj sz : Nat) : Bool :=
  bi + sz < ahi && bj + sz < bhi &&
    ((b.get? (bj + sz)).elim false p) &&
    (a.get? (bi + sz)).isSome && a.get? (bi + sz) == b.get? (bj + sz)

/-- Back extension loop; the structural counter `r` is the remaining room
`ahi - (bi + sz)`, so the loop runs exactly as long as its guard holds. -/
def extBackGo {α : Type} [DecidableEq α] (a b : List α) (ahi bhi : Nat)
    (p : α → Bool) (bi bj : Nat) : Nat → Nat → Nat
  | 0, sz => sz
  | r + 1, sz =>
    if extBackCond a b ahi bhi p bi bj sz then
      extBackGo a b ahi bhi p bi bj r (sz + 1)
    else sz

/-- Back extension loop of `find_longest_match`. -/
def extBack {α : Type} [DecidableEq α] (a b : List α) (ahi bhi : Nat)
    (p : α → Bool) (m : Match) : Match :=
  Match.mk m.a m.b (extBackGo a b ahi bhi p m.a m.b (ahi - (m.a + m.size)) m.size)

/-- Junk membership test: the engine always constructs matchers with
`isjunk=None`, so the junk set `bjunk` is empty and the test is constantly
false. -/
def isbjunkNone {α : Type} (_ : α) : Bool := false

/-- Front extension applied to a match value. -/
def extFrontM {α : Type} [DecidableEq α] (a b : List α) (alo blo : Nat)
    (p : α → Bool) (m : Match) : Match :=
  extFront a b alo blo p m.a m.b m.size

/-- Full `find_longest_match` on a window: chain phase, then non-junk front
and back extension, then junk front and back extension. -/
def findLongestMatch {α : Type} [DecidableEq α] (a b : List α)
    (alo ahi blo bhi : Nat) : Match :=
  extBack a b ahi bhi (fun x => isbjunkNone x)
    (extFrontM a b alo blo (fun x => isbjunkNone x)
      (extBack a b ahi bhi (fun x => !(isbjunkNone x))
        (extFrontM a b alo blo (fun x => !(isbjunkNone x))
          (flmChain a b alo ahi blo bhi))))

theorem flm_sanity :
    findLongestMatch ([1, 2, 3, 4] : List Nat) [1, 5, 6, 7] 0 4 0 4 =
      Match.mk 0 0 1 := by decide

/-- Invariant carried by the chain maps: chain lengths are bounded by the
number of processed rows, and a non-zero chain ending at `q` started inside
the `b`-window. -/
def MapInv (blo bound : Nat) (f : Nat → Nat) : Prop :=
  ∀ q, f q ≤ bound ∧ (f q ≠ 0 → f q + blo ≤ q + 1)

/-- Invariant carried by the running best block: degenerate, or non-empty and
inside the window processed so far. -/
def BestInv (alo blo bhi bound : Nat) (m : Match) : Prop :=
  (m.size = 0 ∧ m.a = alo ∧ m.b = blo) ∨
    (1 ≤ m.size ∧ alo ≤ m.a ∧ m.a + m.size ≤ bound ∧
     blo ≤ m.b ∧ m.b + m.size ≤ bhi)

theorem flmRow_inv (alo blo bhi i : Nat) (hi : alo ≤ i)
    (j2len : Nat → Nat) (hmap : MapInv blo (i - alo) j2len)
    (js : List Nat) (hjs : ∀ j ∈ js, blo ≤ j ∧ j < bhi)
    (best : Match) (hbest : BestInv alo blo bhi i best) :
    MapInv blo (i + 1 - alo) (flmRow i js j2len best).1 ∧
      BestInv alo blo bhi (i + 1) (flmRow i js j2len best).2 := by
  unfold flmRow
  have hstep : ∀ (l : List Nat), (∀ j ∈ l, blo ≤ j ∧ j < bhi) →
      ∀ (acc : (Nat → Nat) × Match), MapInv blo (i + 1 - alo) acc.1 →
      BestInv alo blo bhi (i + 1) acc.2 →
      (MapInv blo (i + 1 - alo)
        (l.foldl (fun acc j =>
          let k := (if j = 0 then 0 else j2len (j - 1)) + 1
          let newmap : Nat → Nat := fun q => if q = j then k else acc.1 q
          let best' := if k > acc.2.size then Match.mk (i + 1 - k) (j + 1 - k) k
            else acc.2
          (newmap, best')) acc).1 ∧
       BestInv alo blo bhi (i + 1)
        (l.foldl (fun acc j =>
          let k := (if j = 0 then 0 else j2len (j - 1)) + 1
          let newmap : Nat → Nat := fun q => if q = j then k else acc.1 q
          let best' := if k > acc.2.size then Match.mk (i + 1 - k) (j + 1 - k) k
            else acc.2
          (newmap, best')) acc).2) := by
    intro l
    induction l with
    | nil => intro _ acc hm hb; exact ⟨hm, hb⟩
    | cons j rest ihl =>
      intro hmem acc hm hb
      have hj := hmem j (List.mem_cons_self _ _)
      -- bounds for the new chain length k
      have hk1 : (if j = 0 then 0 else j2len (j - 1)) + 1 ≤ i + 1 - alo := by
        by_cases h0 : j = 0
        · simp only [if_pos h0]; omega
        · simp only [if_neg h0]
          have := (hmap (j - 1)).1
          omega
      have hk2 : (if j = 0 then 0 else j2len (j - 1)) + 1 + blo ≤ j + 1 := by
        by_cases h0 : j = 0
        · simp only [if_pos h0]
          have := hj.1
          omega
        · simp only [if_neg h0]
          rcases Nat.eq_zero_or_pos (j2len (j - 1)) with hz | hp
          · simp only [hz]
            have := hj.1
            omega
          · have := (hmap (j - 1)).2 (by omega)
            have := hj.1
            omega
      simp only [List.foldl_cons]
      apply ihl (fun x hx => hmem x (List.mem_cons_of_mem _ hx))
      · intro q
        by_cases hq : q = j
        · subst hq
          refine ⟨?_, fun _ => ?_⟩
          · simpa using hk1
          · simpa using hk2
        · simpa [hq] using hm q
      · by_cases hgt : (if j = 0 then 0 else j2len (j - 1)) + 1 > acc.2.size
        · simp only [if_pos hgt]
          right
          refine ⟨?_, ?_, ?_, ?_, ?_⟩ <;> simp only [Match.mk] <;> omega
        · simpa [hgt] using hb
  have hm0 : MapInv blo (i + 1 - alo) (fun _ => 0 : Nat → Nat) :=
    fun q => ⟨Nat.zero_le _, fun h => absurd rfl h⟩
  have hb0 : BestInv alo blo bhi (i + 1) best := by
    rcases hbest with h | h
    · exact Or.inl h
    · exact Or.inr ⟨h.1, h.2.1, Nat.le_succ_of_le h.2.2.1, h.2.2.2⟩
  exact hstep js hjs ((fun _ => 0 : Nat → Nat), best) hm0 hb0

theorem flmRows_inv {α : Type} [DecidableEq α] (a b : List α)
    (alo blo bhi : Nat) (t : Nat) :
    MapInv blo t (flmRows a b alo blo bhi t).1 ∧
      BestInv alo blo bhi (alo + t) (flmRows a b alo blo bhi t).2 := by
  induction t with
  | zero =>
    exact ⟨fun q => ⟨Nat.le_refl 0, fun h => absurd rfl h⟩,
      Or.inl ⟨rfl, rfl, rfl⟩⟩
  | succ t ih =>
    have hstep : flmRows a b alo blo bhi (t + 1) =
        flmStepRow a b blo bhi (flmRows a b alo blo bhi t) (alo + t) := rfl
    rw [hstep]
    unfold flmStepRow
    rcases hget : a.get? (alo + t) with _ | ai
    · dsimp only
      refine ⟨fun q => ⟨Nat.zero_le _, fun h => absurd rfl h⟩, ?_⟩
      rcases ih.2 with h | h
      · exact Or.inl h
      · exact Or.inr ⟨h.1, h.2.1, by omega, h.2.2.2⟩
    · dsimp only
      have hmap : MapInv blo ((alo + t) - alo) (flmRows a b alo blo bhi t).1 := by
        have := ih.1
        simpa using this
      have hjs : ∀ j ∈ (b2j b ai).filter (fun j => blo ≤ j && j < bhi),
          blo ≤ j ∧ j < bhi := by
        intro j hjmem
        have := List.of_mem_filter hjmem
        simp only [Bool.and_eq_true, decide_eq_true_eq] at this
        exact this
      have h := flmRow_inv alo blo bhi (alo + t) (Nat.le_add_right _ _)
        (flmRows a b alo blo bhi t).1 hmap _ hjs
        (flmRows a b alo blo bhi t).2 ih.2
      refine ⟨?_, ?_⟩
      · intro q
        have := (h.1) q
        constructor
        · omega
        · exact this.2
      · have := h.2
        simpa [Nat.add_assoc] using this


/-- Unfolding equation of the front extension loop at a successor index. -/
theorem extFront_succ {α : Type} [DecidableEq α] (a b : List α)
    (alo blo : Nat) (p : α → Bool) (bi bj sz : Nat) :
    extFront a b alo blo p (bi + 1) bj sz =
      if extFrontCond a b alo blo p (bi + 1) bj then
        extFront a b alo blo p bi (bj - 1) (sz + 1)
      else Match.mk (bi + 1) bj sz := rfl

/-- Unfolding equation of the back extension loop with remaining room. -/
theorem extBackGo_succ {α : Type} [DecidableEq α] (a b : List α)
    (ahi bhi : Nat) (p : α → Bool) (bi bj r sz : Nat) :
    extBackGo a b ahi bhi p bi bj (r + 1) sz =
      if extBackCond a b ahi bhi p bi bj sz then
        extBackGo a b ahi bhi p bi bj r (sz + 1)
      else sz := rfl

theorem extFront_spec {α : Type} [DecidableEq α] (a b : List α)
    (alo blo : Nat) (p : α → Bool) :
    ∀ bi bj sz, alo ≤ bi → blo ≤ bj →
      alo ≤ (extFront a b alo blo p bi bj sz).a ∧
      blo ≤ (extFront a b alo blo p bi bj sz).b ∧
      (extFront a b alo blo p bi bj sz).a +
        (extFront a b alo blo p bi bj sz).size = bi + sz ∧
      (extFront a b alo blo p bi bj sz).b +
        (extFront a b alo blo p bi bj sz).size = bj + sz ∧
      sz ≤ (extFront a b alo blo p bi bj sz).size := by
  intro bi
  induction bi with
  | zero =>
    intro bj sz ha hb
    exact ⟨ha, hb, rfl, rfl, Nat.le_refl _⟩
  | succ bi ih =>
    intro bj sz ha hb
    by_cases hc : extFrontCond a b alo blo p (bi + 1) bj
    · have hgt : bi + 1 > alo ∧ bj > blo := by
        unfold extFrontCond at hc
        simp only [Bool.and_eq_true, decide_eq_true_eq] at hc
        exact ⟨hc.1.1.1.1, hc.1.1.1.2⟩
      have hrec := ih (bj - 1) (sz + 1) (by omega) (by omega)
      rw [extFront_succ, if_pos hc]
      refine ⟨hrec.1, hrec.2.1, by omega, by omega, by omega⟩
    · rw [extFront_succ, if_neg hc]
      exact ⟨ha, hb, rfl, rfl, Nat.le_refl _⟩

/-- A front extension starting at the window edge does nothing. -/
theorem extFront_stay {α : Type} [DecidableEq α] (a b : List α)
    (alo blo : Nat) (p : α → Bool) (bj sz : Nat) :
    extFront a b alo blo p alo bj sz = Match.mk alo bj sz := by
  cases alo with
  | zero => rfl
  | succ n =>
    have hc : extFrontCond a b (n + 1) blo p (n + 1) bj = false := by
      unfold extFrontCond
      simp
    rw [extFront_succ, hc]
    simp

/-- With the constantly-false junk test the front extension is the identity. -/
theorem extFront_false {α : Type} [DecidableEq α] (a b : List α)
    (alo blo : Nat) (bi bj sz : Nat) :
    extFront a b alo blo (fun x => isbjunkNone x) bi bj sz = Match.mk bi bj sz := by
  cases bi with
  | zero => rfl
  | succ n =>
    have hc : extFrontCond a b alo blo (fun x => isbjunkNone x) (n + 1) bj = false := by
      unfold extFrontCond isbjunkNone
      cases b.get? (bj - 1) <;> simp
    rw [extFront_succ, hc]
    simp

theorem extBackGo_spec {α : Type} [DecidableEq α] (a b : List α)
    (ahi bhi : Nat) (p : α → Bool) (bi bj : Nat) :
    ∀ r sz, extBackGo a b ahi bhi p bi bj r sz = sz ∨
      (sz < extBackGo a b ahi bhi p bi bj r sz ∧
       bi + extBackGo a b ahi bhi p bi bj r sz ≤ ahi ∧
       bj + extBackGo a b ahi bhi p bi bj r sz ≤ bhi) := by
  intro r
  induction r with
  | zero => intro sz; exact Or.inl rfl
  | succ r ih =>
    intro sz
    by_cases hc : extBackCond a b ahi bhi p bi bj sz
    · have hlt : bi + sz < ahi ∧ bj + sz < bhi := by
        unfold extBackCond at hc
        simp only [Bool.and_eq_true, decide_eq_true_eq] at hc
        exact ⟨hc.1.1.1.1, hc.1.1.1.2⟩
      rw [extBackGo_succ, if_pos hc]
      rcases ih (sz + 1) with h | h
      · rw [h]
        exact Or.inr ⟨by omega, by omega, by omega⟩
      · exact Or.inr ⟨by omega, h.2.1, h.2.2⟩
    · rw [extBackGo_succ, if_neg hc]
      exact Or.inl rfl

/-- With the constantly-false junk test the back extension is the identity. -/
theorem extBackGo_false {α : Type} [DecidableEq α] (a b : List α)
    (ahi bhi : Nat) (bi bj : Nat) :
    ∀ r sz, extBackGo a b ahi bhi (fun x => isbjunkNone x) bi bj r sz = sz := by
  intro r
  induction r with
  | zero => intro sz; rfl
  | succ r ih =>
    intro sz
    have hc : extBackCond a b ahi bhi (fun x => isbjunkNone x) bi bj sz = false := by
      unfold extBackCond isbjunkNone
      cases b.get? (bj + sz) <;> simp
    rw [extBackGo_succ, hc]
    simp

/-- Window invariant satisfied by the result of `find_longest_match`. -/
def FlmInv (alo ahi blo bhi : Nat) (m : Match) : Prop :=
  (m.size = 0 ∧ m.a = alo ∧ m.b = blo) ∨
    (1 ≤ m.size ∧ alo ≤ m.a ∧ m.a + m.size ≤ ahi ∧
     blo ≤ m.b ∧ m.b + m.size ≤ bhi)

/-- The junk extension phases are the identity since the junk set is empty. -/
theorem junkPhase_id {α : Type} [DecidableEq α] (a b : List α)
    (alo ahi blo bhi : Nat) (m : Match) :
    extBack a b ahi bhi (fun x => isbjunkNone x)
      (extFrontM a b alo blo (fun x => isbjunkNone x) m) = m := by
  unfold extFrontM
  rw [extFront_false]
  unfold extBack
  rw [extBackGo_false]

/-- Shape of a match after the non-junk front and back extension phase: the
window invariant is preserved. -/
theorem extPhase_inv {α : Type} [DecidableEq α] (a b : List α)
    (alo ahi blo bhi : Nat) (m : Match)
    (hm : FlmInv alo ahi blo bhi m) :
    FlmInv alo ahi blo bhi
      (extBack a b ahi bhi (fun x => !(isbjunkNone x))
        (extFrontM a b alo blo (fun x => !(isbjunkNone x)) m)) := by
  have hfm : ((extFrontM a b alo blo (fun x => !(isbjunkNone x)) m).size = 0 ∧
      (extFrontM a b alo blo (fun x => !(isbjunkNone x)) m).a = alo ∧
      (extFrontM a b alo blo (fun x => !(isbjunkNone x)) m).b = blo) ∨
      (alo ≤ (extFrontM a b alo blo (fun x => !(isbjunkNone x)) m).a ∧
       blo ≤ (extFrontM a b alo blo (fun x => !(isbjunkNone x)) m).b ∧
       (extFrontM a b alo blo (fun x => !(isbjunkNone x)) m).a +
         (extFrontM a b alo blo (fun x => !(isbjunkNone x)) m).size ≤ ahi ∧
       (extFrontM a b alo blo (fun x => !(isbjunkNone x)) m).b +
         (extFrontM a b alo blo (fun x => !(isbjunkNone x)) m).size ≤ bhi ∧
       1 ≤ (extFrontM a b alo blo (fun x => !(isbjunkNone x)) m).size) := by
    rcases hm with h | h
    · left
      unfold extFrontM
      rw [h.2.1, h.2.2, h.1, extFront_stay]
      exact ⟨rfl, rfl, rfl⟩
    · right
      have hs := extFront_spec a b alo blo (fun x => !(isbjunkNone x))
        m.a m.b m.size h.2.1 h.2.2.2.1
      unfold extFrontM
      exact ⟨hs.1, hs.2.1, by omega, by omega, by omega⟩
  have hbk := extBackGo_spec a b ahi bhi (fun x => !(isbjunkNone x))
    (extFrontM a b alo blo (fun x => !(isbjunkNone x)) m).a
    (extFrontM a b alo blo (fun x => !(isbjunkNone x)) m).b
    (ahi - ((extFrontM a b alo blo (fun x => !(isbjunkNone x)) m).a +
      (extFrontM a b alo blo (fun x => !(isbjunkNone x)) m).size))
    (extFrontM a b alo blo (fun x => !(isbjunkNone x)) m).size
  unfold FlmInv
  have hba : (extBack a b ahi bhi (fun x => !(isbjunkNone x))
      (extFrontM a b alo blo (fun x => !(isbjunkNone x)) m)).a =
      (extFrontM a b alo blo (fun x => !(isbjunkNone x)) m).a := rfl
  have hbb : (extBack a b ahi bhi (fun x => !(isbjunkNone x))
      (extFrontM a b alo blo (fun x => !(isbjunkNone x)) m)).b =
      (extFrontM a b alo blo (fun x => !(isbjunkNone x)) m).b := rfl
  have hbs : (extBack a b ahi bhi (fun x => !(isbjunkNone x))
      (extFrontM a b alo blo (fun x => !(isbjunkNone x)) m)).size =
      extBackGo a b ahi bhi (fun x => !(isbjunkNone x))
        (extFrontM a b alo blo (fun x => !(isbjunkNone x)) m).a
        (extFrontM a b alo blo (fun x => !(isbjunkNone x)) m).b
        (ahi - ((extFrontM a b alo blo (fun x => !(isbjunkNone x)) m).a +
          (extFrontM a b alo blo (fun x => !(isbjunkNone x)) m).size))
        (extFrontM a b alo blo (fun x => !(isbjunkNone x)) m).size := rfl
  rw [hba, hbb, hbs]
  rcases hfm with h | h
  · rcases hbk with hb | hb
    · rw [hb]
      left
      exact ⟨h.1, h.2.1, h.2.2⟩
    · right
      exact ⟨by omega, by omega, by omega, by omega, by omega⟩
  · rcases hbk with hb | hb
    · rw [hb]
      right
      exact ⟨by omega, h.1, h.2.2.1, h.2.1, h.2.2.2.1⟩
    · right
      exact ⟨by omega, by omega, by omega, by omega, by omega⟩

/-- Window bounds of the best block returned by `find_longest_match`: either
no block was found and the result is the degenerate `(alo, blo, 0)`, or the
block is non-empty and lies inside the window. -/
theorem flm_bounds {α : Type} [DecidableEq α] (a b : List α)
    (alo ahi blo bhi : Nat) :
    FlmInv alo ahi blo bhi (findLongestMatch a b alo ahi blo bhi) := by
  have h0 := (flmRows_inv a b alo blo bhi (ahi - alo)).2
  have hchain : flmChain a b alo ahi blo bhi =
      (flmRows a b alo blo bhi (ahi - alo)).2 := rfl
  rw [← hchain] at h0
  have hb0 : FlmInv alo ahi blo bhi (flmChain a b alo ahi blo bhi) := by
    unfold BestInv at h0
    unfold FlmInv
    rcases h0 with h | h
    · exact Or.inl h
    · right
      refine ⟨h.1, h.2.1, by omega, h.2.2.2.1, h.2.2.2.2⟩
  have hunf : findLongestMatch a b alo ahi blo bhi =
      extBack a b ahi bhi (fun x => isbjunkNone x)
        (extFrontM a b alo blo (fun x => isbjunkNone x)
          (extBack a b ahi bhi (fun x => !(isbjunkNone x))
            (extFrontM a b alo blo (fun x => !(isbjunkNone x))
              (flmChain a b alo ahi blo bhi)))) := rfl
  rw [hunf, junkPhase_id]
  exact extPhase_inv a b alo ahi blo bhi _ hb0


/-- Recursive block collection of `get_matching_blocks`.  CPython keeps a
stack of windows and sorts the collected blocks at the end; since the found
blocks of sibling windows never interleave, that equals this in-order
recursion, including the guards on the sub-windows. -/
def matchingBlocksRec {α : Type} [DecidableEq α] (a b : List α)
    (alo ahi blo bhi : Nat) : List Match :=
  let m := findLongestMatch a b alo ahi blo bhi
  if hsz : m.size = 0 then []
  else
    (if hL : alo < m.a ∧ blo < m.b then matchingBlocksRec a b alo m.a blo m.b
     else []) ++
    m ::
    (if hR : m.a + m.size < ahi ∧ m.b + m.size < bhi then
      matchingBlocksRec a b (m.a + m.size) ahi (m.b + m.size) bhi
     else [])
termination_by ahi - alo
decreasing_by
  · have hb := flm_bounds a b alo ahi blo bhi
    unfold FlmInv at hb
    rcases hb with h | h
    · exact absurd h.1 hsz
    · omega
  · have hb := flm_bounds a b alo ahi blo bhi
    unfold FlmInv at hb
    rcases hb with h | h
    · exact absurd h.1 hsz
    · omega

/-- Fuel-bounded form of the block collection; `matchingBlocksGo_eq` shows
any fuel exceeding the window width computes `matchingBlocksRec`. -/
def matchingBlocksGo {α : Type} [DecidableEq α] (a b : List α) :
    Nat → Nat → Nat → Nat → Nat → List Match
  | 0, _, _, _, _ => []
  | fuel + 1, alo, ahi, blo, bhi =>
    let m := findLongestMatch a b alo ahi blo bhi
    if m.size = 0 then []
    else
      (if alo < m.a ∧ blo < m.b then matchingBlocksGo a b fuel alo m.a blo m.b
       else []) ++
      m ::
      (if m.a + m.size < ahi ∧ m.b + m.size < bhi then
        matchingBlocksGo a b fuel (m.a + m.size) ahi (m.b + m.size) bhi
       else [])

/-- The fuel-bounded collection agrees with the recursive one whenever the
fuel exceeds the window width. -/
theorem matchingBlocksGo_eq {α : Type} [DecidableEq α] (a b : List α) :
    ∀ fuel alo ahi blo bhi, ahi - alo < fuel →
      matchingBlocksGo a b fuel alo ahi blo bhi =
        matchingBlocksRec a b alo ahi blo bhi := by
  intro fuel
  induction fuel with
  | zero => intro alo ahi blo bhi h; omega
  | succ fuel ih =>
    intro alo ahi blo bhi h
    rw [matchingBlocksRec]
    show (let m := findLongestMatch a b alo ahi blo bhi
      if m.size = 0 then []
      else
        (if alo < m.a ∧ blo < m.b then matchingBlocksGo a b fuel alo m.a blo m.b
         else []) ++
        m ::
        (if m.a + m.size < ahi ∧ m.b + m.size < bhi then
          matchingBlocksGo a b fuel (m.a + m.size) ahi (m.b + m.size) bhi
         else [])) = _
    have hb := flm_bounds a b alo ahi blo bhi
    unfold FlmInv at hb
    by_cases hsz : (findLongestMatch a b alo ahi blo bhi).size = 0
    · rw [if_pos hsz, dif_pos hsz]
    · rw [if_neg hsz, dif_neg hsz]
      have hbnd : alo ≤ (findLongestMatch a b alo ahi blo bhi).a ∧
          (findLongestMatch a b alo ahi blo bhi).a +
            (findLongestMatch a b alo ahi blo bhi).size ≤ ahi := by
        rcases hb with hcase | hcase
        · exact absurd hcase.1 hsz
        · exact ⟨hcase.2.1, hcase.2.2.1⟩
      congr 1
      · by_cases hL : alo < (findLongestMatch a b alo ahi blo bhi).a ∧
            blo < (findLongestMatch a b alo ahi blo bhi).b
        · rw [if_pos hL, dif_pos hL]
          exact ih alo _ blo _ (by omega)
        · rw [if_neg hL, dif_neg hL]
      · congr 1
        by_cases hR : (findLongestMatch a b alo ahi blo bhi).a +
              (findLongestMatch a b alo ahi blo bhi).size < ahi ∧
            (findLongestMatch a b alo ahi blo bhi).b +
              (findLongestMatch a b alo ahi blo bhi).size < bhi
        · rw [if_pos hR, dif_pos hR]
          exact ih _ ahi _ bhi (by omega)
        · rw [if_neg hR, dif_neg hR]

/-- Final merge loop of `get_matching_blocks`: collapse adjacent blocks,
flushing the pending block `(i1, j1, k1)` when the next one is not adjacent
(`k1 = 0` marks the initial dummy). -/
def mergeAdjacentBlocks : List Match → Nat → Nat → Nat → List Match
  | [], i1, j1, k1 => if k1 ≠ 0 then [Match.mk i1 j1 k1] else []
  | m :: rest, i1, j1, k1 =>
    if i1 + k1 = m.a ∧ j1 + k1 = m.b then
      mergeAdjacentBlocks rest i1 j1 (k1 + m.size)
    else
      (if k1 ≠ 0 then [Match.mk i1 j1 k1] else []) ++
        mergeAdjacentBlocks rest m.a m.b m.size

/-- Full `get_matching_blocks`: recursive collection, adjacency merge, and
the trailing `(len(a), len(b), 0)` sentinel. -/
def getMatchingBlocks {α : Type} [DecidableEq α] (a b : List α) : List Match :=
  mergeAdjacentBlocks (matchingBlocksGo a b (a.length + 1) 0 a.length 0 b.length)
      0 0 0 ++
    [Match.mk a.length b.length 0]

/-- Opcode tags of `get_opcodes`. -/
inductive OpTag where
  | equal
  | replace
  | delete
  | insert
deriving DecidableEq, Repr

/-- An edit opcode `(tag, i1, i2, j1, j2)`. -/
structure Opcode where
  tag : OpTag
  i1 : Nat
  i2 : Nat
  j1 : Nat
  j2 : Nat
deriving DecidableEq, Repr

/-- Loop of `get_opcodes` over the matching blocks, carrying the current
`(i, j)` cursor. -/
def opcodesFromBlocks : List Match → Nat → Nat → List Opcode
  | [], _, _ => []
  | m :: rest, i, j =>
    (if i < m.a ∧ j < m.b then [Opcode.mk OpTag.replace i m.a j m.b]
     else if i < m.a then [Opcode.mk OpTag.delete i m.a j m.b]
     else if j < m.b then [Opcode.mk OpTag.insert i m.a j m.b]
     else []) ++
    (if m.size ≠ 0 then
      [Opcode.mk OpTag.equal m.a (m.a + m.size) m.b (m.b + m.size)]
     else []) ++
    opcodesFromBlocks rest (m.a + m.size) (m.b + m.size)

/-- Full `get_opcodes`. -/
def getOpcodes {α : Type} [DecidableEq α] (a b : List α) : List Opcode :=
  opcodesFromBlocks (getMatchingBlocks a b) 0 0

/-- Similarity `ratio`: twice the number of matched elements over the total
length (CPython computes this in floating point; the claims only compare it
against the rational threshold, so the exact rational value is used, built
with `Rat.divInt`). -/
def ratio {α : Type} [DecidableEq α] (a b : List α) : ℚ :=
  let matched := ((getMatchingBlocks a b).map (fun m => m.size)).sum
  if a.length + b.length ≠ 0 then
    Rat.divInt (2 * matched) (a.length + b.length)
  else 1


/-! ### Behaviour of the matcher on identical sequences

The engine's self-diff invariant needs: on two identical sequences the
matcher returns the single full-length block, hence one `equal` opcode and
ratio 1.  The chain phase is analysed through the diagonal run lengths. -/

/-- Length of the maximal run of non-popular elements of `x` ending at `i`
(the diagonal chain length at `(i, i)`). -/
def diagRun {α : Type} [DecidableEq α] (x : List α) : Nat → Nat
  | 0 => match x.get? 0 with
    | some v => if isPopular x v then 0 else 1
    | none => 0
  | i + 1 => match x.get? (i + 1) with
    | some v => if isPopular x v then 0 else diagRun x i + 1
    | none => 0

/-- Chain length ending at `(i, j)` maintained by the `j2len` maps when both
sequences are `x`. -/
def chainLen {α : Type} [DecidableEq α] (x : List α) : Nat → Nat → Nat
  | 0, j =>
    match x.get? 0, x.get? j with
    | some vi, some vj => if vi = vj ∧ ¬ isPopular x vi then 1 else 0
    | _, _ => 0
  | i + 1, 0 =>
    match x.get? (i + 1), x.get? 0 with
    | some vi, some vj => if vi = vj ∧ ¬ isPopular x vi then 1 else 0
    | _, _ => 0
  | i + 1, j + 1 =>
    match x.get? (i + 1), x.get? (j + 1) with
    | some vi, some vj =>
      if vi = vj ∧ ¬ isPopular x vi then chainLen x i j + 1 else 0
    | _, _ => 0

/-- Largest diagonal run among the first `t` rows. -/
def maxDiag {α : Type} [DecidableEq α] (x : List α) : Nat → Nat
  | 0 => 0
  | t + 1 => max (maxDiag x t) (diagRun x t)

theorem diagRun_le_maxDiag {α : Type} [DecidableEq α] (x : List α)
    {i t : Nat} (h : i < t) : diagRun x i ≤ maxDiag x t := by
  induction t with
  | zero => omega
  | succ t ih =>
    by_cases hit : i = t
    · subst hit
      exact le_max_right _ _
    · exact le_trans (ih (by omega)) (le_max_left _ _)

theorem chainLen_le_left {α : Type} [DecidableEq α] (x : List α) :
    ∀ i j, chainLen x i j ≤ diagRun x i := by
  intro i
  induction i with
  | zero =>
    intro j
    unfold chainLen diagRun
    rcases h0 : x.get? 0 with _ | v
    · simp
    · rcases hj : x.get? j with _ | w
      · simp
      · by_cases hc : v = w ∧ ¬ isPopular x v
        · obtain ⟨hveq, hp⟩ := hc
          subst hveq
          have hp' : isPopular x v = false := by simpa using hp
          simp [hp']
        · simp only [if_neg hc]
          exact Nat.zero_le _
  | succ i ih =>
    intro j
    rcases j with _ | j'
    · unfold chainLen diagRun
      rcases h0 : x.get? (i + 1) with _ | v
      · simp
      · rcases hj : x.get? 0 with _ | w
        · simp
        · by_cases hc : v = w ∧ ¬ isPopular x v
          · obtain ⟨hveq, hp⟩ := hc
            subst hveq
            have hp' : isPopular x v = false := by simpa using hp
            simp [hp']
          · simp only [if_neg hc]
            exact Nat.zero_le _
    · unfold chainLen diagRun
      rcases h0 : x.get? (i + 1) with _ | v
      · simp
      · rcases hj : x.get? (j' + 1) with _ | w
        · simp
        · by_cases hc : v = w ∧ ¬ isPopular x v
          · obtain ⟨hveq, hp⟩ := hc
            subst hveq
            have hp' : isPopular x v = false := by simpa using hp
            have := ih j'
            simp only [hp', if_true, and_true, eq_self_iff_true]
            simp [hp']
            omega
          · simp only [if_neg hc]
            exact Nat.zero_le _

theorem chainLen_le_right {α : Type} [DecidableEq α] (x : List α) :
    ∀ i j, chainLen x i j ≤ diagRun x j := by
  intro i
  induction i with
  | zero =>
    intro j
    rcases j with _ | j'
    · unfold chainLen diagRun
      rcases h0 : x.get? 0 with _ | v
      · simp
      · by_cases hp : isPopular x v
        · simp [hp]
        · have hp' : isPopular x v = false := by simpa using hp
          simp [hp']
    · unfold chainLen diagRun
      rcases h0 : x.get? 0 with _ | v
      · simp
      · rcases hj : x.get? (j' + 1) with _ | w
        · simp
        · by_cases hc : v = w ∧ ¬ isPopular x v
          · obtain ⟨hveq, hp⟩ := hc
            subst hveq
            have hp' : isPopular x v = false := by simpa using hp
            simp [hp']
          · simp only [if_neg hc]
            exact Nat.zero_le _
  | succ i ih =>
    intro j
    rcases j with _ | j'
    · unfold chainLen diagRun
      rcases h0 : x.get? (i + 1) with _ | v
      · simp
      · rcases hj : x.get? 0 with _ | w
        · simp
        · by_cases hc : v = w ∧ ¬ isPopular x v
          · obtain ⟨hveq, hp⟩ := hc
            subst hveq
            have hp' : isPopular x v = false := by simpa using hp
            simp [hp']
          · simp only [if_neg hc]
            exact Nat.zero_le _
    · unfold chainLen diagRun
      rcases h0 : x.get? (i + 1) with _ | v
      · simp
      · rcases hj : x.get? (j' + 1) with _ | w
        · simp
        · by_cases hc : v = w ∧ ¬ isPopular x v
          · obtain ⟨hveq, hp⟩ := hc
            subst hveq
            have hp' : isPopular x v = false := by simpa using hp
            have := ih j'
            simp [hp']
            omega
          · simp only [if_neg hc]
            exact Nat.zero_le _

theorem chainLen_diag {α : Type} [DecidableEq α] (x : List α) :
    ∀ i, chainLen x i i = diagRun x i := by
  intro i
  induction i with
  | zero =>
    unfold chainLen diagRun
    rcases h0 : x.get? 0 with _ | v
    · simp
    · by_cases hp : isPopular x v
      · simp [hp]
      · have hp' : isPopular x v = false := by simpa using hp
        simp [hp']
  | succ i ih =>
    unfold chainLen diagRun
    rcases h0 : x.get? (i + 1) with _ | v
    · simp
    · by_cases hp : isPopular x v
      · simp [hp]
      · have hp' : isPopular x v = false := by simpa using hp
        simp [hp', ih]


/-- The body of the fold inside one chain row (reads come from the fixed
previous-row map `pm`). -/
def flmRowStep (pm : Nat → Nat) (i : Nat) (acc : (Nat → Nat) × Match)
    (j : Nat) : (Nat → Nat) × Match :=
  let k := (if j = 0 then 0 else pm (j - 1)) + 1
  let newmap : Nat → Nat := fun q => if q = j then k else acc.1 q
  let best' := if k > acc.2.size then Match.mk (i + 1 - k) (j + 1 - k) k
    else acc.2
  (newmap, best')

theorem flmRow_eq_foldl (i : Nat) (js : List Nat) (pm : Nat → Nat)
    (best : Match) :
    flmRow i js pm best =
      js.foldl (flmRowStep pm i) ((fun _ => 0 : Nat → Nat), best) := rfl

/-- The chain value read in a row equals `chainLen` when both elements carry
the (non-popular) row value. -/
theorem chainRead {α : Type} [DecidableEq α] (x : List α) (i j : Nat) (vi : α)
    (hvi : x.get? i = some vi) (hpop : isPopular x vi = false)
    (hvj : x.get? j = some vi)
    (pm : Nat → Nat)
    (hpm : ∀ q, pm q = if i = 0 then 0 else chainLen x (i - 1) q) :
    (if j = 0 then 0 else pm (j - 1)) + 1 = chainLen x i j := by
  have hcond : vi = vi ∧ ¬ isPopular x vi := ⟨rfl, by simp [hpop]⟩
  rcases i with _ | i' <;> rcases j with _ | j'
  · unfold chainLen
    rw [hvi]
    rw [hvi] at hvj
    rw [hvj]
    simp [hpop]
  · unfold chainLen
    rw [hvi, hvj]
    simp only [hpm]
    simp [hpop]
  · unfold chainLen
    rw [hvi, hvj]
    simp [hpop]
  · unfold chainLen
    rw [hvi, hvj]
    simp only [hpm]
    simp [hpop]

/-- Chain lengths vanish at columns past the end of the sequence. -/
theorem chainLen_zero_of_qnone {α : Type} [DecidableEq α] (x : List α)
    (i q : Nat) (hq : x.get? q = none) : chainLen x i q = 0 := by
  rcases i with _ | i' <;> rcases q with _ | q' <;> unfold chainLen <;>
    rw [hq] <;> rcases h : x.get? _ with _ | w <;> rfl

/-- Chain lengths vanish at columns that do not carry the row value. -/
theorem chainLen_zero_of_ne {α : Type} [DecidableEq α] (x : List α)
    (i q : Nat) (vi : α) (hvi : x.get? i = some vi)
    (hq : x.get? q ≠ some vi) : chainLen x i q = 0 := by
  rcases hqv : x.get? q with _ | w
  · exact chainLen_zero_of_qnone x i q hqv
  · have hw : vi ≠ w := fun he => hq (he ▸ hqv)
    rcases i with _ | i' <;> rcases q with _ | q' <;> unfold chainLen
    · have : vi = w := by
        rw [hvi] at hqv
        exact Option.some.inj hqv
      exact absurd this hw
    · rw [hvi, hqv]
      simp [hw]
    · rw [hvi, hqv]
      simp [hw]
    · rw [hvi, hqv]
      simp [hw]

/-- Chain lengths vanish when the row element is popular. -/
theorem chainLen_zero_of_popular {α : Type} [DecidableEq α] (x : List α)
    (i q : Nat) (vi : α) (hvi : x.get? i = some vi)
    (hpop : isPopular x vi = true) : chainLen x i q = 0 := by
  rcases i with _ | i' <;> rcases q with _ | q' <;> unfold chainLen
  · rw [hvi]
    simp [hpop]
  · rw [hvi]
    rcases h : x.get? (q' + 1) with _ | w <;> simp [hpop]
  · rw [hvi]
    rcases h : x.get? 0 with _ | w <;> simp [hpop]
  · rw [hvi]
    rcases h : x.get? (q' + 1) with _ | w <;> simp [hpop]

/-- Chain lengths vanish on rows past the end of the sequence. -/
theorem chainLen_zero_of_none {α : Type} [DecidableEq α] (x : List α)
    (i q : Nat) (hvi : x.get? i = none) : chainLen x i q = 0 := by
  rcases i with _ | i' <;> rcases q with _ | q' <;> unfold chainLen <;>
    rw [hvi] <;> rfl

/-- Diagonal runs vanish on rows past the end of the sequence. -/
theorem diagRun_zero_of_none {α : Type} [DecidableEq α] (x : List α)
    (i : Nat) (hvi : x.get? i = none) : diagRun x i = 0 := by
  rcases i with _ | i' <;> unfold diagRun <;> rw [hvi]

/-- Diagonal runs vanish on popular rows. -/
theorem diagRun_zero_of_popular {α : Type} [DecidableEq α] (x : List α)
    (i : Nat) (vi : α) (hvi : x.get? i = some vi)
    (hpop : isPopular x vi = true) : diagRun x i = 0 := by
  rcases i with _ | i' <;> unfold diagRun <;> rw [hvi] <;> simp [hpop]

/-- Fold invariant for one chain row of the self-comparison: the best block
stays diagonal and its size tracks the maximal diagonal run. -/
theorem flmRowFold_diag {α : Type} [DecidableEq α] (x : List α) (i : Nat)
    (vi : α) (hvi : x.get? i = some vi) (hpop : isPopular x vi = false)
    (pm : Nat → Nat)
    (hpm : ∀ q, pm q = if i = 0 then 0 else chainLen x (i - 1) q) :
    ∀ (l : List Nat), (∀ j ∈ l, x.get? j = some vi) →
      List.Pairwise (· < ·) l →
      ∀ (acc : (Nat → Nat) × Match),
      (∀ q, acc.1 q = if x.get? q = some vi ∧ q ∉ l then chainLen x i q else 0) →
      ((i ∈ l ∧ acc.2.a = acc.2.b ∧ acc.2.size = maxDiag x i) ∨
       (i ∉ l ∧ (∀ j ∈ l, i < j) ∧ acc.2.a = acc.2.b ∧
        acc.2.size = maxDiag x (i + 1))) →
      (∀ q, (l.foldl (flmRowStep pm i) acc).1 q =
          if x.get? q = some vi then chainLen x i q else 0) ∧
      (l.foldl (flmRowStep pm i) acc).2.a =
        (l.foldl (flmRowStep pm i) acc).2.b ∧
      (l.foldl (flmRowStep pm i) acc).2.size = maxDiag x (i + 1) := by
  intro l
  induction l with
  | nil =>
    intro _ _ acc hmap hbest
    refine ⟨?_, ?_⟩
    · intro q
      have := hmap q
      simpa using this
    · rcases hbest with h | h
      · exact absurd h.1 (List.not_mem_nil i)
      · exact ⟨h.2.2.1, h.2.2.2⟩
  | cons j rest ihl =>
    intro hmem hpw acc hmap hbest
    have hvj : x.get? j = some vi := hmem j (List.mem_cons_self _ _)
    have hk : (if j = 0 then 0 else pm (j - 1)) + 1 = chainLen x i j :=
      chainRead x i j vi hvi hpop hvj pm hpm
    have hjrest : ∀ y ∈ rest, j < y := by
      intro y hy
      exact List.rel_of_pairwise_cons hpw hy
    have hjnotinrest : j ∉ rest := by
      intro hcon
      exact absurd (hjrest j hcon) (lt_irrefl j)
    have hstep1 : ∀ q, (flmRowStep pm i acc j).1 q =
        if q = j then chainLen x i j else acc.1 q := by
      intro q
      show (if q = j then (if j = 0 then 0 else pm (j - 1)) + 1 else acc.1 q) = _
      rw [hk]
    have hstep2 : (flmRowStep pm i acc j).2 =
        if chainLen x i j > acc.2.size then
          Match.mk (i + 1 - chainLen x i j) (j + 1 - chainLen x i j)
            (chainLen x i j)
        else acc.2 := by
      unfold flmRowStep
      rw [hk]
    simp only [List.foldl_cons]
    apply ihl (fun y hy => hmem y (List.mem_cons_of_mem _ hy))
      (List.Pairwise.sublist (List.sublist_cons_self j rest) hpw)
    · -- map invariant after writing column j
      intro q
      rw [hstep1 q]
      by_cases hq : q = j
      · subst hq
        rw [if_pos rfl, if_pos ⟨hvj, hjnotinrest⟩]
      · rw [if_neg hq, hmap q]
        by_cases hcond : x.get? q = some vi ∧ q ∉ rest
        · rw [if_pos ⟨hcond.1, by
            intro hcon
            rcases List.mem_cons.mp hcon with h | h
            · exact hq h
            · exact hcond.2 h⟩]
          rw [if_pos hcond]
        · rcases (not_and_or.mp hcond) with h | h
          · rw [if_neg (fun hcc => h hcc.1), if_neg (fun hcc => h hcc.1)]
          · have hqin : q ∈ rest := not_not.mp h
            rw [if_neg (fun hcc => hcc.2 (List.mem_cons_of_mem _ hqin)),
              if_neg (fun hcc => hcc.2 hqin)]
    · -- best invariant
      rcases hbest with hb | hb
      · rcases List.mem_cons.mp hb.1 with hij | hirest
        · -- j is the diagonal position i
          subst hij
          rw [chainLen_diag] at hstep2
          by_cases hgt : diagRun x i > acc.2.size
          · right
            rw [hstep2, if_pos hgt]
            refine ⟨hjnotinrest, hjrest, rfl, ?_⟩
            have hmx : maxDiag x (i + 1) = max (maxDiag x i) (diagRun x i) := rfl
            rw [hmx, ← hb.2.2]
            exact (max_eq_right (le_of_lt hgt)).symm
          · right
            rw [hstep2, if_neg hgt]
            refine ⟨hjnotinrest, hjrest, hb.2.1, ?_⟩
            have hmx : maxDiag x (i + 1) = max (maxDiag x i) (diagRun x i) := rfl
            rw [hmx, ← hb.2.2]
            exact (max_eq_left (le_of_not_lt hgt)).symm
        · -- j comes before the diagonal position
          have hji : j < i := hjrest i hirest
          have hkle : chainLen x i j ≤ acc.2.size := by
            rw [hb.2.2]
            exact le_trans (chainLen_le_right x i j) (diagRun_le_maxDiag x hji)
          have hngt : ¬ (chainLen x i j > acc.2.size) := not_lt.mpr hkle
          rw [hstep2, if_neg hngt]
          exact Or.inl ⟨hirest, hb.2.1, hb.2.2⟩
      · -- all remaining columns lie right of the diagonal
        have hkle : chainLen x i j ≤ acc.2.size := by
          rw [hb.2.2.2]
          exact le_trans (chainLen_le_left x i j) (le_max_right _ _)
        have hngt : ¬ (chainLen x i j > acc.2.size) := not_lt.mpr hkle
        rw [hstep2, if_neg hngt]
        exact Or.inr ⟨fun hcon => hb.1 (List.mem_cons_of_mem _ hcon),
          fun y hy => hb.2.1 y (List.mem_cons_of_mem _ hy),
          hb.2.2.1, hb.2.2.2⟩


theorem mem_positionsOf {α : Type} [DecidableEq α] (x : List α) (v : α)
    (j : Nat) : j ∈ positionsOf x v ↔ j < x.length ∧ x.get? j = some v := by
  unfold positionsOf
  rw [List.mem_filter, List.mem_range]
  simp

theorem positionsOf_filter_window {α : Type} [DecidableEq α] (x : List α)
    (v : α) :
    (positionsOf x v).filter (fun j => 0 ≤ j && j < x.length) =
      positionsOf x v := by
  apply List.filter_eq_self.mpr
  intro j hj
  have := (mem_positionsOf x v j).mp hj
  simp [this.1]

theorem positionsOf_pairwise {α : Type} [DecidableEq α] (x : List α) (v : α) :
    List.Pairwise (· < ·) (positionsOf x v) := by
  unfold positionsOf
  exact List.Pairwise.filter _ (List.pairwise_lt_range _)

theorem lt_length_of_get?_eq_some {α : Type} (x : List α) (i : Nat) (v : α)
    (h : x.get? i = some v) : i < x.length := by
  by_contra hcon
  rw [List.get?_eq_none.mpr (by omega)] at h
  exact Option.noConfusion h

/-- One self-comparison chain row: the map becomes the row's chain lengths
and the best block stays diagonal, tracking the maximal diagonal run. -/
theorem flmStep_diag {α : Type} [DecidableEq α] (x : List α) (i : Nat)
    (st : (Nat → Nat) × Match)
    (hmapst : ∀ q, st.1 q = if i = 0 then 0 else chainLen x (i - 1) q)
    (hbest : st.2.a = st.2.b ∧ st.2.size = maxDiag x i) :
    (∀ q, (flmStepRow x x 0 x.length st i).1 q = chainLen x i q) ∧
    (flmStepRow x x 0 x.length st i).2.a =
      (flmStepRow x x 0 x.length st i).2.b ∧
    (flmStepRow x x 0 x.length st i).2.size = maxDiag x (i + 1) := by
  unfold flmStepRow
  rcases hvi : x.get? i with _ | vi
  · refine ⟨fun q => (chainLen_zero_of_none x i q hvi).symm, hbest.1, ?_⟩
    have hr : diagRun x i = 0 := diagRun_zero_of_none x i hvi
    have hmx : maxDiag x (i + 1) = max (maxDiag x i) (diagRun x i) := rfl
    rw [hmx, hr]
    simpa using hbest.2
  · by_cases hpop : isPopular x vi
    · have hb2j : b2j x vi = [] := by
        unfold b2j
        rw [if_pos hpop]
      simp only [hb2j, List.filter_nil]
      have hrow : flmRow i [] st.1 st.2 = ((fun _ => 0 : Nat → Nat), st.2) := rfl
      rw [hrow]
      refine ⟨fun q => (chainLen_zero_of_popular x i q vi hvi hpop).symm,
        hbest.1, ?_⟩
      have hr : diagRun x i = 0 := diagRun_zero_of_popular x i vi hvi hpop
      have hmx : maxDiag x (i + 1) = max (maxDiag x i) (diagRun x i) := rfl
      rw [hmx, hr]
      simpa using hbest.2
    · have hpop' : isPopular x vi = false := by simpa using hpop
      have hb2j : b2j x vi = positionsOf x vi := by
        unfold b2j
        rw [if_neg hpop]
      simp only [hb2j, positionsOf_filter_window]
      rw [flmRow_eq_foldl]
      have hfold := flmRowFold_diag x i vi hvi hpop' st.1 hmapst
        (positionsOf x vi)
        (fun j hj => ((mem_positionsOf x vi j).mp hj).2)
        (positionsOf_pairwise x vi)
        ((fun _ => 0 : Nat → Nat), st.2)
        (by
          intro q
          by_cases hcond : x.get? q = some vi ∧ q ∉ positionsOf x vi
          · exact absurd ((mem_positionsOf x vi q).mpr
              ⟨lt_length_of_get?_eq_some x q vi hcond.1, hcond.1⟩) hcond.2
          · rw [if_neg hcond])
        (Or.inl ⟨(mem_positionsOf x vi i).mpr
            ⟨lt_length_of_get?_eq_some x i vi hvi, hvi⟩, hbest⟩)
      refine ⟨?_, hfold.2⟩
      intro q
      rw [hfold.1 q]
      by_cases hq : x.get? q = some vi
      · rw [if_pos hq]
      · rw [if_neg hq]
        exact (chainLen_zero_of_ne x i q vi hvi hq).symm

/-- Chain-phase state of the self-comparison after `t` rows. -/
theorem flmRowsSelf {α : Type} [DecidableEq α] (x : List α) :
    ∀ t, (∀ q, (flmRows x x 0 0 x.length t).1 q =
        if t = 0 then 0 else chainLen x (t - 1) q) ∧
      (flmRows x x 0 0 x.length t).2.a = (flmRows x x 0 0 x.length t).2.b ∧
      (flmRows x x 0 0 x.length t).2.size = maxDiag x t := by
  intro t
  induction t with
  | zero => exact ⟨fun q => rfl, rfl, rfl⟩
  | succ t ih =>
    have hstep : flmRows x x 0 0 x.length (t + 1) =
        flmStepRow x x 0 x.length (flmRows x x 0 0 x.length t) (0 + t) := rfl
    rw [hstep]
    have hzt : 0 + t = t := Nat.zero_add t
    rw [hzt]
    have h := flmStep_diag x t (flmRows x x 0 0 x.length t) ih.1 ih.2
    refine ⟨fun q => ?_, h.2.1, h.2.2⟩
    rw [h.1 q, if_neg (by omega : ¬ (t + 1 = 0))]
    simp

/-- On identical sequences the front extension pulls a diagonal block back to
the start of the window. -/
theorem extFront_diag_self {α : Type} [DecidableEq α] (x : List α) :
    ∀ d s, d + s ≤ x.length →
      extFront x x 0 0 (fun y => !(isbjunkNone y)) d d s = Match.mk 0 0 (d + s) := by
  intro d
  induction d with
  | zero =>
    intro s _
    show Match.mk 0 0 s = Match.mk 0 0 (0 + s)
    rw [Nat.zero_add]
  | succ d ih =>
    intro s hle
    rcases hv : x.get? d with _ | v
    · have := List.get?_eq_none.mp hv
      omega
    · have hv2 : x[d]? = some v := by
        rw [← List.get?_eq_getElem?]
        exact hv
      have hc : extFrontCond x x 0 0 (fun y => !(isbjunkNone y)) (d + 1) (d + 1) = true := by
        unfold extFrontCond isbjunkNone
        simp [hv2]
      rw [extFront_succ, if_pos hc]
      have hrec := ih (s + 1) (by omega)
      have harg : d + 1 - 1 = d := by omega
      rw [harg, hrec]
      have : d + (s + 1) = d + 1 + s := by omega
      rw [this]
  
/-- On identical sequences the back extension pushes a start-anchored block to
the full length. -/
theorem extBackGo_diag_self {α : Type} [DecidableEq α] (x : List α) :
    ∀ r sz, sz + r = x.length →
      extBackGo x x x.length x.length (fun y => !(isbjunkNone y)) 0 0 r sz =
        x.length := by
  intro r
  induction r with
  | zero =>
    intro sz hsz
    show sz = x.length
    omega
  | succ r ih =>
    intro sz hsz
    have hszlt : sz < x.length := by omega
    rcases hv : x.get? sz with _ | v
    · have := List.get?_eq_none.mp hv
      omega
    · have hv2 : x[sz]? = some v := by
        rw [← List.get?_eq_getElem?]
        exact hv
      have hc : extBackCond x x x.length x.length (fun y => !(isbjunkNone y)) 0 0 sz = true := by
        unfold extBackCond isbjunkNone
        simp [hv2, hszlt]
      rw [extBackGo_succ, if_pos hc]
      exact ih (sz + 1) (by omega)

theorem extBack_mk {α : Type} [DecidableEq α] (a b : List α) (ahi bhi : Nat)
    (p : α → Bool) (ai bj sz : Nat) :
    extBack a b ahi bhi p (Match.mk ai bj sz) =
      Match.mk ai bj (extBackGo a b ahi bhi p ai bj (ahi - (ai + sz)) sz) := rfl

/-- On identical sequences `find_longest_match` returns the full-length
block. -/
theorem flm_self {α : Type} [DecidableEq α] (x : List α) :
    findLongestMatch x x 0 x.length 0 x.length = Match.mk 0 0 x.length := by
  have hrows := flmRowsSelf x x.length
  have hchain : flmChain x x 0 x.length 0 x.length =
      (flmRows x x 0 0 x.length (x.length - 0)).2 := rfl
  have hsub : x.length - 0 = x.length := Nat.sub_zero _
  rw [hsub] at hchain
  have hdiag : (flmChain x x 0 x.length 0 x.length).a =
      (flmChain x x 0 x.length 0 x.length).b := by
    rw [hchain]
    exact hrows.2.1
  have hinv := (flmRows_inv x x 0 0 x.length (x.length - 0)).2
  rw [hsub] at hinv
  have hle : (flmChain x x 0 x.length 0 x.length).a +
      (flmChain x x 0 x.length 0 x.length).size ≤ x.length := by
    rw [hchain]
    unfold BestInv at hinv
    rcases hinv with h | h
    · rw [h.1, h.2.1]
      exact Nat.zero_le _
    · omega
  have hunf : findLongestMatch x x 0 x.length 0 x.length =
      extBack x x x.length x.length (fun y => isbjunkNone y)
        (extFrontM x x 0 0 (fun y => isbjunkNone y)
          (extBack x x x.length x.length (fun y => !(isbjunkNone y))
            (extFrontM x x 0 0 (fun y => !(isbjunkNone y))
              (flmChain x x 0 x.length 0 x.length)))) := rfl
  have hfrontm : extFrontM x x 0 0 (fun y => !(isbjunkNone y))
      (flmChain x x 0 x.length 0 x.length) =
      Match.mk 0 0 ((flmChain x x 0 x.length 0 x.length).a +
        (flmChain x x 0 x.length 0 x.length).size) := by
    unfold extFrontM
    rw [← hdiag]
    exact extFront_diag_self x _ _ hle
  have hback := extBackGo_diag_self x
    (x.length - ((flmChain x x 0 x.length 0 x.length).a +
      (flmChain x x 0 x.length 0 x.length).size))
    ((flmChain x x 0 x.length 0 x.length).a +
      (flmChain x x 0 x.length 0 x.length).size)
    (by omega)
  have hback2 : extBack x x x.length x.length (fun y => !(isbjunkNone y))
      (Match.mk 0 0 ((flmChain x x 0 x.length 0 x.length).a +
        (flmChain x x 0 x.length 0 x.length).size)) = Match.mk 0 0 x.length := by
    rw [extBack_mk, Nat.zero_add, hback]
  rw [hunf, hfrontm, hback2, junkPhase_id]

/-- On identical sequences the block recursion returns the single full
block. -/
theorem matchingBlocksRec_self {α : Type} [DecidableEq α] (x : List α) :
    matchingBlocksRec x x 0 x.length 0 x.length =
      if x.length = 0 then [] else [Match.mk 0 0 x.length] := by
  rw [matchingBlocksRec]
  rw [flm_self]
  by_cases h : x.length = 0
  · simp [h]
  · simp [h]

/-- On identical sequences `get_matching_blocks` is one full block plus the
sentinel. -/
theorem getMatchingBlocks_self {α : Type} [DecidableEq α] (x : List α) :
    getMatchingBlocks x x =
      if x.length = 0 then [Match.mk 0 0 0]
      else [Match.mk 0 0 x.length, Match.mk x.length x.length 0] := by
  unfold getMatchingBlocks
  rw [matchingBlocksGo_eq x x (x.length + 1) 0 x.length 0 x.length (by omega)]
  rw [matchingBlocksRec_self]
  by_cases h : x.length = 0
  · rw [if_pos h, if_pos h, h]
    rfl
  · rw [if_neg h, if_neg h]
    simp [mergeAdjacentBlocks, h]

/-- On identical non-empty sequences `get_opcodes` is a single `equal`
opcode covering everything, and on empty ones it is empty. -/
theorem getOpcodes_self {α : Type} [DecidableEq α] (x : List α) :
    getOpcodes x x =
      if x.length = 0 then []
      else [Opcode.mk OpTag.equal 0 x.length 0 x.length] := by
  unfold getOpcodes
  rw [getMatchingBlocks_self]
  by_cases h : x.length = 0
  · rw [if_pos h, if_pos h]
    rfl
  · rw [if_neg h, if_neg h]
    unfold opcodesFromBlocks
    simp only [Nat.zero_add, Nat.add_zero]
    rw [if_neg (by omega : ¬ (0 < 0 ∧ 0 < 0))]
    rw [if_neg (by omega : ¬ (0 < 0))]
    rw [if_neg (by omega : ¬ (0 < 0))]
    rw [if_pos h]
    unfold opcodesFromBlocks
    rw [if_neg (by omega : ¬ (x.length < x.length ∧ x.length < x.length))]
    rw [if_neg (by omega : ¬ (x.length < x.length))]
    rw [if_neg (by omega : ¬ (x.length < x.length))]
    rw [if_neg (by simp : ¬ ((0 : Nat) ≠ 0))]
    rfl

/-- The similarity ratio of a list with itself is 1 (for nonempty lists). -/
theorem ratio_self {α : Type} [DecidableEq α] (x : List α)
    (h : x.length ≠ 0) : ratio x x = 1 := by
  unfold ratio
  rw [getMatchingBlocks_self, if_neg h]
  rw [if_pos (by omega : x.length + x.length ≠ 0)]
  simp only [List.map_cons, List.map_nil, List.sum_cons, List.sum_nil]
  have hnum : (2 * ((x.length + (0 + 0) : Nat) : Int)) =
      ((x.length : Int) + (x.length : Int)) := by push_cast; ring
  rw [hnum]
  exact Rat.divInt_self' (by
    have : 0 < x.length := Nat.pos_of_ne_zero h
    positivity)


/-! ## Engine configuration

`DiffConfig` from `config.py`, with the documented defaults.  Floating point
thresholds are modelled as exact rationals, regular expressions by the
explicit character-class functions below, and the two compiled regex fields
(`tokenize_regex`, which always holds the default token splitter) by the
fixed tokenizer. -/

/-- Inline formatting tag set from `config.py`. -/
def INLINE_FORMATTING_TAGS : List String := ["span", "strong", "b", "em", "i", "u"]

/-- Block wrapper tag set from `config.py`. -/
def BLOCK_WRAPPER_TAGS : List String := ["p", "h1", "h2", "h3", "h4", "h5", "h6"]

/-- Structural tag set from `config.py`. -/
def STRUCTURAL_TAGS : List String :=
  ["p", "br", "table", "ul", "ol", "li", "tr", "td", "th",
   "h1", "h2", "h3", "h4", "h5", "h6"]

structure DiffConfig where
  delete_first : Bool
  linebreak_marker : String
  track_attrs : List String
  visual_container_tags : List String
  visual_atomize_tags : List String
  tokenize_text : Bool
  preserve_whitespace_in_diff : Bool
  merge_adjacent_change_tags : Bool
  visual_replace_inline : Bool
  enable_list_atomization : Bool
  enable_table_atomization : Bool
  enable_inline_wrapper_atomization : Bool
  force_event_diff_on_equal_for_tags : List String
  wrap_void_tag_changes_with_ins_del : List String
  add_diff_ids : Bool
  diff_id_attr : String
  sequence_match_threshold : Nat
  bulk_replace_similarity_threshold : ℚ
deriving Repr

/-- The default configuration values of `DiffConfig` in `config.py`. -/
def defaultConfig : DiffConfig :=
  { delete_first := true
    linebreak_marker := "¶"
    track_attrs := ["style", "class", "src", "href", "ref", "data-ref"]
    visual_container_tags :=
      ["span", "div", "p", "h1", "h2", "h3", "h4", "h5", "h6",
       "strong", "b", "em", "i", "u", "td", "th"]
    visual_atomize_tags :=
      ["span", "p", "div", "h1", "h2", "h3", "h4", "h5", "h6",
       "strong", "b", "em", "i", "u"]
    tokenize_text := true
    preserve_whitespace_in_diff := true
    merge_adjacent_change_tags := true
    visual_replace_inline := true
    enable_list_atomization := true
    enable_table_atomization := true
    enable_inline_wrapper_atomization := true
    force_event_diff_on_equal_for_tags := ["img"]
    wrap_void_tag_changes_with_ins_del := ["img"]
    add_diff_ids := true
    diff_id_attr := "data-diff-id"
    sequence_match_threshold := 2
    bulk_replace_similarity_threshold := Rat.divInt 3 10 }

/-! ## String utilities (`utils.py`, `config.py` regexes) -/

/-- Lowercasing via the character list (Python `str.lower` for the ASCII
range used here). -/
def pyLower (s : String) : String :=
  String.mk (s.data.map Char.toLower)

/-- Prefix test on character lists. -/
def listStartsWith : List Char → List Char → Bool
  | [], _ => true
  | _ :: _, [] => false
  | p :: ps, c :: cs => p = c && listStartsWith ps cs

/-- `str.startswith`. -/
def strStartsWith (pre s : String) : Bool :=
  listStartsWith pre.data s.data

/-- Occurrence of a character sequence. -/
def listContainsSeq (pat : List Char) : List Char → Bool
  | [] => listStartsWith pat []
  | c :: rest => listStartsWith pat (c :: rest) || listContainsSeq pat rest

/-- Split on one character, keeping empty pieces (Python `str.split(sep)`). -/
def splitOnCharGo (c : Char) : List Char → List Char → List (List Char)
  | [], acc => [acc.reverse]
  | x :: rest, acc =>
    if x = c then acc.reverse :: splitOnCharGo c rest []
    else splitOnCharGo c rest (x :: acc)

/-- String split on one separator character. -/
def strSplitOnChar (c : Char) (s : String) : List String :=
  (splitOnCharGo c s.data []).map String.mk

/-- Split on a character predicate, keeping empty pieces. -/
def splitPredGo (p : Char → Bool) : List Char → List Char → List String
  | [], acc => [String.mk acc.reverse]
  | x :: rest, acc =>
    if p x then String.mk acc.reverse :: splitPredGo p rest []
    else splitPredGo p rest (x :: acc)

/-- String split on a character predicate. -/
def strSplitPred (p : Char → Bool) (s : String) : List String :=
  splitPredGo p s.data []

/-- Characters matched by the Python regex class `\s` restricted to the
character repertoire this development uses (ASCII whitespace plus NBSP). -/
def pyIsSpace (c : Char) : Bool :=
  c = ' ' || c = '\t' || c = '\n' || c = '\x0D' || c = '\x0B' || c = '\x0C' ||
    c = ' '

/-- Python `str.strip()` over the modelled whitespace class. -/
def pyStrip (s : String) : String :=
  String.mk (((s.data.dropWhile pyIsSpace).reverse.dropWhile pyIsSpace).reverse)

/-- Collapse each maximal whitespace run into one space; the flag remembers
whether the previous character was whitespace. -/
def collapseRunsGo : Bool → List Char → List Char
  | _, [] => []
  | prevWs, c :: rest =>
    if pyIsSpace c then
      if prevWs then collapseRunsGo true rest
      else ' ' :: collapseRunsGo true rest
    else c :: collapseRunsGo false rest

/-- `collapse_ws` from `utils.py`: replace whitespace runs by single spaces
and strip the edges. -/
def collapse_ws (s : String) : String :=
  pyStrip (String.mk (collapseRunsGo false s.data))

/-- `qname_localname` from `utils.py` on the string rendering of a QName. -/
def qname_localname (s : String) : String :=
  if s.data.contains (Char.ofNat 125) then
    let left := (strSplitOnChar (Char.ofNat 125) s).headD ""
    let right := String.intercalate (String.mk [Char.ofNat 125])
      (strSplitOnChar (Char.ofNat 125) s).tail
    if strStartsWith (String.mk [Char.ofNat 123]) left ||
        listContainsSeq [':', '/', '/'] left.data || strStartsWith "http" left then
      right
    else s
  else s

/-- `raw_text_from_events` from `utils.py`: concatenation of the non-empty
text payloads. -/
def raw_text_from_events (events : List Event) : String :=
  String.join (events.filterMap (fun e => match e with
    | Event.Text s => if s ≠ "" then some s else none
    | _ => none))

/-- `extract_text_from_events` from `utils.py`: collapsed, lowercased text
content. -/
def extract_text_from_events (events : List Event) : String :=
  pyLower (collapse_ws (raw_text_from_events events))

/-- Loop body of `longest_common_prefix_len`. -/
def lcpGo : List Char → List Char → Nat
  | a :: as, b :: bs => if a = b then lcpGo as bs + 1 else 0
  | _, _ => 0

/-- `longest_common_prefix_len` from `utils.py`. -/
def longest_common_prefix_len (a b : String) : Nat :=
  lcpGo a.data b.data

/-- Common-prefix count capped at a maximal length. -/
def lcpGoCap : List Char → List Char → Nat → Nat
  | a :: as, b :: bs, cap + 1 => if a = b then lcpGoCap as bs cap + 1 else 0
  | _, _, _ => 0

/-- `longest_common_suffix_len` from `utils.py`: matching suffix length that
does not overlap the first `maxPfx` characters. -/
def longest_common_suffix_len (a b : String) (maxPfx : Nat) : Nat :=
  lcpGoCap a.data.reverse b.data.reverse
    (min (a.length - maxPfx) (b.length - maxPfx))

/-- Tracked attribute keys with the implicit `id` appended
(`utils.attrs_signature` / `has_visual_attrs`). -/
def trackKeys (cfg : DiffConfig) : List String :=
  if cfg.track_attrs.contains "id" then cfg.track_attrs
  else cfg.track_attrs ++ ["id"]

/-- `has_visual_attrs` from `utils.py`: some tracked attribute has a truthy
value. -/
def has_visual_attrs (attrs : Attrs) (cfg : DiffConfig) : Bool :=
  (trackKeys cfg).any (fun k => match attrsGet attrs k with
    | some v => v ≠ ""
    | none => false)

/-- `is_diff_wrapper` from `utils.py`: the artificial `<div class="diff">`
wrapper. -/
def is_diff_wrapper (tag : String) (attrs : Attrs) : Bool :=
  if qname_localname tag = "div" then
    match attrsGet attrs "class" with
    | some cls =>
      cls ≠ "" &&
        ((strSplitPred pyIsSpace cls).filter (fun w => w ≠ "")).contains "diff"
    | none => false
  else false

/-- `attrs_is_empty` from `utils.py`. -/
def attrs_is_empty (attrs : Attrs) : Bool :=
  attrs.isEmpty

/-- `attrs_signature` from `utils.py`, as a `PyVal` tuple. -/
def attrs_signature (attrs : Attrs) (cfg : DiffConfig) : PyVal :=
  PyVal.tup ((trackKeys cfg).filterMap (fun k => match attrsGet attrs k with
    | some v => some (PyVal.tup [PyVal.s k, PyVal.s v])
    | none => none))

/-- `structure_signature` from `utils.py`: tuple of inline-formatting start
tags. -/
def structure_signature (events : List Event) (_cfg : DiffConfig) : PyVal :=
  PyVal.tup (events.filterMap (fun e => match e with
    | Event.Start tag _ =>
      if INLINE_FORMATTING_TAGS.contains (qname_localname tag) then
        some (PyVal.s (qname_localname tag))
      else none
    | _ => none))

/-- Whitespace-only text event test used by `strip_edge_whitespace_events`. -/
def isWsTextEvent : Event → Bool
  | Event.Text s => pyStrip s = ""
  | _ => false

/-- `strip_edge_whitespace_events` from `utils.py`. -/
def strip_edge_whitespace_events (events : List Event) :
    List Event × List Event × List Event :=
  let lead := events.takeWhile isWsTextEvent
  let rest := events.dropWhile isWsTextEvent
  (lead, (rest.reverse.dropWhile isWsTextEvent).reverse,
    (rest.reverse.takeWhile isWsTextEvent).reverse)

/-! ## Adjacent change-tag merging (`utils.merge_adjacent_change_tags`) -/

/-- Last binding of a name, matching the dict built by `_attrs_to_dict`
(later bindings win). -/
def attrsGetLast (attrs : Attrs) (name : String) : Option String :=
  attrsGet attrs.reverse name

/-- Reverse scan of `_find_matching_start_index` over the indexed output. -/
def fmsiGo (lname : String) : List (Nat × Event) → Int → Option Nat
  | [], _ => none
  | (idx, e) :: rest, depth =>
    match e with
    | Event.End t =>
      if qname_localname t = lname then fmsiGo lname rest (depth + 1)
      else fmsiGo lname rest depth
    | Event.Start t _ =>
      if qname_localname t = lname then
        if depth - 1 = 0 then some idx else fmsiGo lname rest (depth - 1)
      else fmsiGo lname rest depth
    | _ => fmsiGo lname rest depth

/-- `_find_matching_start_index` from `utils.py`: index of the START that
matches the last END of `lname` in the output built so far. -/
def findMatchingStartIndex (out : List Event) (lname : String) : Option Nat :=
  fmsiGo lname out.enum.reverse 0

/-- One step of the merge loop in `merge_adjacent_change_tags`. -/
def mergeStep (diffIdAttr : String) (mergeTags : List String)
    (out : List Event) (e : Event) : List Event :=
  match e with
  | Event.Start tag attrs =>
    let lname := qname_localname tag
    let fallthrough := out ++ [e]
    if mergeTags.contains lname then
      match out.getLast? with
      | some (Event.End lastTag) =>
        if qname_localname lastTag = lname then
          if attrs_is_empty attrs then out.dropLast
          else
            match attrsGetLast attrs diffIdAttr with
            | some thisId =>
              if thisId ≠ "" then
                match findMatchingStartIndex out lname with
                | some startIdx =>
                  match out.get? startIdx with
                  | some (Event.Start _ prevAttrs) =>
                    if attrsGetLast prevAttrs diffIdAttr = some thisId then
                      out.dropLast
                    else fallthrough
                  | _ => fallthrough
                | none => fallthrough
              else fallthrough
            | none => fallthrough
        else fallthrough
      | _ => fallthrough
    else fallthrough
  | _ => out ++ [e]

/-- `merge_adjacent_change_tags` from `utils.py` with the default merge tag
set. -/
def merge_adjacent_change_tags (events : List Event) (cfg : DiffConfig) :
    List Event :=
  events.foldl (mergeStep cfg.diff_id_attr ["ins", "del"]) []

/-! ## Style normalization and missing-module semantics

The module that defines `normalize_style_value`, `events_equal_normalized`
and the opcode normalization passes is not part of this tree; these
definitions follow the specification text. -/

/-- Lexicographic comparison of character lists by code point (the order
Python's `sorted` uses on strings). -/
def charListLe : List Char → List Char → Bool
  | [], _ => true
  | _ :: _, [] => false
  | c :: cs, d :: ds =>
    if c.toNat < d.toNat then true
    else if d.toNat < c.toNat then false
    else charListLe cs ds

/-- Lexicographic string comparison by code point. -/
def strLe (a b : String) : Bool := charListLe a.data b.data

/-- Order-preserving insertion by property name, used as the stable sort of
style declarations. -/
def insertSortedPair (p : String × String) :
    List (String × String) → List (String × String)
  | [] => [p]
  | q :: rest => if strLe p.1 q.1 then p :: q :: rest else q :: insertSortedPair p rest

/-- Stable sort of declaration lists by property name. -/
def sortPairsByName (l : List (String × String)) : List (String × String) :=
  l.foldr insertSortedPair []

/-- Modelled from the spec: style values are normalized for equality by
splitting on `;`, trimming each declaration, lowercasing the property name,
trimming the value, dropping empty declarations and sorting the properties
lexicographically.  The normal form is the sorted declaration list. -/
def normalize_style_value (s : String) : List (String × String) :=
  sortPairsByName ((strSplitOnChar ';' s).filterMap (fun d0 =>
    let d := pyStrip d0
    if d = "" then none
    else match strSplitOnChar ':' d with
      | [] => some (pyLower d, "")
      | name :: rest =>
        some (pyLower (pyStrip name), pyStrip (String.intercalate ":" rest))))

/-- Canonical rendering of a normalized style value. -/
def renderStyleNorm (s : String) : String :=
  String.intercalate "; "
    ((normalize_style_value s).map (fun p => p.1 ++ ": " ++ p.2))

/-- Attribute list in the order-insensitive, style-normalized form used for
event equality. -/
def normAttrsForEq (attrs : Attrs) : Attrs :=
  sortPairsByName (attrs.map (fun kv =>
    if kv.1 = "style" then (kv.1, renderStyleNorm kv.2) else kv))

/-- Normalized equality of one event pair. -/
def eventEqNormalized : Event → Event → Bool
  | Event.Start t1 a1, Event.Start t2 a2 =>
    t1 == t2 && normAttrsForEq a1 == normAttrsForEq a2
  | Event.End t1, Event.End t2 => t1 == t2
  | Event.Text s1, Event.Text s2 => s1 == s2
  | _, _ => false

/-- Modelled from the spec: two event streams are equal when they have the
same length and corresponding events agree by variant and payload, with
attribute order ignored, style values normalized and positions never taking
part. -/
def events_equal_normalized (old new : List Event) : Bool :=
  old.length == new.length &&
    (old.zip new).all (fun pq => eventEqNormalized pq.1 pq.2)

/-- Modelled from the spec: an `insert` opcode immediately followed by a
`delete` opcode sharing its anchor is swapped, so deletions precede
insertions. -/
def normalize_opcodes_for_delete_first : List Opcode → List Opcode
  | op1 :: op2 :: rest =>
    match op1.tag, op2.tag with
    | OpTag.insert, OpTag.delete =>
      if op2.i1 = op1.i2 ∧ op2.j1 = op1.j2 then
        op2 :: op1 :: normalize_opcodes_for_delete_first rest
      else op1 :: normalize_opcodes_for_delete_first (op2 :: rest)
    | _, _ => op1 :: normalize_opcodes_for_delete_first (op2 :: rest)
  | l => l

/-- Modelled from the spec: a one-event `delete` of an inline-wrapper start
tag immediately followed by a one-event `insert` of the same tag with
different attributes is fused into a single `replace` covering both. -/
def normalize_inline_wrapper_opcodes (ops : List Opcode)
    (old new : List Event) : List Opcode :=
  match ops with
  | op1 :: op2 :: rest =>
    match op1.tag, op2.tag with
    | OpTag.delete, OpTag.insert =>
      if hfuse : op1.i2 = op1.i1 + 1 ∧ op2.j2 = op2.j1 + 1 then
        match old.get? op1.i1, new.get? op2.j1 with
        | some (Event.Start w1 a1), some (Event.Start w2 a2) =>
          if qname_localname w1 = qname_localname w2 ∧
              INLINE_FORMATTING_TAGS.contains (qname_localname w1) ∧ a1 ≠ a2 then
            Opcode.mk OpTag.replace op1.i1 op1.i2 op2.j1 op2.j2 ::
              normalize_inline_wrapper_opcodes rest old new
          else op1 :: normalize_inline_wrapper_opcodes (op2 :: rest) old new
        | _, _ => op1 :: normalize_inline_wrapper_opcodes (op2 :: rest) old new
      else op1 :: normalize_inline_wrapper_opcodes (op2 :: rest) old new
    | _, _ => op1 :: normalize_inline_wrapper_opcodes (op2 :: rest) old new
  | l => l

/-- Modelled from the spec: the spec lists only the delete-first swap and the
same-tag inline-wrapper fusion as opcode normalizations, so the tag-change
pass adds nothing and is the identity. -/
def normalize_inline_wrapper_tag_change_opcodes (ops : List Opcode)
    (_old _new : List Event) (_cfg : DiffConfig) : List Opcode := ops

/-! ## Pure change predicates (`visual_replace.py`) -/

/-- `can_visual_container_replace` from `visual_replace.py` (it reads only
the configuration from the differ). -/
def can_visual_container_replace (cfg : DiffConfig)
    (oldEvents newEvents : List Event) : Bool :=
  if oldEvents.isEmpty || newEvents.isEmpty then false
  else
    let old := (strip_edge_whitespace_events oldEvents).2.1
    let new := (strip_edge_whitespace_events newEvents).2.1
    if old.isEmpty || new.isEmpty then false
    else
      match old.head?, old.getLast?, new.head?, new.getLast? with
      | some (Event.Start oldTag oldAttrs), some (Event.End _),
        some (Event.Start newTag newAttrs), some (Event.End _) =>
        let oldL := qname_localname oldTag
        let newL := qname_localname newTag
        if ¬ (cfg.visual_container_tags.contains oldL ||
            cfg.visual_container_tags.contains newL) then false
        else
          let oldTxt := extract_text_from_events old
          let newTxt := extract_text_from_events new
          if oldTxt = "" || newTxt = "" then false
          else if collapse_ws oldTxt ≠ collapse_ws newTxt then false
          else if structure_signature old cfg ≠ structure_signature new cfg then
            true
          else if oldL ≠ newL then true
          else if cfg.track_attrs.any
              (fun attr => attrsGet oldAttrs attr ≠ attrsGet newAttrs attr) then
            true
          else if attrsGet oldAttrs "id" ≠ attrsGet newAttrs "id" then true
          else false
      | _, _, _, _ => false

/-- The `unwrap` helper of `can_unwrap_wrapper`: a single inline wrapper with
inner text. -/
def unwrapInfo (events : List Event) : Option (String × String) :=
  if events.length ≥ 3 then
    match events.head?, events.getLast? with
    | some (Event.Start tag0 _), some (Event.End tag1) =>
      if tag0 = tag1 ∧ INLINE_FORMATTING_TAGS.contains (qname_localname tag0) then
        some (qname_localname tag0,
          extract_text_from_events ((events.drop 1).dropLast))
      else none
    | _, _ => none
  else none

/-- `can_unwrap_wrapper` from `visual_replace.py` (the differ argument is
unused by the source). -/
def can_unwrap_wrapper (oldEvents newEvents : List Event) : Bool :=
  let oldPlain := extract_text_from_events oldEvents
  let newPlain := extract_text_from_events newEvents
  match unwrapInfo oldEvents, unwrapInfo newEvents with
  | some (_, otxt), none => otxt ≠ "" && otxt == collapse_ws newPlain
  | none, some (_, ntxt) => ntxt ≠ "" && ntxt == collapse_ws oldPlain
  | _, _ => false

/-- Modelled from the spec: the inner event differ first rewrites the whole
slice as one `replace` when the visual-container-replace test applies. -/
def should_force_visual_replace (old new : List Event) (cfg : DiffConfig) :
    Bool :=
  can_visual_container_replace cfg old new

/-! ## Tokenization (`config._token_split_re`, `text_differ.text_split`) -/

/-- Python `\w` for the repertoire used here: alphanumerics and underscore. -/
def isWordChar (c : Char) : Bool :=
  c.isAlphanum || c = '_'

/-- Character class under the token splitter: whitespace, punctuation or
word. -/
def charCls (c : Char) : Nat :=
  if pyIsSpace c then 0 else if isWordChar c then 2 else 1

/-- Group characters into maximal same-class runs (the effect of splitting on
the token regex and dropping empty parts). -/
def tokenRunsGo : Option (Nat × List Char) → List Char → List String
  | none, [] => []
  | some (_, acc), [] => [String.mk acc.reverse]
  | none, c :: rest => tokenRunsGo (some (charCls c, [c])) rest
  | some (cls, acc), c :: rest =>
    if charCls c = cls then tokenRunsGo (some (cls, c :: acc)) rest
    else String.mk acc.reverse :: tokenRunsGo (some (charCls c, [c])) rest

/-- Group characters into maximal runs tagged with their whitespace flag. -/
def wsRunsGo : Option (Bool × List Char) → List Char → List (Bool × String)
  | none, [] => []
  | some (f, acc), [] => [(f, String.mk acc.reverse)]
  | none, c :: rest => wsRunsGo (some (pyIsSpace c, [c])) rest
  | some (f, acc), c :: rest =>
    if pyIsSpace c = f then wsRunsGo (some (f, c :: acc)) rest
    else (f, String.mk acc.reverse) :: wsRunsGo (some (pyIsSpace c, [c])) rest

/-- Splitting on the captured whitespace regex: alternating word parts
(possibly empty at the edges) and whitespace parts. -/
def splitKeepWs (text : String) : List String :=
  if text = "" then [""]
  else
    let runs := wsRunsGo none text.data
    let runs := if (runs.head?.map Prod.fst).getD false then
        (false, "") :: runs
      else runs
    let runs := if (runs.getLast?.map Prod.fst).getD false then
        runs ++ [(false, "")]
      else runs
    runs.map Prod.snd

/-- Glue each whitespace part onto the following word part (the chained
iterator trick in the legacy branch of `text_split`). -/
def glueGo : List String → List String
  | a :: b :: rest => (a ++ b) :: glueGo rest
  | l => l

/-- `text_split` from `text_differ.py`: tokenizing split by default, legacy
word-plus-whitespace split otherwise. -/
def text_split (cfg : DiffConfig) (text : String) : List String :=
  if cfg.tokenize_text then tokenRunsGo none text.data
  else
    match splitKeepWs text with
    | [] => []
    | w0 :: rest => w0 :: glueGo rest

/-- `cut_leading_space` from `text_differ.py`. -/
def cut_leading_space (s : String) : String × String :=
  (String.mk (s.data.takeWhile pyIsSpace), String.mk (s.data.dropWhile pyIsSpace))


/-! ## Differ state (`StreamDiffer.__init__` fields)

All methods are state-passing functions; the shared mutable diff-id cell
`_diff_id_state` is the `diffIdCounter` field. -/

structure StyleBufEntry where
  tag : String
  oldStyle : String
  events : List Event
  diffId : Option String
deriving DecidableEq, Repr

structure DiffState where
  result : List Event
  stack : List String
  context : Option String
  skipEndFor : List String
  wrapChangeEndFor : List (String × String × Option String)
  diffIdCounter : Nat
  diffIdStack : List String
  styleBuf : List StyleBufEntry
deriving DecidableEq, Repr

/-- Fresh differ state (empty result, empty stacks, counter at 0). -/
def initState : DiffState :=
  DiffState.mk [] [] none [] [] 0 [] []

/-- Python list slice `l[i:j]`. -/
def sliceList {α : Type} (l : List α) (i j : Nat) : List α :=
  (l.take j).drop i

/-- `StreamDiffer.append`: events go to the innermost style buffer when one
is active, to the result otherwise. -/
def dsAppend (st : DiffState) (e : Event) : DiffState :=
  match st.styleBuf.getLast? with
  | none => { st with result := st.result ++ [e] }
  | some buf =>
    { st with styleBuf := st.styleBuf.dropLast ++
        [{ buf with events := buf.events ++ [e] }] }

/-- `StreamDiffer._new_diff_id`. -/
def newDiffId (st : DiffState) : String × DiffState :=
  (toString (st.diffIdCounter + 1),
    { st with diffIdCounter := st.diffIdCounter + 1 })

/-- `StreamDiffer._active_diff_id`. -/
def activeDiffId (st : DiffState) : Option String :=
  st.diffIdStack.getLast?

/-- `StreamDiffer._set_attr`: drop all bindings of the name, append the new
one. -/
def setAttr (attrs : Attrs) (name value : String) : Attrs :=
  (attrs.filter (fun kv => kv.1 ≠ name)) ++ [(name, value)]

/-- `StreamDiffer._change_attrs`: wrapper attributes with the diff id
injected when enabled (allocating a fresh id when no group is active). -/
def changeAttrs (cfg : DiffConfig) (baseAttrs : Attrs) (diffId : Option String)
    (st : DiffState) : Attrs × DiffState :=
  if cfg.add_diff_ids then
    match diffId with
    | some d => (setAttr baseAttrs cfg.diff_id_attr d, st)
    | none =>
      match activeDiffId st with
      | some d => (setAttr baseAttrs cfg.diff_id_attr d, st)
      | none =>
        let (d, st2) := newDiffId st
        (setAttr baseAttrs cfg.diff_id_attr d, st2)
  else (baseAttrs, st)

/-- `StreamDiffer.inject_class`: append the class name to an existing class
value (space-joined) or set it. -/
def inject_cls (attrs : Attrs) (classname : String) : Attrs :=
  let cls := attrsGet attrs "class"
  attrsOr attrs [("class", match cls with
    | some c => if c ≠ "" then c ++ " " ++ classname else classname
    | none => classname)]

/-- `StreamDiffer.inject_refattr`: record changed tracked attributes as
`data-old-*`. -/
def inject_refattr (cfg : DiffConfig) (attrs oldAttrs : Attrs) : Attrs :=
  cfg.track_attrs.foldl (fun acc attr =>
    let oldA := attrsGet oldAttrs attr
    let newA := attrsGet acc attr
    if oldA ≠ newA then
      let acc2 := match newA with
        | some v => attrsOr acc [(attr, v)]
        | none => acc
      match oldA with
      | some v => attrsOr acc2 [("data-old-" ++ attr, v)]
      | none => acc2
    else acc) attrs

/-- `StreamDiffer.enter`. -/
def dsEnter (st : DiffState) (tag : String) (attrs : Attrs) : DiffState :=
  dsAppend { st with stack := st.stack ++ [tag] } (Event.Start tag attrs)

/-- `StreamDiffer.leave`: closes the topmost element when the tag matches,
flushing a pending style-change buffer as a `<del>` with the old style
followed by an `<ins>`, each under a freshly allocated inner id. -/
def dsLeave (cfg : DiffConfig) (st : DiffState) (tag : String) :
    Bool × DiffState :=
  match st.stack.getLast? with
  | none => (false, st)
  | some top =>
    if tag = top then
      let st1 :=
        match st.styleBuf.getLast? with
        | some buf =>
          if buf.tag = tag then
            let s0 := { st with styleBuf := st.styleBuf.dropLast }
            let delAttrs : Attrs :=
              if buf.oldStyle ≠ "" then [("style", buf.oldStyle)] else []
            let (delAttrs, s1) :=
              match buf.diffId with
              | some _ =>
                let (innerId, s1) := newDiffId s0
                (attrsOr delAttrs [(cfg.diff_id_attr, innerId)], s1)
              | none => (delAttrs, s0)
            let s2 := dsAppend s1 (Event.Start "del" delAttrs)
            let s3 := buf.events.foldl dsAppend s2
            let s4 := dsAppend s3 (Event.End "del")
            let (insAttrs, s5) :=
              match buf.diffId with
              | some _ =>
                let (insId, s5) := newDiffId s4
                (([(cfg.diff_id_attr, insId)] : Attrs), s5)
              | none => (([] : Attrs), s4)
            let s6 := dsAppend s5 (Event.Start "ins" insAttrs)
            let s7 := buf.events.foldl dsAppend s6
            dsAppend s7 (Event.End "ins")
          else st
        | none => st
      let st2 := dsAppend st1 (Event.End tag)
      (true, { st2 with stack := st2.stack.dropLast })
    else (false, st)

/-- `StreamDiffer.leave_all`. -/
def dsLeaveAll (st : DiffState) : DiffState :=
  let st1 := st.stack.reverse.foldl (fun s t => dsAppend s (Event.End t)) st
  { st1 with stack := [] }

/-- `StreamDiffer.context` context manager: run the body under the given
context kind, restoring the previous kind afterwards. -/
def withContext (kind : Option String) (body : DiffState → DiffState)
    (st : DiffState) : DiffState :=
  let old := st.context
  let st1 := body { st with context := kind }
  { st1 with context := old }

/-- `StreamDiffer.diff_group` context manager: allocate one id, keep it on
the group stack for the body, pop it afterwards (no-op without ids). -/
def withDiffGroup (cfg : DiffConfig) (body : DiffState → DiffState)
    (st : DiffState) : DiffState :=
  if cfg.add_diff_ids then
    let (d, st1) := newDiffId st
    let st2 := body { st1 with diffIdStack := st1.diffIdStack ++ [d] }
    { st2 with diffIdStack := st2.diffIdStack.dropLast }
  else body st

/-! ## Text marking (`text_differ.mark_text` / `diff_text`) -/

/-- The no-break space used to keep edited whitespace visible. -/
def nbsp : Char := Char.ofNat 160

/-- Group characters into maximal runs by an arbitrary class flag. -/
def runsBy (p : Char → Bool) :
    Option (Bool × List Char) → List Char → List (Bool × String)
  | none, [] => []
  | some (f, acc), [] => [(f, String.mk acc.reverse)]
  | none, c :: rest => runsBy p (some (p c, [c])) rest
  | some (f, acc), c :: rest =>
    if p c = f then runsBy p (some (f, c :: acc)) rest
    else (f, String.mk acc.reverse) :: runsBy p (some (p c, [c])) rest

/-- `_make_ws_visible` from `mark_text`: leading and trailing whitespace and
interior runs of two or more spaces become NBSP runs. -/
def makeWsVisible (s : String) : String :=
  if s = "" then s
  else
    let lead := s.data.takeWhile pyIsSpace
    let s1 := List.replicate lead.length nbsp ++ s.data.dropWhile pyIsSpace
    let trail := s1.reverse.takeWhile pyIsSpace
    let s2 := (List.replicate trail.length nbsp ++
      s1.reverse.dropWhile pyIsSpace).reverse
    (runsBy (fun c => c = ' ') none s2).foldl (fun acc fr =>
      acc ++ (if fr.1 ∧ fr.2.length ≥ 2 then
          String.mk (List.replicate fr.2.length nbsp)
        else fr.2)) ""

/-- `mark_text` from `text_differ.py`. -/
def mark_text (cfg : DiffConfig) (text tag : String) (diffId : Option String)
    (st : DiffState) : DiffState :=
  let preserve := cfg.preserve_whitespace_in_diff ∧
    (qname_localname tag = "del" ∨ qname_localname tag = "ins")
  if preserve then
    let text1 := makeWsVisible text
    let (attrs, st1) := changeAttrs cfg [] diffId st
    let st2 := dsAppend st1 (Event.Start tag attrs)
    let st3 := dsAppend st2 (Event.Text text1)
    dsAppend st3 (Event.End tag)
  else
    let (ws, text1) := cut_leading_space text
    let st1 := if ws ≠ "" then dsAppend st (Event.Text ws) else st
    let (attrs, st2) := changeAttrs cfg [] diffId st1
    let st3 := dsAppend st2 (Event.Start tag attrs)
    let st4 := dsAppend st3 (Event.Text text1)
    dsAppend st4 (Event.End tag)

/-- `InsensitiveSequenceMatcher.get_matching_blocks`: keep blocks above the
effective threshold and the sentinel. -/
def insensitiveMatchingBlocks {α : Type} [DecidableEq α] (a b : List α)
    (threshold : Nat) : List Match :=
  let size := min a.length b.length
  let eff := min threshold (size / 4)
  (getMatchingBlocks a b).filter (fun m => m.size > eff || m.size == 0)

/-- `get_opcodes` as dispatched through the filtered blocks of
`InsensitiveSequenceMatcher`. -/
def insensitiveOpcodes {α : Type} [DecidableEq α] (a b : List α)
    (threshold : Nat) : List Opcode :=
  opcodesFromBlocks (insensitiveMatchingBlocks a b threshold) 0 0

/-- Allocate an id for a pending-buffer flush when ids are enabled. -/
def maybeNewDiffId (cfg : DiffConfig) (st : DiffState) :
    Option String × DiffState :=
  if cfg.add_diff_ids then
    let (d, st1) := newDiffId st
    (some d, st1)
  else (none, st)

/-- `flush_pending` from `diff_text`: paired buffers share one fresh id with
the `del` first; a lone buffer gets its own id. -/
def flushPending (cfg : DiffConfig) (pendingDel pendingIns : List String)
    (st : DiffState) : DiffState :=
  if pendingDel ≠ [] ∧ pendingIns ≠ [] then
    let (d, st1) := maybeNewDiffId cfg st
    let st2 := mark_text cfg (String.join pendingDel) "del" d st1
    mark_text cfg (String.join pendingIns) "ins" d st2
  else
    let st1 :=
      if pendingDel ≠ [] then
        let (d, s) := maybeNewDiffId cfg st
        mark_text cfg (String.join pendingDel) "del" d s
      else st
    if pendingIns ≠ [] then
      let (d, s) := maybeNewDiffId cfg st1
      mark_text cfg (String.join pendingIns) "ins" d s
    else st1

/-- Opcode loop of `diff_text`, threading the pending buffers. -/
def diffTextGo (cfg : DiffConfig) (old new : List String) :
    List Opcode → List String → List String → DiffState → DiffState
  | [], pd, pIns, st => flushPending cfg pd pIns st
  | op :: rest, pd, pIns, st =>
    match op.tag with
    | OpTag.equal =>
      let st1 := flushPending cfg pd pIns st
      let st2 := dsAppend st1 (Event.Text (String.join (sliceList old op.i1 op.i2)))
      diffTextGo cfg old new rest [] [] st2
    | OpTag.replace =>
      let oldPart := String.join (sliceList old op.i1 op.i2)
      let newPart := String.join (sliceList new op.j1 op.j2)
      if oldPart ≠ "" ∧ newPart ≠ "" ∧ pyStrip oldPart = "" ∧
          pyStrip newPart = "" ∧
          ¬ oldPart.data.contains (Char.ofNat 10) ∧
          ¬ oldPart.data.contains (Char.ofNat 13) ∧
          ¬ newPart.data.contains (Char.ofNat 10) ∧
          ¬ newPart.data.contains (Char.ofNat 13) then
        let st1 := flushPending cfg pd pIns st
        let commonLen := lcpGo oldPart.data newPart.data
        let st2 := if commonLen ≠ 0 then
            dsAppend st1 (Event.Text (String.mk (newPart.data.take commonLen)))
          else st1
        let oldRem := String.mk (oldPart.data.drop commonLen)
        let newRem := String.mk (newPart.data.drop commonLen)
        diffTextGo cfg old new rest
          (if oldRem ≠ "" then [oldRem] else [])
          (if newRem ≠ "" then [newRem] else []) st2
      else
        diffTextGo cfg old new rest (pd ++ sliceList old op.i1 op.i2)
          (pIns ++ sliceList new op.j1 op.j2) st
    | OpTag.delete =>
      diffTextGo cfg old new rest (pd ++ sliceList old op.i1 op.i2) pIns st
    | OpTag.insert =>
      diffTextGo cfg old new rest pd (pIns ++ sliceList new op.j1 op.j2) st

/-- `diff_text` from `text_differ.py`. -/
def diff_text (cfg : DiffConfig) (oldText newText : String) (st : DiffState) :
    DiffState :=
  let old := text_split cfg oldText
  let new := text_split cfg newText
  diffTextGo cfg old new
    (insensitiveOpcodes old new cfg.sequence_match_threshold) [] [] st

/-! ## Block processing (`block_processor.py`) -/

/-- The structural tag tuple local to `handle_start_event`. -/
def blockStructuralTags : List String :=
  ["table", "thead", "tbody", "tfoot", "tr", "td", "th", "ul", "ol", "li"]

/-- `handle_start_event` from `block_processor.py`; the flag mirrors the
Python return value. -/
def handle_start_event (cfg : DiffConfig) (tag : String) (attrs : Attrs)
    (st : DiffState) : Bool × DiffState :=
  let lname := qname_localname tag
  let inChange := st.context = some "ins" ∨ st.context = some "del"
  if lname = "br" ∧ inChange then
    let marker := cfg.linebreak_marker
    if st.context = some "ins" then
      let st1 := mark_text cfg marker "ins" none st
      (true, dsEnter st1 tag attrs)
    else
      let (cAttrs, st1) := changeAttrs cfg [] (activeDiffId st) st
      let st2 := dsAppend st1 (Event.Start "del" cAttrs)
      let st3 := dsAppend st2 (Event.Text marker)
      let st4 := dsAppend st3 (Event.Start tag attrs)
      let st5 := dsAppend st4 (Event.End tag)
      let st6 := dsAppend st5 (Event.End "del")
      (true, { st6 with skipEndFor := st6.skipEndFor ++ [lname] })
  else if blockStructuralTags.contains lname ∧ inChange then
    let suffix := if st.context = some "ins" then "added" else "deleted"
    let attrs1 := inject_cls attrs ("tagdiff_" ++ suffix)
    let (attrs2, st1) :=
      if cfg.add_diff_ids then
        match activeDiffId st with
        | some d => (setAttr attrs1 cfg.diff_id_attr d, st)
        | none =>
          let (d, s) := newDiffId st
          (setAttr attrs1 cfg.diff_id_attr d, s)
      else (attrs1, st)
    (true, dsEnter st1 tag attrs2)
  else if BLOCK_WRAPPER_TAGS.contains lname ∧ inChange then
    let changeTag := (st.context).getD ""
    let st1 :=
      if (match st.stack.getLast? with
          | some top => ((qname_localname top = "ul" ∨ qname_localname top = "ol") ∧
              lname ≠ "li" : Bool)
          | none => false) then
        let liAttrs : Attrs :=
          [("class", if st.context = some "ins" then "tagdiff_added"
            else "tagdiff_deleted")]
        let (liAttrs2, s1) :=
          if cfg.add_diff_ids then
            match activeDiffId st with
            | some d => (setAttr liAttrs cfg.diff_id_attr d, st)
            | none =>
              let (d, s) := newDiffId st
              (setAttr liAttrs cfg.diff_id_attr d, s)
          else (liAttrs, st)
        let s2 := dsAppend s1 (Event.Start "li" liAttrs2)
        { s2 with wrapChangeEndFor := s2.wrapChangeEndFor ++ [(lname, "li", none)] }
      else st
    let (cAttrs, st2) := changeAttrs cfg [] (activeDiffId st1) st1
    let st3 := dsAppend st2 (Event.Start changeTag cAttrs)
    let st4 := dsEnter st3 tag attrs
    let st5 := { st4 with wrapChangeEndFor :=
      st4.wrapChangeEndFor ++ [(lname, changeTag, st4.context)] }
    (true, { st5 with context := none })
  else if cfg.wrap_void_tag_changes_with_ins_del.contains lname ∧ inChange then
    let changeTag := (st.context).getD ""
    let (cAttrs, st1) := changeAttrs cfg [] (activeDiffId st) st
    let st2 := dsAppend st1 (Event.Start changeTag cAttrs)
    let st3 := dsEnter st2 tag attrs
    (true, { st3 with wrapChangeEndFor :=
      st3.wrapChangeEndFor ++ [(lname, changeTag, none)] })
  else
    (false, dsEnter st tag attrs)

/-- Unwind loop of `handle_end_event` over the wrapper stack. -/
def handleEndLoop (cfg : DiffConfig) (lname tag : String) :
    Nat → Bool → DiffState → Bool × DiffState
  | 0, handled, st => (handled, st)
  | fuel + 1, handled, st =>
    match st.wrapChangeEndFor.getLast? with
    | some (l, changeTag, restoreCtx) =>
      if l = lname then
        let st1 := { st with wrapChangeEndFor := st.wrapChangeEndFor.dropLast }
        let (handled2, st2) :=
          if ¬ handled then
            let (_, s) := dsLeave cfg st1 tag
            (true, s)
          else (handled, st1)
        let st3 := if changeTag ≠ "" then dsAppend st2 (Event.End changeTag)
          else st2
        let st4 := match restoreCtx with
          | some c => { st3 with context := some c }
          | none => st3
        handleEndLoop cfg lname tag fuel handled2 st4
      else (handled, st)
    | none => (handled, st)

/-- `handle_end_event` from `block_processor.py`. -/
def handle_end_event (cfg : DiffConfig) (tag : String) (st : DiffState) :
    Bool × DiffState :=
  let lname := qname_localname tag
  if st.skipEndFor.getLast? = some lname then
    (true, { st with skipEndFor := st.skipEndFor.dropLast })
  else
    let (handled, st1) :=
      handleEndLoop cfg lname tag (st.wrapChangeEndFor.length + 1) false st
    if handled then (true, st1)
    else
      let (_, st2) := dsLeave cfg st1 tag
      (false, st2)

/-- `handle_text_event` from `block_processor.py`. -/
def handle_text_event (cfg : DiffConfig) (data : String) (st : DiffState) :
    DiffState :=
  match st.context with
  | some ctx =>
    if pyStrip data ≠ "" ∨
        (¬ data.data.contains (Char.ofNat 10) ∧
          ¬ data.data.contains (Char.ofNat 13)) then
      mark_text cfg data ctx none st
    else dsAppend st (Event.Text data)
  | none => dsAppend st (Event.Text data)

/-- `block_process` from `block_processor.py`. -/
def block_process (cfg : DiffConfig) (events : List Event) (st : DiffState) :
    DiffState :=
  events.foldl (fun s e =>
    match e with
    | Event.Start tag attrs => (handle_start_event cfg tag attrs s).2
    | Event.End tag => (handle_end_event cfg tag s).2
    | Event.Text data => handle_text_event cfg data s) st

/-- `StreamDiffer.delete` over a given old-events list. -/
def dsDelete (cfg : DiffConfig) (oldEvents : List Event) (start fin : Nat)
    (st : DiffState) : DiffState :=
  withContext (some "del") (block_process cfg (sliceList oldEvents start fin)) st

/-- `StreamDiffer.insert` over a given new-events list. -/
def dsInsert (cfg : DiffConfig) (newEvents : List Event) (start fin : Nat)
    (st : DiffState) : DiffState :=
  withContext (some "ins") (block_process cfg (sliceList newEvents start fin)) st

/-- `StreamDiffer.unchanged` over a given old-events list. -/
def dsUnchanged (cfg : DiffConfig) (oldEvents : List Event) (start fin : Nat)
    (st : DiffState) : DiffState :=
  withContext none (block_process cfg (sliceList oldEvents start fin)) st


/-! ## Entering replaced elements (`StreamDiffer.enter_mark_replaced`) -/

/-- The `diff_id = active or new; set_attr` idiom. -/
def withFreshOrActiveId (cfg : DiffConfig) (attrs : Attrs) (st : DiffState) :
    Attrs × DiffState :=
  if cfg.add_diff_ids then
    match activeDiffId st with
    | some d => (setAttr attrs cfg.diff_id_attr d, st)
    | none =>
      let (d, s) := newDiffId st
      (setAttr attrs cfg.diff_id_attr d, s)
  else (attrs, st)

/-- Both non-style comparison loops of `enter_mark_replaced`. -/
def nonStyleAttrsMatch (attrs oldAttrs : Attrs) : Bool :=
  attrs.all (fun kv => kv.1 == "style" || attrsGet oldAttrs kv.1 == some kv.2) &&
  oldAttrs.all (fun kv => kv.1 == "style" || attrsGet attrs kv.1 == some kv.2)

/-- `StreamDiffer.enter_mark_replaced`: same-tag style-only changes enter
normally and open a style buffer; otherwise the start tag is marked
`tagdiff_replaced` with `data-old-*` attributes. -/
def enter_mark_replaced (cfg : DiffConfig) (tag : String)
    (attrs oldAttrs : Attrs) (oldTag : Option String) (st : DiffState) :
    DiffState :=
  let oldStyle := (attrsGet oldAttrs "style").getD ""
  let newStyle := (attrsGet attrs "style").getD ""
  if (oldTag = none ∨ oldTag = some tag) ∧ nonStyleAttrsMatch attrs oldAttrs ∧
      normalize_style_value oldStyle ≠ normalize_style_value newStyle then
    let (diffId, attrs1, st1) :=
      if cfg.add_diff_ids then
        match activeDiffId st with
        | some d => (some d, setAttr attrs cfg.diff_id_attr d, st)
        | none =>
          let (d, s) := newDiffId st
          (some d, setAttr attrs cfg.diff_id_attr d, s)
      else (none, attrs, st)
    let st2 := { st1 with stack := st1.stack ++ [tag] }
    let st3 := dsAppend st2 (Event.Start tag attrs1)
    { st3 with styleBuf := st3.styleBuf ++ [StyleBufEntry.mk tag oldStyle [] diffId] }
  else
    let attrs1 := inject_cls attrs "tagdiff_replaced"
    let attrs2 := inject_refattr cfg attrs1 oldAttrs
    let attrs3 := match oldTag with
      | some ot =>
        if ot ≠ tag then attrsOr attrs2 [("data-old-tag", qname_localname ot)]
        else attrs2
      | none => attrs2
    let (attrs4, st1) := withFreshOrActiveId cfg attrs3 st
    let st2 := { st1 with stack := st1.stack ++ [tag] }
    dsAppend st2 (Event.Start tag attrs4)

/-! ## Visual replacement (`visual_replace.py`, stateful parts) -/

/-- `wrap_inline_visual_replace`. -/
def wrap_inline_visual_replace (cfg : DiffConfig) (kind wrapperTag : String)
    (attrs : Attrs) (innerEvents : List Event) (st : DiffState) : DiffState :=
  let (cAttrs, st1) := changeAttrs cfg [] (activeDiffId st) st
  let st2 := dsAppend st1 (Event.Start kind cAttrs)
  let st3 := dsAppend st2 (Event.Start wrapperTag attrs)
  let st4 := withContext none (block_process cfg innerEvents) st3
  let st5 := dsAppend st4 (Event.End wrapperTag)
  dsAppend st5 (Event.End kind)

/-- Inner loop of `wrap_block_visual_replace`: `<br>` becomes a visible
marker, its END suppressed. -/
def wbvrGo (marker : String) : List Event → Nat → DiffState → DiffState
  | [], _, st => st
  | e :: rest, skipBrEnd, st =>
    match e with
    | Event.End t =>
      if skipBrEnd ≠ 0 ∧ qname_localname t = "br" then
        wbvrGo marker rest (skipBrEnd - 1) st
      else wbvrGo marker rest skipBrEnd (dsAppend st e)
    | Event.Start ttag tattrs =>
      if qname_localname ttag = "br" then
        let st1 := dsAppend st (Event.Text marker)
        let st2 := dsAppend st1 (Event.Start ttag tattrs)
        let st3 := dsAppend st2 (Event.End ttag)
        wbvrGo marker rest (skipBrEnd + 1) st3
      else wbvrGo marker rest skipBrEnd (dsAppend st e)
    | _ => wbvrGo marker rest skipBrEnd (dsAppend st e)

/-- `wrap_block_visual_replace`. -/
def wrap_block_visual_replace (cfg : DiffConfig) (kind wrapperTag : String)
    (attrs : Attrs) (innerEvents : List Event) (st : DiffState) : DiffState :=
  let st1 := dsAppend st (Event.Start wrapperTag attrs)
  let (cAttrs, st2) := changeAttrs cfg [] (activeDiffId st1) st1
  let st3 := dsAppend st2 (Event.Start kind cAttrs)
  let st4 := wbvrGo cfg.linebreak_marker innerEvents 0 st3
  let st5 := dsAppend st4 (Event.End kind)
  dsAppend st5 (Event.End wrapperTag)

/-- `render_visual_replace_inline`.  Paths on which the Python code would
raise (a core whose first event is not a start tag) leave the state
unchanged. -/
def render_visual_replace_inline (cfg : DiffConfig)
    (oldEvents newEvents : List Event) (st : DiffState) : DiffState :=
  let lwsNew := (strip_edge_whitespace_events newEvents).1
  let twsNew := (strip_edge_whitespace_events newEvents).2.2
  let oldCore := (strip_edge_whitespace_events oldEvents).2.1
  let newCore := (strip_edge_whitespace_events newEvents).2.1
  let st1 := lwsNew.foldl dsAppend st
  if oldCore.isEmpty ∨ newCore.isEmpty then
    withContext (some "del") (block_process cfg []) st1
  else
    match oldCore.head?, newCore.head? with
    | some (Event.Start oldTag oldAttrs), some (Event.Start newTag newAttrs) =>
      let oldInner := (oldCore.drop 1).dropLast
      let newInner := (newCore.drop 1).dropLast
      let oldL := qname_localname oldTag
      let newL := qname_localname newTag
      let isStructuralCells :=
        (oldL = "td" ∨ oldL = "th") ∧ (newL = "td" ∨ newL = "th")
      let oldWrap := if INLINE_FORMATTING_TAGS.contains oldL ∨
          BLOCK_WRAPPER_TAGS.contains oldL ∨ oldL = "td" ∨ oldL = "th" then
          oldTag else "span"
      let newWrap := if INLINE_FORMATTING_TAGS.contains newL ∨
          BLOCK_WRAPPER_TAGS.contains newL ∨ newL = "td" ∨ newL = "th" then
          newTag else "span"
      let st2 :=
        if isStructuralCells then
          let s1 := dsAppend st1 (Event.Start newTag newAttrs)
          let s2 := wrap_inline_visual_replace cfg "del" "span" oldAttrs oldInner s1
          let s3 := wrap_inline_visual_replace cfg "ins" "span" newAttrs newInner s2
          dsAppend s3 (Event.End newTag)
        else
          let s1 := if BLOCK_WRAPPER_TAGS.contains oldL then
              wrap_block_visual_replace cfg "del" oldWrap oldAttrs oldInner st1
            else wrap_inline_visual_replace cfg "del" oldWrap oldAttrs oldInner st1
          if BLOCK_WRAPPER_TAGS.contains newL then
            wrap_block_visual_replace cfg "ins" newWrap newAttrs newInner s1
          else wrap_inline_visual_replace cfg "ins" newWrap newAttrs newInner s1
      twsNew.foldl dsAppend st2
    | _, _ => st1

/-- Result of the `parse` helper in
`try_visual_wrapper_toggle_without_dup`. -/
inductive VwtSide where
  | plain (lws : List Event) (text : String) (tws : List Event)
  | wrapped (lws : List Event) (inner : List Event) (tws : List Event)
      (tag : String) (attrs : Attrs) (lname : String)

/-- All-text test on a wrapper body. -/
def vwtIsTextOnly : List Event → Bool
  | [] => true
  | Event.Text _ :: rest => vwtIsTextOnly rest
  | _ => false

/-- The `parse` helper of `try_visual_wrapper_toggle_without_dup`. -/
def vwtParse (events : List Event) : Option VwtSide :=
  let parts := strip_edge_whitespace_events events
  let lws := parts.1
  let core := parts.2.1
  let tws := parts.2.2
  match core with
  | [Event.Text t] => some (VwtSide.plain lws t tws)
  | _ =>
    if core.length ≥ 3 then
      match core.head?, core.getLast? with
      | some (Event.Start tag attrs), some (Event.End endTag) =>
        let lname := qname_localname tag
        if INLINE_FORMATTING_TAGS.contains lname ∧
            qname_localname endTag = lname then
          let inner := (core.drop 1).dropLast
          if inner ≠ [] ∧ vwtIsTextOnly inner then
            some (VwtSide.wrapped lws inner tws tag attrs lname)
          else none
        else none
      | _, _ => none
    else none

/-- `try_visual_wrapper_toggle_without_dup`. -/
def try_visual_wrapper_toggle_without_dup (cfg : DiffConfig)
    (oldEvents newEvents : List Event) (st : DiffState) : Bool × DiffState :=
  match vwtParse oldEvents, vwtParse newEvents with
  | some (VwtSide.plain _ oText _),
    some (VwtSide.wrapped nLws nInner nTws nTag nAttrs _) =>
    if ¬ has_visual_attrs nAttrs cfg then (false, st)
    else if collapse_ws oText ≠ collapse_ws (extract_text_from_events nInner) then
      (false, st)
    else
      let st1 := nLws.foldl dsAppend st
      let attrs2 := inject_cls nAttrs "tagdiff_replaced"
      let attrs3 := attrsOr attrs2 [("data-old-tag", "none")]
      let (attrs4, st2) := withFreshOrActiveId cfg attrs3 st1
      let st3 := dsAppend st2 (Event.Start nTag attrs4)
      let st4 := nInner.foldl dsAppend st3
      let st5 := dsAppend st4 (Event.End nTag)
      (true, nTws.foldl dsAppend st5)
  | some (VwtSide.wrapped _ oInner _ _ oAttrs oLname),
    some (VwtSide.plain nLws nText nTws) =>
    if ¬ has_visual_attrs oAttrs cfg then (false, st)
    else if collapse_ws (extract_text_from_events oInner) ≠ collapse_ws nText then
      (false, st)
    else
      let st1 := nLws.foldl dsAppend st
      let spanAttrs : Attrs := attrsOr [] [("data-old-tag", oLname)]
      let spanAttrs2 := inject_refattr cfg spanAttrs oAttrs
      let spanAttrs3 := inject_cls spanAttrs2 "tagdiff_replaced"
      let (spanAttrs4, st2) := withFreshOrActiveId cfg spanAttrs3 st1
      let st3 := dsAppend st2 (Event.Start "span" spanAttrs4)
      let st4 := dsAppend st3 (Event.Text nText)
      let st5 := dsAppend st4 (Event.End "span")
      (true, nTws.foldl dsAppend st5)
  | _, _ => (false, st)

/-- Depth scan of `find_inline_wrapper_bounds` for the matching END. -/
def fiwbGo (wname : String) : List (Nat × Event) → Int → Option Nat
  | [], _ => none
  | (j, e) :: rest, depth =>
    match e with
    | Event.Start t _ =>
      if qname_localname t = wname then fiwbGo wname rest (depth + 1)
      else fiwbGo wname rest depth
    | Event.End t =>
      if qname_localname t = wname then
        if depth - 1 = 0 then some j else fiwbGo wname rest (depth - 1)
      else fiwbGo wname rest depth
    | _ => fiwbGo wname rest depth

/-- Start-of-inline-wrapper test. -/
def isInlineWrapperStart : Event → Bool
  | Event.Start t _ => INLINE_FORMATTING_TAGS.contains (qname_localname t)
  | _ => false

/-- `find_inline_wrapper_bounds`. -/
def find_inline_wrapper_bounds (events : List Event) : Option (Nat × Nat) :=
  match events.enum.find? (fun ie => isInlineWrapperStart ie.2) with
  | none => none
  | some (startIdx, e) =>
    let wname := match e with
      | Event.Start t _ => qname_localname t
      | _ => ""
    match fiwbGo wname (events.enum.drop startIdx) 0 with
    | none => none
    | some endIdx =>
      if events.enum.any (fun ie =>
          (ie.1 < startIdx ∨ ie.1 > endIdx) ∧ isInlineWrapperStart ie.2) then
        none
      else some (startIdx, endIdx)

/-- `validate_prefix_suffix_alignment`. -/
def validate_prefix_suffix_alignment (preText sufText oldText newText : String) :
    Bool :=
  let preLen := longest_common_prefix_len oldText newText
  let sufLen := longest_common_suffix_len oldText newText preLen
  preLen == preText.length && sufLen == sufText.length

/-- `try_inline_wrapper_to_plain`. -/
def try_inline_wrapper_to_plain (cfg : DiffConfig)
    (oldEvents newEvents : List Event) (st : DiffState) : Bool × DiffState :=
  match newEvents with
  | [Event.Text newText] =>
    if oldEvents.isEmpty then (false, st)
    else
      match find_inline_wrapper_bounds oldEvents with
      | none => (false, st)
      | some (startIdx, endIdx) =>
        let prefixEvents := oldEvents.take startIdx
        let wrapperEvents := sliceList oldEvents startIdx (endIdx + 1)
        let suffixEvents := oldEvents.drop (endIdx + 1)
        let oldText := raw_text_from_events oldEvents
        let preText := raw_text_from_events prefixEvents
        let sufText := raw_text_from_events suffixEvents
        if ¬ validate_prefix_suffix_alignment preText sufText oldText newText then
          (false, st)
        else
          let preLen := longest_common_prefix_len oldText newText
          let sufLen := longest_common_suffix_len oldText newText preLen
          let midNew := String.mk ((newText.data.take
            (if sufLen ≠ 0 then newText.length - sufLen else newText.length)).drop
              preLen)
          let st1 := if preText ≠ "" then dsAppend st (Event.Text preText) else st
          let st2 := withContext (some "del") (block_process cfg wrapperEvents) st1
          let st3 := if midNew ≠ "" then mark_text cfg midNew "ins" none st2
            else st2
          let st4 := if sufText ≠ "" then dsAppend st3 (Event.Text sufText)
            else st3
          (true, st4)
  | _ => (false, st)

/-! ## Inline formatting diff (`diff_inline_formatting.py`) -/

structure TextSpan where
  text : String
  formatting : List (String × Attrs)
  startChar : Nat
  endChar : Nat
deriving Repr

/-- Pop the last stack entry with the given local name. -/
def removeFirstFmt : List (String × Attrs) → String → List (String × Attrs)
  | [], _ => []
  | p :: rest, lname =>
    if qname_localname p.1 = lname then rest
    else p :: removeFirstFmt rest lname

/-- Drop, from the end, the first formatting entry matching the name. -/
def removeLastFmt (stack : List (String × Attrs)) (lname : String) :
    List (String × Attrs) :=
  (removeFirstFmt stack.reverse lname).reverse

/-- Walk of `extract_text_spans`. -/
def extractTextSpansGo :
    List Event → List (String × Attrs) → Nat → List TextSpan
  | [], _, _ => []
  | e :: rest, stack, pos =>
    match e with
    | Event.Start tag attrs =>
      if INLINE_FORMATTING_TAGS.contains (qname_localname tag) then
        extractTextSpansGo rest (stack ++ [(tag, attrs)]) pos
      else extractTextSpansGo rest stack pos
    | Event.End tag =>
      let lname := qname_localname tag
      if INLINE_FORMATTING_TAGS.contains lname ∧ stack ≠ [] then
        extractTextSpansGo rest (removeLastFmt stack lname) pos
      else extractTextSpansGo rest stack pos
    | Event.Text t =>
      if t ≠ "" then
        TextSpan.mk t stack pos (pos + t.length) ::
          extractTextSpansGo rest stack (pos + t.length)
      else extractTextSpansGo rest stack pos

/-- `extract_text_spans`. -/
def extract_text_spans (events : List Event) : List TextSpan :=
  extractTextSpansGo events [] 0

/-- `find_formatting_at_pos`. -/
def find_formatting_at_pos (spans : List TextSpan) (pos : Nat) :
    List (String × Attrs) :=
  match spans.find? (fun sp => sp.startChar ≤ pos ∧ pos < sp.endChar) with
  | some sp => sp.formatting
  | none => []

/-- `emit_text_with_formatting`. -/
def emit_text_with_formatting (cfg : DiffConfig) (text : String)
    (formatting : List (String × Attrs)) (changeTag : Option String)
    (st : DiffState) : DiffState :=
  if text = "" then st
  else
    let st1 := match changeTag with
      | some ct =>
        let (d, s) := maybeNewDiffId cfg st
        let (attrs, s2) := changeAttrs cfg [] d s
        dsAppend s2 (Event.Start ct attrs)
      | none => st
    let st2 := formatting.foldl (fun s ta => dsAppend s (Event.Start ta.1 ta.2)) st1
    let st3 := dsAppend st2 (Event.Text text)
    let st4 := formatting.reverse.foldl (fun s ta => dsAppend s (Event.End ta.1)) st3
    match changeTag with
    | some ct => dsAppend st4 (Event.End ct)
    | none => st4

/-- First-event-is-start test. -/
def headIsStart (events : List Event) : Bool :=
  match events.head? with
  | some (Event.Start _ _) => true
  | _ => false

/-- Last-event-is-end test. -/
def lastIsEnd (events : List Event) : Bool :=
  match events.getLast? with
  | some (Event.End _) => true
  | _ => false

/-- Per-span emission of `diff_inline_formatting`. -/
def difSpanStep (cfg : DiffConfig) (oldSpans : List TextSpan)
    (st : DiffState) (span : TextSpan) : DiffState :=
  let text := span.text
  let newFmt := span.formatting
  let startPos := span.startChar
  let oldFmt := find_formatting_at_pos oldSpans startPos
  let oldNames := oldFmt.map (fun ta => qname_localname ta.1)
  let newNames := newFmt.map (fun ta => qname_localname ta.1)
  if oldNames = newNames then
    emit_text_with_formatting cfg text newFmt none st
  else
    let found := oldSpans.find? (fun osp =>
      osp.startChar ≤ startPos ∧ startPos < osp.endChar)
    let pair := match found with
      | some osp =>
        let overlapStart := max osp.startChar startPos
        let overlapEnd := min osp.endChar span.endChar
        if overlapStart < overlapEnd then
          (String.mk ((osp.text.data.take (overlapEnd - osp.startChar)).drop
            (overlapStart - osp.startChar)), osp.formatting)
        else ("", oldFmt)
      | none => ("", oldFmt)
    withDiffGroup cfg (fun s =>
      let s1 := emit_text_with_formatting cfg
        (if pair.1 ≠ "" then pair.1 else text) pair.2 (some "del") s
      emit_text_with_formatting cfg text newFmt (some "ins") s1) st

/-- `diff_inline_formatting`. -/
def diff_inline_formatting (cfg : DiffConfig)
    (oldEvents newEvents : List Event) (st : DiffState) : Bool × DiffState :=
  let oldChildren := if oldEvents.length > 2 ∧ headIsStart oldEvents ∧
      lastIsEnd oldEvents then (oldEvents.drop 1).dropLast else oldEvents
  let newChildren := if newEvents.length > 2 ∧ headIsStart newEvents ∧
      lastIsEnd newEvents then (newEvents.drop 1).dropLast else newEvents
  let oldSpans := extract_text_spans oldChildren
  let newSpans := extract_text_spans newChildren
  let oldText := String.join (oldSpans.map (fun sp => sp.text))
  let newText := String.join (newSpans.map (fun sp => sp.text))
  if collapse_ws oldText ≠ collapse_ws newText then (false, st)
  else
    let st1 := if newEvents.length > 2 ∧ headIsStart newEvents then
        match newEvents.head? with
        | some (Event.Start t a) => dsEnter st t a
        | _ => st
      else st
    let st2 := newSpans.foldl (difSpanStep cfg oldSpans) st1
    let st3 := if newEvents.length > 2 ∧ lastIsEnd newEvents then
        match newEvents.getLast? with
        | some (Event.End t) => (dsLeave cfg st2 t).2
        | _ => st2
      else st2
    (true, st3)

/-! ## Replace machinery (`StreamDiffer.replace` and helpers) -/

/-- `longzip` from `parser.py`. -/
def longzip {α β : Type} : List α → List β → List (Option α × Option β)
  | [], bs => bs.map (fun b => (none, some b))
  | a :: as, [] => (some a, none) :: longzip as []
  | a :: as, b :: bs => (some a, some b) :: longzip as bs

/-- Text-event test. -/
def eventIsText : Event → Bool
  | Event.Text _ => true
  | _ => false

/-- Start-or-end test. -/
def eventIsTag : Event → Bool
  | Event.Start _ _ => true
  | Event.End _ => true
  | _ => false

/-- Same-variant test. -/
def eventTypesEqual : Event → Event → Bool
  | Event.Start _ _, Event.Start _ _ => true
  | Event.End _, Event.End _ => true
  | Event.Text _, Event.Text _ => true
  | _, _ => false

/-- `StreamDiffer._handle_replace_special_cases`. -/
def handleReplaceSpecialCases (cfg : DiffConfig)
    (oldFull newFull : List Event) (oldStart oldEnd newStart newEnd : Nat)
    (st : DiffState) : Bool × DiffState :=
  let old := sliceList oldFull oldStart oldEnd
  let new := sliceList newFull newStart newEnd
  let (h1, st1) := try_inline_wrapper_to_plain cfg old new st
  if h1 then (true, st1)
  else
    let (h2, st2) := try_visual_wrapper_toggle_without_dup cfg old new st1
    if h2 then (true, st2)
    else if new.length = 1 ∧ (new.head?.map eventIsText).getD false = true ∧
        old.any eventIsTag then
      (true, withDiffGroup cfg (fun s =>
        dsInsert cfg newFull newStart newEnd
          (dsDelete cfg oldFull oldStart oldEnd s)) st2)
    else if can_unwrap_wrapper old new then
      (true, withDiffGroup cfg (fun s =>
        dsInsert cfg newFull newStart newEnd
          (dsDelete cfg oldFull oldStart oldEnd s)) st2)
    else if can_visual_container_replace cfg old new then
      if cfg.visual_replace_inline then
        (true, withDiffGroup cfg (render_visual_replace_inline cfg old new) st2)
      else
        (true, withDiffGroup cfg (fun s =>
          dsInsert cfg newFull newStart newEnd
            (dsDelete cfg oldFull oldStart oldEnd s)) st2)
    else (false, st2)

/-- `StreamDiffer._handle_matching_event_types`. -/
def handleMatchingEventTypes (cfg : DiffConfig) (oldEvent newEvent : Event)
    (st : DiffState) : DiffState :=
  match oldEvent, newEvent with
  | Event.Start _ oldAttrs, Event.Start tag attrs =>
    enter_mark_replaced cfg tag attrs oldAttrs none st
  | Event.End oldTag, Event.End tag =>
    let (ok, st1) := dsLeave cfg st tag
    if ¬ ok then (dsLeave cfg st1 oldTag).2 else st1
  | Event.Text oldText, Event.Text newText => diff_text cfg oldText newText st
  | _, _ => dsAppend st newEvent

/-- `StreamDiffer._handle_mismatched_event_types`; the flag mirrors the
`break` signal. -/
def handleMismatchedEventTypes (cfg : DiffConfig)
    (oldFull newFull : List Event) (oldEvent newEvent : Event)
    (oldStart oldEnd newStart newEnd idx : Nat) (st : DiffState) :
    Bool × DiffState :=
  match oldEvent, newEvent with
  | Event.Text text, Event.Start tag attrs =>
    let st1 := mark_text cfg text "del" none st
    (false, dsEnter st1 tag attrs)
  | Event.Text text, Event.End tag =>
    let st1 := mark_text cfg text "del" none st
    (false, (dsLeave cfg st1 tag).2)
  | Event.Start _ _, Event.Text _ =>
    (true, withDiffGroup cfg (fun s =>
      dsInsert cfg newFull (newStart + idx) newEnd
        (dsDelete cfg oldFull (oldStart + idx) oldEnd s)) st)
  | Event.End _, Event.Text _ =>
    (true, withDiffGroup cfg (fun s =>
      dsInsert cfg newFull (newStart + idx) newEnd
        (dsDelete cfg oldFull (oldStart + idx) oldEnd s)) st)
  | _, _ => (false, st)

/-- Pairwise loop of `StreamDiffer.replace` (the `idx`-shifted slice bounds
reproduce the source exactly). -/
def replaceLoop (cfg : DiffConfig) (oldFull newFull : List Event)
    (oldStart oldEnd newStart newEnd : Nat) :
    List (Option Event × Option Event) → Nat → DiffState → DiffState
  | [], _, st => st
  | (oe, ne) :: rest, idx, st =>
    match oe, ne with
    | none, some _ => dsInsert cfg newFull (newStart + idx) (newEnd + idx) st
    | some _, none => dsDelete cfg oldFull (oldStart + idx) (oldEnd + idx) st
    | some oldEvent, some newEvent =>
      if eventTypesEqual oldEvent newEvent then
        replaceLoop cfg oldFull newFull oldStart oldEnd newStart newEnd rest
          (idx + 1) (handleMatchingEventTypes cfg oldEvent newEvent st)
      else
        let (brk, st1) := handleMismatchedEventTypes cfg oldFull newFull
          oldEvent newEvent oldStart oldEnd newStart newEnd idx st
        if brk then st1
        else replaceLoop cfg oldFull newFull oldStart oldEnd newStart newEnd
          rest (idx + 1) st1
    | none, none =>
      replaceLoop cfg oldFull newFull oldStart oldEnd newStart newEnd rest
        (idx + 1) st

/-- `StreamDiffer.replace`. -/
def dsReplace (cfg : DiffConfig) (oldFull newFull : List Event)
    (oldStart oldEnd newStart newEnd : Nat) (st : DiffState) : DiffState :=
  let old := sliceList oldFull oldStart oldEnd
  let new := sliceList newFull newStart newEnd
  let (handled, st1) := handleReplaceSpecialCases cfg oldFull newFull oldStart
    oldEnd newStart newEnd st
  if handled then st1
  else replaceLoop cfg oldFull newFull oldStart oldEnd newStart newEnd
    (longzip old new) 0 st1

/-! ## Inner event differ (`event_differ.py`) -/

/-- `_EventDiffer._handle_table_cell_wrapper_pattern` on three consecutive
opcodes. -/
def edTableCellPattern (cfg : DiffConfig) (oldEvents newEvents : List Event)
    (op1 op2 op3 : Opcode) (st : DiffState) : Bool × DiffState :=
  if ¬ (op1.tag = OpTag.replace ∧ op2.tag = OpTag.equal ∧
      op3.tag = OpTag.insert ∧ op1.i2 = op1.i1 + 1 ∧ op2.i2 = op2.i1 + 1 ∧
      op2.j2 = op2.j1 + 1 ∧ op1.j2 ≥ op1.j1 + 2) then (false, st)
  else
    match oldEvents.get? op1.i1, oldEvents.get? op2.i1,
        newEvents.get? op2.j1, newEvents.get? op1.j1 with
    | some (Event.Start _ oldContAttrs), some (Event.Text oldText),
      some (Event.Text newText), some (Event.Start contTag contAttrsNew) =>
      if ¬ (qname_localname contTag = "th" ∨ qname_localname contTag = "td") then
        (false, st)
      else
        let candidates := (newEvents.enum.filter (fun ie =>
          op1.j1 + 1 ≤ ie.1 ∧ ie.1 < op1.j2)).filterMap (fun ie =>
            match ie.2 with
            | Event.Start wtag wattrs =>
              if INLINE_FORMATTING_TAGS.contains (qname_localname wtag) ∧
                  has_visual_attrs wattrs cfg then
                some (ie.1, wtag, wattrs)
              else none
            | _ => none)
        match candidates.getLast? with
        | none => (false, st)
        | some (wrapperIdx, wrapperTag, wrapperAttrs) =>
          if ¬ (op3.j2 ≥ op3.j1 + 1) then (false, st)
          else
            match newEvents.get? op3.j1 with
            | some (Event.End endTag) =>
              if qname_localname endTag ≠ qname_localname wrapperTag then
                (false, st)
              else if collapse_ws oldText ≠ collapse_ws newText then (false, st)
              else
                let st1 := enter_mark_replaced cfg contTag contAttrsNew
                  oldContAttrs none st
                let st2 := (sliceList newEvents (op1.j1 + 1) wrapperIdx).foldl
                  dsAppend st1
                let wAttrs2 := inject_cls wrapperAttrs "tagdiff_replaced"
                let wAttrs3 := attrsOr wAttrs2 [("data-old-tag", "none")]
                let (wAttrs4, st3) := withFreshOrActiveId cfg wAttrs3 st2
                let st4 := dsEnter st3 wrapperTag wAttrs4
                let st5 := dsAppend st4 (Event.Text oldText)
                let st6 := (dsLeave cfg st5 endTag).2
                let st7 := (sliceList newEvents (op3.j1 + 1) op3.j2).foldl
                  dsAppend st6
                (true, st7)
            | _ => (false, st)
    | _, _, _, _ => (false, st)

/-- One plain opcode step of `_EventDiffer.process_events`. -/
def edStep (cfg : DiffConfig) (oldEvents newEvents : List Event) (op : Opcode)
    (st : DiffState) : DiffState :=
  match op.tag with
  | OpTag.replace => dsReplace cfg oldEvents newEvents op.i1 op.i2 op.j1 op.j2 st
  | OpTag.delete => withDiffGroup cfg (dsDelete cfg oldEvents op.i1 op.i2) st
  | OpTag.insert => withDiffGroup cfg (dsInsert cfg newEvents op.j1 op.j2) st
  | OpTag.equal => dsUnchanged cfg oldEvents op.i1 op.i2 st

/-- Dispatch loop of `_EventDiffer.process_events`. -/
def edLoop (cfg : DiffConfig) (oldEvents newEvents : List Event) :
    List Opcode → DiffState → DiffState
  | [], st => st
  | [op], st => edStep cfg oldEvents newEvents op st
  | [op, op2], st =>
    edLoop cfg oldEvents newEvents [op2] (edStep cfg oldEvents newEvents op st)
  | op :: op2 :: op3 :: rest2, st =>
    let (h, st1) := edTableCellPattern cfg oldEvents newEvents op op2 op3 st
    if h then edLoop cfg oldEvents newEvents rest2 st1
    else edLoop cfg oldEvents newEvents (op2 :: op3 :: rest2)
      (edStep cfg oldEvents newEvents op st1)

/-- `_EventDiffer` run: fresh emitter state sharing only the diff-id
counter; returns the produced events and the updated counter. -/
def edRun (cfg : DiffConfig) (oldEvents newEvents : List Event)
    (counter : Nat) : List Event × Nat :=
  let st0 := { initState with diffIdCounter := counter }
  let st1 :=
    if should_force_visual_replace oldEvents newEvents cfg then
      dsLeaveAll (dsReplace cfg oldEvents newEvents 0 oldEvents.length 0
        newEvents.length st0)
    else
      let ops0 := getOpcodes oldEvents newEvents
      let ops1 := if cfg.delete_first then
          normalize_opcodes_for_delete_first ops0
        else ops0
      let ops2 := normalize_inline_wrapper_opcodes ops1 oldEvents newEvents
      let ops3 := normalize_inline_wrapper_tag_change_opcodes ops2 oldEvents
        newEvents cfg
      dsLeaveAll (edLoop cfg oldEvents newEvents ops3 st0)
  (st1.result, st1.diffIdCounter)

/-- `for ev in inner.get_diff_events(): self.append(*ev)` with the shared
id counter. -/
def edAppendInto (cfg : DiffConfig) (oldEvents newEvents : List Event)
    (st : DiffState) : DiffState :=
  let res := edRun cfg oldEvents newEvents st.diffIdCounter
  res.1.foldl dsAppend { st with diffIdCounter := res.2 }


/-! ## Table diffing (`table_differ.py`) -/

/-- Python truthiness of an optional string. -/
def optTruthy (o : Option String) : Bool :=
  (o.getD "") ≠ ""

/-- Keep each key once with its final value at its final position. -/
def dedupLastWins (l : List (String × String)) : List (String × String) :=
  l.foldl (fun acc kv => (acc.filter (fun p => p.1 ≠ kv.1)) ++ [kv]) []

/-- `_attrs_equal_normalized`: dictionary comparison with truthy style values
normalized. -/
def _attrs_equal_normalized (attrs1 attrs2 : Attrs) : Bool :=
  let normalize := fun (attrs : Attrs) =>
    sortPairsByName (dedupLastWins (attrs.map (fun kv =>
      if kv.1 = "style" ∧ kv.2 ≠ "" then (kv.1, renderStyleNorm kv.2) else kv)))
  normalize attrs1 == normalize attrs2

/-- Scan of `find_block_end`: `j` is the absolute index of the inspected
event, the result the index one past the matching close. -/
def fbeGo (tagName : String) : List Event → Nat → Nat → Nat
  | [], j, _ => j
  | e :: rest, j, depth =>
    match e with
    | Event.Start t _ =>
      if qname_localname t = tagName then fbeGo tagName rest (j + 1) (depth + 1)
      else fbeGo tagName rest (j + 1) depth
    | Event.End t =>
      if qname_localname t = tagName then
        if depth = 1 then j + 1 else fbeGo tagName rest (j + 1) (depth - 1)
      else fbeGo tagName rest (j + 1) depth
    | _ => fbeGo tagName rest (j + 1) depth

/-- `find_block_end` from `atomization.py` (also the inline depth scans in
`table_differ.py`). -/
def find_block_end (events : List Event) (startIdx : Nat) (tagName : String) :
    Nat :=
  fbeGo tagName (events.drop (startIdx + 1)) (startIdx + 1) 1

structure Cell where
  tag : String
  events : List Event
  attrs : Attrs
deriving DecidableEq, Repr

/-- Scan of `extract_direct_tr_cells`; the fuel is the event count, enough
because the index strictly increases. -/
def edcGo (trEvents : List Event) : Nat → Nat → List Cell
  | 0, _ => []
  | fuel + 1, i =>
    match trEvents.get? i with
    | none => []
    | some (Event.Start tag attrs) =>
      let lname := qname_localname tag
      if lname = "td" ∨ lname = "th" then
        let j := find_block_end trEvents i lname
        Cell.mk lname (sliceList trEvents i j) attrs :: edcGo trEvents fuel j
      else edcGo trEvents fuel (i + 1)
    | some _ => edcGo trEvents fuel (i + 1)

/-- `extract_direct_tr_cells`. -/
def extract_direct_tr_cells (trEvents : List Event) : List Cell :=
  edcGo trEvents trEvents.length 0

/-- Scan of `extract_tr_blocks`. -/
def etbGo (tableEvents : List Event) : Nat → Nat → List (List Event)
  | 0, _ => []
  | fuel + 1, i =>
    match tableEvents.get? i with
    | none => []
    | some (Event.Start tag _) =>
      if qname_localname tag = "tr" then
        let j := find_block_end tableEvents i "tr"
        sliceList tableEvents i j :: etbGo tableEvents fuel j
      else etbGo tableEvents fuel (i + 1)
    | some _ => etbGo tableEvents fuel (i + 1)

/-- `extract_tr_blocks`: all `<tr>` blocks, rows inside `thead`/`tbody`/
`tfoot` included, the wrappers themselves skipped. -/
def extract_tr_blocks (tableEvents : List Event) : List (List Event) :=
  etbGo tableEvents tableEvents.length 0

/-- `row_key`. -/
def row_key (trEvents : List Event) : String × String :=
  match extract_direct_tr_cells trEvents with
  | [] => ("", "")
  | c0 :: rest =>
    (collapse_ws (extract_text_from_events c0.events),
     match rest with
     | c1 :: _ => collapse_ws (extract_text_from_events c1.events)
     | [] => "")

/-- `cell_key`. -/
def cell_key (cell : Cell) (cfg : DiffConfig) : PyVal :=
  PyVal.tup [PyVal.s cell.tag,
    PyVal.s (collapse_ws (extract_text_from_events cell.events)),
    attrs_signature cell.attrs cfg,
    structure_signature cell.events cfg]

/-- Alignment score of deleting old index `k`
(`best_single_delete_index` body). -/
def bsdiScore {α : Type} [DecidableEq α] (oldk newk : List α) (k : Nat) : Nat :=
  ((List.range (min k newk.length)).countP
    (fun i0 => oldk.get? i0 = newk.get? i0)) +
  (((List.range newk.length).drop k).countP
    (fun i0 => oldk.get? (i0 + 1) = newk.get? i0))

/-- `best_single_delete_index`: least index with maximal score (strict
improvement keeps the earlier index). -/
def best_single_delete_index {α : Type} [DecidableEq α] (oldk newk : List α) :
    Nat :=
  ((List.range oldk.length).foldl (fun acc k =>
    let score := bsdiScore oldk newk k
    if (score : Int) > acc.2 then (k, (score : Int)) else acc)
    ((0 : Nat), (-1 : Int))).1

/-- Alignment score of inserting at new index `k`
(`best_single_insert_index` body). -/
def bsiiScore {α : Type} [DecidableEq α] (oldk newk : List α) (k : Nat) : Nat :=
  ((List.range (min k oldk.length)).countP
    (fun i0 => oldk.get? i0 = newk.get? i0)) +
  (((List.range oldk.length).drop k).countP
    (fun i0 => oldk.get? i0 = newk.get? (i0 + 1)))

/-- `best_single_insert_index`. -/
def best_single_insert_index {α : Type} [DecidableEq α] (oldk newk : List α) :
    Nat :=
  ((List.range newk.length).foldl (fun acc k =>
    let score := bsiiScore oldk newk k
    if (score : Int) > acc.2 then (k, (score : Int)) else acc)
    ((0 : Nat), (-1 : Int))).1

/-- Inheritable CSS property tuple from `table_differ.py`. -/
def _INHERITABLE_PROPS : List String :=
  ["font-family", "font-size", "font-style", "font-weight", "color"]

/-- Python-dict insertion: first position kept, value updated. -/
def dictInsert (d : List (String × String)) (k v : String) :
    List (String × String) :=
  if (attrsGet d k).isSome then
    d.map (fun p => if p.1 = k then (k, v) else p)
  else d ++ [(k, v)]

/-- The inline CSS-declaration dictionaries built in `table_differ.py`. -/
def parseCssDict (s : String) : List (String × String) :=
  (strSplitOnChar ';' s).foldl (fun d part =>
    let p := pyStrip part
    match strSplitOnChar ':' p with
    | name :: v0 :: vrest =>
      dictInsert d (pyLower (pyStrip name))
        (pyStrip (String.intercalate ":" (v0 :: vrest)))
    | _ => d) []

/-- `_merge_inherited_style`. -/
def _merge_inherited_style (delStyleVal tableOldStyle : Option String) :
    Option String :=
  if ¬ optTruthy tableOldStyle then delStyleVal
  else
    let tableProps := parseCssDict (tableOldStyle.getD "")
    let delProps := if optTruthy delStyleVal then
        parseCssDict (delStyleVal.getD "")
      else []
    let step := _INHERITABLE_PROPS.foldl (fun acc prop =>
      match attrsGet tableProps prop with
      | some v =>
        if (attrsGet acc.1 prop).isNone then (acc.1 ++ [(prop, v)], true)
        else acc
      | none => acc) (delProps, false)
    if ¬ step.2 then delStyleVal
    else some (String.intercalate "; "
      (step.1.map (fun p => p.1 ++ ": " ++ p.2)))

/-- The `_align_key` helper of `diff_tr_by_cells`. -/
def alignKey (cell : Cell) : String × String :=
  (cell.tag, collapse_ws (extract_text_from_events cell.events))

/-- Attribute entry of `_normalize_event` (style values normalized). -/
def normCellAttr (kv : String × String) : PyVal :=
  if kv.1 = "style" then
    PyVal.tup [PyVal.s kv.1, PyVal.tup ((normalize_style_value kv.2).map
      (fun p => PyVal.tup [PyVal.s p.1, PyVal.s p.2]))]
  else PyVal.tup [PyVal.s kv.1, PyVal.s kv.2]

/-- `_normalize_event` of `_diff_cell_pair`. -/
def normalizeEventForCell : Event → PyVal
  | Event.Start tag attrs =>
    PyVal.tup [PyVal.n 0, PyVal.s tag,
      PyVal.tup ((sortPairsByName attrs).map normCellAttr)]
  | Event.End tag => PyVal.tup [PyVal.n 1, PyVal.s tag]
  | Event.Text t => PyVal.tup [PyVal.n 2, PyVal.s t]

/-- `_diff_cell_pair` of `diff_tr_by_cells`.  Paths on which the Python code
would raise leave the state unchanged. -/
def diffCellPair (cfg : DiffConfig) (tableOldStyle : Option String)
    (oldCell newCell : Cell) (st : DiffState) : DiffState :=
  let oldEvents := oldCell.events
  let newEvents := newCell.events
  if oldEvents.isEmpty ∨ ¬ headIsStart oldEvents ∨ ¬ lastIsEnd oldEvents then
    withDiffGroup cfg (fun s =>
      withContext (some "ins") (block_process cfg newEvents)
        (withContext (some "del") (block_process cfg oldEvents) s)) st
  else
    let oldAttrs := match oldEvents.head? with
      | some (Event.Start _ a) => a
      | _ => []
    let newAttrs := match newEvents.head? with
      | some (Event.Start _ a) => a
      | _ => oldAttrs
    let sameText := alignKey oldCell = alignKey newCell
    let sameAttrs := _attrs_equal_normalized oldAttrs newAttrs
    if sameText ∧ sameAttrs then
      if optTruthy tableOldStyle then
        match newEvents.head?, newEvents.getLast? with
        | some (Event.Start cellTag cellAttrs), some lastEv =>
          let (diffId, st1) := maybeNewDiffId cfg st
          let (cellAttrs2, st2) := match diffId with
            | some d => (setAttr cellAttrs cfg.diff_id_attr d, st1)
            | none => (cellAttrs, st1)
          let st3 := dsAppend st2 (Event.Start cellTag cellAttrs2)
          let oldContent := (oldEvents.drop 1).dropLast
          let newContent := (newEvents.drop 1).dropLast
          let st4 := withDiffGroup cfg (fun s =>
            let delAttrs : Attrs := [("style", tableOldStyle.getD "")]
            let (innerId, s1) :=
              if diffId.isSome then
                let (x, t) := newDiffId s
                (some x, t)
              else (none, s)
            let delAttrs2 := match innerId with
              | some x => attrsOr delAttrs [(cfg.diff_id_attr, x)]
              | none => delAttrs
            let s2 := dsAppend s1 (Event.Start "del" delAttrs2)
            let s3 := oldContent.foldl dsAppend s2
            let s4 := dsAppend s3 (Event.End "del")
            let (insAttrs, s5) := match innerId with
              | some _ =>
                let (y, t) := newDiffId s4
                (([(cfg.diff_id_attr, y)] : Attrs), t)
              | none => (([] : Attrs), s4)
            let s6 := dsAppend s5 (Event.Start "ins" insAttrs)
            let s7 := newContent.foldl dsAppend s6
            dsAppend s7 (Event.End "ins")) st3
          dsAppend st4 lastEv
        | _, _ => st
      else
        if oldEvents.map normalizeEventForCell = newEvents.map normalizeEventForCell then
          newEvents.foldl dsAppend st
        else edAppendInto cfg oldEvents newEvents st
    else if sameText then
      match newEvents.head?, newEvents.getLast? with
      | some (Event.Start cellTag cellAttrs), some lastEv =>
        let (diffId, st1) := maybeNewDiffId cfg st
        let (cellAttrs2, st2) := match diffId with
          | some d => (setAttr cellAttrs cfg.diff_id_attr d, st1)
          | none => (cellAttrs, st1)
        let st3 := dsAppend st2 (Event.Start cellTag cellAttrs2)
        let oldContent := (oldEvents.drop 1).dropLast
        let newContent := (newEvents.drop 1).dropLast
        let st4 := withDiffGroup cfg (fun s =>
          let oldStyleVal := _merge_inherited_style (attrsGet oldAttrs "style")
            tableOldStyle
          let delAttrs : Attrs :=
            if optTruthy oldStyleVal then [("style", oldStyleVal.getD "")]
            else []
          let (innerDiffId, s1) :=
            if diffId.isSome then
              let (x, t) := newDiffId s
              (some x, t)
            else (none, s)
          let delAttrs2 := match innerDiffId with
            | some x => attrsOr delAttrs [(cfg.diff_id_attr, x)]
            | none => delAttrs
          let s2 := dsAppend s1 (Event.Start "del" delAttrs2)
          let s3 := oldContent.foldl dsAppend s2
          let s4 := dsAppend s3 (Event.End "del")
          let (insAttrs, s5) := match innerDiffId with
            | some _ =>
              let (y, t) := newDiffId s4
              (attrsOr ([] : Attrs) [(cfg.diff_id_attr, y)], t)
            | none => (([] : Attrs), s4)
          let s6 := dsAppend s5 (Event.Start "ins" insAttrs)
          let s7 := newContent.foldl dsAppend s6
          dsAppend s7 (Event.End "ins")) st3
        dsAppend st4 lastEv
      | _, _ => st
    else
      match newEvents.head?, newEvents.getLast? with
      | some (Event.Start cellTag cellAttrs), some cellEnd =>
        let oldContent := (oldEvents.drop 1).dropLast
        let newContent := if newEvents.length > 2 then
            (newEvents.drop 1).dropLast
          else []
        let st1 := dsAppend st (Event.Start cellTag cellAttrs)
        let st2 := withDiffGroup cfg (fun s =>
          let s4 :=
            if oldContent ≠ [] then
              let delTagAttrs : Attrs :=
                if ¬ sameAttrs then
                  let osv := _merge_inherited_style (attrsGet oldAttrs "style")
                    tableOldStyle
                  if optTruthy osv then [("style", osv.getD "")] else []
                else if optTruthy tableOldStyle then
                  let osv := _merge_inherited_style none tableOldStyle
                  if optTruthy osv then [("style", osv.getD "")] else []
                else []
              let (diffId, s1) := maybeNewDiffId cfg s
              let delTagAttrs2 := match diffId with
                | some d => attrsOr delTagAttrs [(cfg.diff_id_attr, d)]
                | none => delTagAttrs
              let s2 := dsAppend s1 (Event.Start "del" delTagAttrs2)
              let s3 := oldContent.foldl dsAppend s2
              dsAppend s3 (Event.End "del")
            else s
          if newContent ≠ [] then
            let (diffId, s5) := maybeNewDiffId cfg s4
            let insAttrs : Attrs := match diffId with
              | some d => attrsOr ([] : Attrs) [(cfg.diff_id_attr, d)]
              | none => []
            let s6 := dsAppend s5 (Event.Start "ins" insAttrs)
            let s7 := newContent.foldl dsAppend s6
            dsAppend s7 (Event.End "ins")
          else s4) st1
        dsAppend st2 cellEnd
      | _, _ => st

/-- Main cell loop of `diff_tr_by_cells` for the general case; the fuel is
the total cell count, enough because `i + j` strictly increases. -/
def dtbcLoop (cfg : DiffConfig) (tableOldStyle : Option String)
    (oldCells newCells : List Cell) (oldAlign newAlign : List (String × String)) :
    Nat → Nat → Nat → DiffState → DiffState
  | 0, _, _, st => st
  | fuel + 1, i, j, st =>
    if i < oldCells.length ∨ j < newCells.length then
      if i < oldCells.length ∧ j < newCells.length ∧
          oldAlign.get? i = newAlign.get? j then
        match oldCells.get? i, newCells.get? j with
        | some oc, some nc =>
          dtbcLoop cfg tableOldStyle oldCells newCells oldAlign newAlign fuel
            (i + 1) (j + 1) (diffCellPair cfg tableOldStyle oc nc st)
        | _, _ => st
      else
        let oldRemaining := oldCells.length - i
        let newRemaining := newCells.length - j
        if i < oldCells.length ∧ oldRemaining > newRemaining then
          dtbcLoop cfg tableOldStyle oldCells newCells oldAlign newAlign fuel
            (i + 1) j
            (withDiffGroup cfg (withContext (some "del") (block_process cfg
              (((oldCells.get? i).map Cell.events).getD []))) st)
        else if j < newCells.length ∧ newRemaining > oldRemaining then
          dtbcLoop cfg tableOldStyle oldCells newCells oldAlign newAlign fuel
            i (j + 1)
            (withDiffGroup cfg (withContext (some "ins") (block_process cfg
              (((newCells.get? j).map Cell.events).getD []))) st)
        else if i < oldCells.length ∧ j < newCells.length then
          match oldCells.get? i, newCells.get? j with
          | some oc, some nc =>
            dtbcLoop cfg tableOldStyle oldCells newCells oldAlign newAlign fuel
              (i + 1) (j + 1) (diffCellPair cfg tableOldStyle oc nc st)
          | _, _ => st
        else
          let p1 :=
            if i < oldCells.length then
              (withDiffGroup cfg (withContext (some "del") (block_process cfg
                (((oldCells.get? i).map Cell.events).getD []))) st, i + 1)
            else (st, i)
          let p2 :=
            if j < newCells.length then
              (withDiffGroup cfg (withContext (some "ins") (block_process cfg
                (((newCells.get? j).map Cell.events).getD []))) p1.1, j + 1)
            else (p1.1, j)
          dtbcLoop cfg tableOldStyle oldCells newCells oldAlign newAlign fuel
            p1.2 p2.2 p2.1
    else st

/-- `diff_tr_by_cells`. -/
def diff_tr_by_cells (cfg : DiffConfig) (oldTrEvents newTrEvents : List Event)
    (tableOldStyle : Option String) (st : DiffState) : DiffState :=
  if oldTrEvents.isEmpty ∨ newTrEvents.isEmpty then
    edAppendInto cfg oldTrEvents newTrEvents st
  else
    let st1 := match oldTrEvents.head? with
      | some e => dsAppend st e
      | none => st
    let oldCells := extract_direct_tr_cells oldTrEvents
    let newCells := extract_direct_tr_cells newTrEvents
    let oldAlign := oldCells.map alignKey
    let newAlign := newCells.map alignKey
    let emitLast := fun (s : DiffState) => match oldTrEvents.getLast? with
      | some e => dsAppend s e
      | none => s
    if oldCells.length = newCells.length + 1 then
      let k := best_single_delete_index oldAlign newAlign
      let st2 := (List.range k).foldl (fun s idx =>
        if idx < newCells.length then
          match oldCells.get? idx, newCells.get? idx with
          | some oc, some nc => diffCellPair cfg tableOldStyle oc nc s
          | _, _ => s
        else
          withDiffGroup cfg (withContext (some "del") (block_process cfg
            (((oldCells.get? idx).map Cell.events).getD []))) s) st1
      let st3 := withDiffGroup cfg (withContext (some "del") (block_process cfg
        (((oldCells.get? k).map Cell.events).getD []))) st2
      let st4 := ((List.range newCells.length).drop k).foldl (fun s idx =>
        match oldCells.get? (idx + 1), newCells.get? idx with
        | some oc, some nc => diffCellPair cfg tableOldStyle oc nc s
        | _, _ => s) st3
      emitLast st4
    else if newCells.length = oldCells.length + 1 then
      let k := best_single_insert_index oldAlign newAlign
      let st2 := (List.range k).foldl (fun s idx =>
        if idx < oldCells.length then
          match oldCells.get? idx, newCells.get? idx with
          | some oc, some nc => diffCellPair cfg tableOldStyle oc nc s
          | _, _ => s
        else
          withDiffGroup cfg (withContext (some "ins") (block_process cfg
            (((newCells.get? idx).map Cell.events).getD []))) s) st1
      let st3 := withDiffGroup cfg (withContext (some "ins") (block_process cfg
        (((newCells.get? k).map Cell.events).getD []))) st2
      let st4 := ((List.range oldCells.length).drop k).foldl (fun s idx =>
        match oldCells.get? idx, newCells.get? (idx + 1) with
        | some oc, some nc => diffCellPair cfg tableOldStyle oc nc s
        | _, _ => s) st3
      emitLast st4
    else
      emitLast (dtbcLoop cfg tableOldStyle oldCells newCells oldAlign newAlign
        (oldCells.length + newCells.length + 1) 0 0 st1)

/-- One aligned row pair of the `equal`/`replace` row loops in
`diff_table_by_rows` (indices read at offsets `i1`/`j1`). -/
def rowPairStep (cfg : DiffConfig) (oldRows newRows : List (List Event))
    (tos : Option String) (i1 j1 : Nat) (s : DiffState) (t : Nat) :
    DiffState :=
  match oldRows.get? (i1 + t), newRows.get? (j1 + t) with
  | some orow, some nrow => diff_tr_by_cells cfg orow nrow tos s
  | _, _ => s

/-- `diff_table_by_rows`. -/
def diff_table_by_rows (cfg : DiffConfig)
    (oldTableEvents newTableEvents : List Event) (st : DiffState) : DiffState :=
  if oldTableEvents.isEmpty ∨ newTableEvents.isEmpty then
    edAppendInto cfg oldTableEvents newTableEvents st
  else
    let pair :=
      match oldTableEvents.head?, newTableEvents.head? with
      | some (Event.Start _ oldAttrs), some (Event.Start _ newAttrs) =>
        let changed := ! _attrs_equal_normalized oldAttrs newAttrs
        (changed,
          if changed then some ((attrsGet oldAttrs "style").getD "") else none)
      | _, _ => (false, none)
    let tableAttrsChanged := pair.1
    let oldTableStyle := pair.2
    let oldAttrsV := match oldTableEvents.head? with
      | some (Event.Start _ a) => a
      | _ => []
    let st1 :=
      if tableAttrsChanged then
        let delAttrs : Attrs :=
          [("class", "structural-revert-data"), ("style", "display:none")]
        let (diffId, s0) := maybeNewDiffId cfg st
        let delAttrs2 := match diffId with
          | some d => attrsOr delAttrs [(cfg.diff_id_attr, d)]
          | none => delAttrs
        let s1 := dsAppend s0 (Event.Start "del" delAttrs2)
        let s2 := oldTableEvents.foldl dsAppend s1
        let s3 := dsAppend s2 (Event.End "del")
        match newTableEvents.head? with
        | some (Event.Start newTag newAttrsOut) =>
          let a1 := inject_cls newAttrsOut "tagdiff_added"
          let a2 := inject_refattr cfg a1 oldAttrsV
          let a3 := match diffId with
            | some d => setAttr a2 cfg.diff_id_attr d
            | none => a2
          dsAppend s3 (Event.Start newTag a3)
        | _ => s3
      else
        match newTableEvents.head? with
        | some e => dsAppend st e
        | none => st
    let oldRows := extract_tr_blocks oldTableEvents
    let newRows := extract_tr_blocks newTableEvents
    let oldKeys := oldRows.map row_key
    let newKeys := newRows.map row_key
    let tos := if tableAttrsChanged then oldTableStyle else none
    let st2 := (getOpcodes oldKeys newKeys).foldl (fun s op =>
      match op.tag with
      | OpTag.equal =>
        (List.range (min (op.i2 - op.i1) (op.j2 - op.j1))).foldl
          (rowPairStep cfg oldRows newRows tos op.i1 op.j1) s
      | OpTag.delete =>
        withDiffGroup cfg (withContext (some "del") (fun s2 =>
          (sliceList oldRows op.i1 op.i2).foldl
            (fun s3 r => block_process cfg r s3) s2)) s
      | OpTag.insert =>
        withDiffGroup cfg (withContext (some "ins") (fun s2 =>
          (sliceList newRows op.j1 op.j2).foldl
            (fun s3 r => block_process cfg r s3) s2)) s
      | OpTag.replace =>
        let n := min (op.i2 - op.i1) (op.j2 - op.j1)
        let s2 := (List.range n).foldl
          (rowPairStep cfg oldRows newRows tos op.i1 op.j1) s
        let s3 := if op.i2 - op.i1 > n then
            withDiffGroup cfg (withContext (some "del") (fun s4 =>
              (sliceList oldRows (op.i1 + n) op.i2).foldl
                (fun s5 r => block_process cfg r s5) s4)) s2
          else s2
        if op.j2 - op.j1 > n then
          withDiffGroup cfg (withContext (some "ins") (fun s4 =>
            (sliceList newRows (op.j1 + n) op.j2).foldl
              (fun s5 r => block_process cfg r s5) s4)) s3
        else s3) st1
    match newTableEvents.getLast? with
    | some e => dsAppend st2 e
    | none => st2


/-! ## Atomization (`atomization.py`) -/

structure Atom where
  kind : String
  key : PyVal
  tag : Option String
  events : List Event
deriving DecidableEq, Repr

/-- `concat_events` from `utils.py`. -/
def concat_events (atoms : List Atom) : List Event :=
  atoms.foldl (fun rv a => rv ++ a.events) []

/-- State of the `_first_n_cell_texts_from_tr_events` walk. -/
structure FnctState where
  texts : List String
  cellIdx : Int
  inCell : Bool
  cellDepth : Nat
  buf : List String
  done : Bool

/-- One event of `_first_n_cell_texts_from_tr_events`. -/
def fnctStep (n : Nat) (st : FnctState) (e : Event) : FnctState :=
  if st.done then st
  else
    match e with
    | Event.Start tag _ =>
      let lname := qname_localname tag
      if lname = "td" ∨ lname = "th" then
        if ¬ st.inCell then
          { st with
              cellIdx := st.cellIdx + 1
              inCell := true
              cellDepth := 1
              buf := [] }
        else { st with cellDepth := st.cellDepth + 1 }
      else st
    | Event.End tag =>
      let lname := qname_localname tag
      if st.inCell ∧ (lname = "td" ∨ lname = "th") then
        if st.cellDepth = 1 then
          let st1 := if st.cellIdx < (n : Int) then
              { st with
                  texts := st.texts ++ [collapse_ws (String.join st.buf)]
                  cellDepth := 0 }
            else { st with cellDepth := 0 }
          let st2 := if st1.texts.length ≥ n then { st1 with done := true }
            else st1
          { st2 with inCell := false }
        else { st with cellDepth := st.cellDepth - 1 }
      else st
    | Event.Text d =>
      if st.inCell ∧ st.cellIdx < (n : Int) then { st with buf := st.buf ++ [d] }
      else st

/-- `_first_n_cell_texts_from_tr_events` (padded to length `n`). -/
def firstNCellTexts (trEvents : List Event) (n : Nat) : List String :=
  let st := trEvents.foldl (fnctStep n) (FnctState.mk [] (-1) false 0 [] false)
  (st.texts ++ List.replicate (n - st.texts.length) "").take n

/-- `build_block_tags_set`. -/
def build_block_tags_set (cfg : DiffConfig) : List String × List String :=
  ((if cfg.enable_list_atomization then ["li"] else []) ++
    (if cfg.enable_table_atomization then ["td", "th", "tr", "table"] else []) ++
    (if cfg.enable_inline_wrapper_atomization then ["b", "strong", "i", "em"]
      else []) ++
    cfg.visual_atomize_tags,
   cfg.visual_atomize_tags)

/-- `has_structural_children`. -/
def has_structural_children (blockEvents : List Event) : Bool :=
  ((blockEvents.drop 1).dropLast).any (fun e => match e with
    | Event.Start t _ => STRUCTURAL_TAGS.contains (qname_localname t)
    | _ => false)

/-- The list-marker test of `_list_marker_re`. -/
def isListMarkerChar (c : Char) : Bool :=
  c = '-' || c = '*' || c = '•' || c = '+'

/-- `_list_marker_re.sub('', ·)`: strip one leading run of list-marker
characters followed by whitespace. -/
def stripListMarker (s : String) : String :=
  let markers := s.data.takeWhile isListMarkerChar
  let rest := s.data.dropWhile isListMarkerChar
  if markers ≠ [] ∧ (rest.head?.map pyIsSpace).getD false then
    String.mk (rest.dropWhile pyIsSpace)
  else s

/-- `create_block_atom_key`. -/
def create_block_atom_key (lname : String) (blockEvents : List Event)
    (attrs : Attrs) (cfg : DiffConfig) (visualTags : List String) : PyVal :=
  let blockText := collapse_ws (extract_text_from_events blockEvents)
  if lname = "td" ∨ lname = "th" then
    PyVal.tup [PyVal.s lname, PyVal.s blockText, attrs_signature attrs cfg,
      structure_signature blockEvents cfg]
  else if lname = "tr" then
    let cs := firstNCellTexts blockEvents 2
    let c0 := cs.headD ""
    let c1 := (cs.drop 1).headD ""
    if c0 ≠ "" ∨ c1 ≠ "" then
      PyVal.tup [PyVal.s lname, PyVal.s c0, PyVal.s c1]
    else PyVal.tup [PyVal.s lname, PyVal.s blockText]
  else if ["li", "p", "h1", "h2", "h3", "h4", "h5", "h6"].contains lname then
    PyVal.tup [PyVal.s "block", PyVal.s (stripListMarker blockText)]
  else if lname = "ul" ∨ lname = "ol" then
    PyVal.tup [PyVal.s lname]
  else if visualTags.contains lname then
    PyVal.tup [PyVal.s lname, PyVal.s blockText, attrs_signature attrs cfg,
      structure_signature blockEvents cfg]
  else
    PyVal.tup [PyVal.s lname, PyVal.s blockText]

/-- Test for an immediately following `</br>` (the `<br>` atom pairing). -/
def isBrEnd : Option Event → Bool
  | some (Event.End t2) => qname_localname t2 = "br"
  | _ => false

/-- `('e', etype, data)` key of a single-event atom. -/
def eventKeyPyVal : Event → PyVal
  | Event.Start tag attrs =>
    PyVal.tup [PyVal.s "e", PyVal.n 0,
      PyVal.tup [PyVal.s tag, PyVal.tup (attrs.map (fun kv =>
        PyVal.tup [PyVal.s kv.1, PyVal.s kv.2]))]]
  | Event.End tag => PyVal.tup [PyVal.s "e", PyVal.n 1, PyVal.s tag]
  | Event.Text t => PyVal.tup [PyVal.s "e", PyVal.n 2, PyVal.s t]

/-- Main loop of `atomize_events`; the fuel is the event count, enough
because the index strictly increases. -/
def atomizeGo (cfg : DiffConfig) (events : List Event)
    (blockTags visualTags : List String) : Nat → Nat → List Atom
  | 0, _ => []
  | fuel + 1, i =>
    match events.get? i with
    | none => []
    | some ev =>
      match ev with
      | Event.Start tag attrs =>
        if qname_localname tag = "br" ∧ isBrEnd (events.get? (i + 1)) then
          Atom.mk "br" (PyVal.tup [PyVal.s "br"]) none
            (ev :: (match events.get? (i + 1) with
              | some e2 => [e2]
              | none => [])) ::
            atomizeGo cfg events blockTags visualTags fuel (i + 2)
        else
          let lname := qname_localname tag
          let wrapper := is_diff_wrapper tag attrs
          if blockTags.contains lname ∧ ¬ wrapper then
            let j := find_block_end events i lname
            let blockEvents := sliceList events i j
            if lname = "div" then
              if ¬ has_structural_children blockEvents then
                let key := if visualTags.contains lname then
                    PyVal.tup [PyVal.s lname,
                      PyVal.s (extract_text_from_events blockEvents),
                      attrs_signature attrs cfg,
                      structure_signature blockEvents cfg]
                  else PyVal.tup [PyVal.s lname,
                    PyVal.s (extract_text_from_events blockEvents)]
                Atom.mk "block" key (some lname) blockEvents ::
                  atomizeGo cfg events blockTags visualTags fuel j
              else
                Atom.mk "event" (eventKeyPyVal ev) none [ev] ::
                  atomizeGo cfg events blockTags visualTags fuel (i + 1)
            else
              Atom.mk "block" (create_block_atom_key lname blockEvents attrs cfg
                  visualTags) (some lname) blockEvents ::
                atomizeGo cfg events blockTags visualTags fuel j
          else
            Atom.mk "event" (eventKeyPyVal ev) none [ev] ::
              atomizeGo cfg events blockTags visualTags fuel (i + 1)
      | Event.Text d =>
        if cfg.tokenize_text ∧ d ≠ "" then
          (tokenRunsGo none d.data).map (fun p =>
            Atom.mk "text" (PyVal.tup [PyVal.s "t", PyVal.s p]) none
              [Event.Text p]) ++
            atomizeGo cfg events blockTags visualTags fuel (i + 1)
        else
          Atom.mk "event" (eventKeyPyVal ev) none [ev] ::
            atomizeGo cfg events blockTags visualTags fuel (i + 1)
      | Event.End _ =>
        Atom.mk "event" (eventKeyPyVal ev) none [ev] ::
          atomizeGo cfg events blockTags visualTags fuel (i + 1)

/-- `atomize_events`. -/
def atomize_events (events : List Event) (cfg : DiffConfig) : List Atom :=
  atomizeGo cfg events (build_block_tags_set cfg).1 (build_block_tags_set cfg).2
    events.length 0


/-! ## Opcode processing (`StreamDiffer._process_replace_opcode` /
`_process_equal_opcode`) -/

/-- The `_has_structural_tags` helper local to `_process_replace_opcode`. -/
def hasStructuralTagsEv (events : List Event) : Bool :=
  events.any (fun e => match e with
    | Event.Start t _ =>
      ["ul", "ol", "li", "table", "tr", "td", "th"].contains (qname_localname t)
    | _ => false)

/-- Single-block-atom test with a given tag. -/
def atomSingleBlock (slice : List Atom) (tagName : String) : Bool :=
  match slice with
  | [a] => a.kind == "block" && a.tag == some tagName
  | _ => false

/-- Events of the first atom of a slice. -/
def firstAtomEvents (slice : List Atom) : List Event :=
  ((slice.head?).map Atom.events).getD []

/-- `StreamDiffer._process_replace_opcode`. -/
def processReplaceOpcode (cfg : DiffConfig) (oldSlice newSlice : List Atom)
    (st : DiffState) : DiffState :=
  let oldEvents := concat_events oldSlice
  let newEvents := concat_events newSlice
  let isPureStyleStructural :=
    oldSlice.length == newSlice.length &&
    (oldSlice.zip newSlice).all (fun p =>
      p.1.kind == "block" && p.2.kind == "block" && p.1.tag == p.2.tag)
  if isPureStyleStructural ∧ atomSingleBlock oldSlice "tr" ∧
      atomSingleBlock newSlice "tr" then
    diff_tr_by_cells cfg (firstAtomEvents oldSlice) (firstAtomEvents newSlice)
      none st
  else if atomSingleBlock oldSlice "table" ∧ atomSingleBlock newSlice "table" then
    diff_table_by_rows cfg (firstAtomEvents oldSlice) (firstAtomEvents newSlice)
      st
  else if (hasStructuralTagsEv oldEvents ∨ hasStructuralTagsEv newEvents) ∧
      ¬ isPureStyleStructural then
    withDiffGroup cfg (fun s =>
      withContext (some "ins") (block_process cfg newEvents)
        (withContext (some "del") (block_process cfg oldEvents) s)) st
  else
    edAppendInto cfg oldEvents newEvents st

/-- Tag of the first event when it is a start tag. -/
def firstStartTag (events : List Event) : Option String :=
  match events.head? with
  | some (Event.Start t _) => some t
  | _ => none

/-- Tag of the last event when it is an end tag. -/
def lastEndTag (events : List Event) : Option String :=
  match events.getLast? with
  | some (Event.End t) => some t
  | _ => none

/-- Container shape of the inner-diff fallbacks of
`_process_equal_opcode`: both slices nonempty, start with START and end
with END. -/
def equalInnerShape (oldEvents newEvents : List Event) : Bool :=
  !oldEvents.isEmpty && !newEvents.isEmpty && headIsStart oldEvents &&
    headIsStart newEvents && lastIsEnd oldEvents && lastIsEnd newEvents

/-- Enter the new container, inner-diff the children, leave (the repeated
enter/inner/leave pattern of `_process_equal_opcode`). -/
def containerInnerDiff (cfg : DiffConfig) (oldEvents newEvents : List Event)
    (st : DiffState) : DiffState :=
  match newEvents.head?, newEvents.getLast? with
  | some (Event.Start contTag contAttrs), some (Event.End lastTag) =>
    let st1 := dsEnter st contTag contAttrs
    let st2 := edAppendInto cfg ((oldEvents.drop 1).dropLast)
      ((newEvents.drop 1).dropLast) st1
    (dsLeave cfg st2 lastTag).2
  | _, _ => st

/-- The whitespace-only single-text-child shape of
`_process_equal_opcode`. -/
def wsOnlyTriple (oldEvents newEvents : List Event) : Bool :=
  match oldEvents, newEvents with
  | [Event.Start t1 _, Event.Text o, Event.End e1],
    [Event.Start t2 _, Event.Text n, Event.End e2] =>
    t1 == t2 && e1 == e2 && o != n && collapse_ws o == collapse_ws n
  | _, _ => false

/-- The `_visible_ws` helper of the force-tag branch. -/
def visibleWs (cfg : DiffConfig) (s : String) : String :=
  if s = "" then s
  else if ¬ cfg.preserve_whitespace_in_diff then s
  else String.mk (s.data.map (fun ch =>
    if pyIsSpace ch ∧ ch ≠ '\n' ∧ ch ≠ '\x0D' then nbsp else ch))

/-- Whitespace-only text event with respect to `str.strip`. -/
def isWsOnlyText : Event → Bool
  | Event.Text d => pyStrip d = ""
  | _ => false

/-- `_split_text_then_force_tail` of the force-tag branch. -/
def splitTextThenForceTail (forceTags : List String) (children : List Event) :
    Option (List Event × Option Event × List Event) :=
  let leading := children.takeWhile isWsOnlyText
  let rest := children.dropWhile isWsOnlyText
  match rest with
  | [] => some (leading, none, [])
  | e :: tail =>
    match e with
    | Event.Text _ =>
      if tail.all (fun te => match te with
          | Event.Text d => pyStrip d = ""
          | Event.Start t _ => forceTags.contains (qname_localname t)
          | Event.End t => forceTags.contains (qname_localname t)) then
        some (leading, some e, tail)
      else none
    | _ => none

/-- Presence of a forced tag among the start events. -/
def hasForceTag (forceTags : List String) (events : List Event) : Bool :=
  events.any (fun e => match e with
    | Event.Start t _ => forceTags.contains (qname_localname t)
    | _ => false)

/-- The force-tag (`img`) branch of `_process_equal_opcode`. -/
def forceTagBranch (cfg : DiffConfig) (oldEvents newEvents : List Event)
    (st : DiffState) : DiffState :=
  let forceTags := cfg.force_event_diff_on_equal_for_tags
  if !oldEvents.isEmpty && !newEvents.isEmpty && headIsStart oldEvents &&
      lastIsEnd oldEvents && headIsStart newEvents && lastIsEnd newEvents &&
      firstStartTag oldEvents == firstStartTag newEvents &&
      lastEndTag oldEvents == lastEndTag newEvents then
    match newEvents.head?, newEvents.getLast? with
    | some (Event.Start contTag contAttrs), some (Event.End lastTag) =>
      let st1 := dsEnter st contTag contAttrs
      let oldChildren := (oldEvents.drop 1).dropLast
      let newChildren := (newEvents.drop 1).dropLast
      let special : Option DiffState :=
        match splitTextThenForceTail forceTags oldChildren,
            splitTextThenForceTail forceTags newChildren with
        | some (_, some (Event.Text oldText), oldTail),
          some (newLead, some (Event.Text newText), newTail) =>
          if collapse_ws oldText = collapse_ws newText then
            let preLen := longest_common_prefix_len oldText newText
            let sufLen := longest_common_suffix_len oldText newText preLen
            let oldMid := String.mk ((oldText.data.take
              (if sufLen ≠ 0 then oldText.length - sufLen
               else oldText.length)).drop preLen)
            let newMid := String.mk ((newText.data.take
              (if sufLen ≠ 0 then newText.length - sufLen
               else newText.length)).drop preLen)
            let commonPre := String.mk (oldText.data.take preLen)
            let commonSuf := if sufLen ≠ 0 then
                String.mk (oldText.data.drop (oldText.length - sufLen))
              else ""
            let s1 := newLead.foldl dsAppend st1
            let s2 := dsAppend s1 (Event.Text (commonPre ++ commonSuf))
            let s3 :=
              if (oldMid ≠ "" ∨ oldTail ≠ []) ∧ ¬ (newMid ≠ "" ∨ newTail ≠ []) then
                let (cAttrs, t1) := changeAttrs cfg [] (activeDiffId s2) s2
                let t2 := dsAppend t1 (Event.Start "del" cAttrs)
                let t3 := if oldMid ≠ "" then
                    dsAppend t2 (Event.Text (visibleWs cfg oldMid))
                  else t2
                let t4 := oldTail.foldl dsAppend t3
                dsAppend t4 (Event.End "del")
              else if (newMid ≠ "" ∨ newTail ≠ []) ∧
                  ¬ (oldMid ≠ "" ∨ oldTail ≠ []) then
                let (cAttrs, t1) := changeAttrs cfg [] (activeDiffId s2) s2
                let t2 := dsAppend t1 (Event.Start "ins" cAttrs)
                let t3 := if newMid ≠ "" then
                    dsAppend t2 (Event.Text (visibleWs cfg newMid))
                  else t2
                let t4 := newTail.foldl dsAppend t3
                dsAppend t4 (Event.End "ins")
              else
                edAppendInto cfg oldChildren newChildren s2
            some (dsLeave cfg s3 lastTag).2
          else none
        | _, _ => none
      match special with
      | some s => s
      | none =>
        let s1 := edAppendInto cfg oldChildren newChildren st1
        (dsLeave cfg s1 lastTag).2
    | _, _ => edAppendInto cfg oldEvents newEvents st
  else
    edAppendInto cfg oldEvents newEvents st

/-- One atom pair of `_process_equal_opcode`. -/
def processEqualPair (cfg : DiffConfig) (aOld aNew : Option Atom)
    (st : DiffState) : DiffState :=
  match aOld, aNew with
  | none, some aN => withContext none (block_process cfg (concat_events [aN])) st
  | some aO, none => withContext none (block_process cfg (concat_events [aO])) st
  | none, none => st
  | some aO, some aN =>
    if (aO.tag = some "p" ∧ aN.tag = some "li") ∨
        (aO.tag = some "li" ∧ aN.tag = some "p") then
      edAppendInto cfg aO.events aN.events st
    else if aN.kind = "block" ∧ aO.kind = "block" ∧
        firstStartTag aO.events ≠ firstStartTag aN.events then
      withDiffGroup cfg (fun s =>
        withContext (some "ins") (block_process cfg aN.events)
          (withContext (some "del") (block_process cfg aO.events) s)) st
    else if aN.kind = "block" ∧
        (Option.rec false
          (fun t => ["table", "tr", "td", "th", "ul", "ol", "li"].contains t)
          aN.tag : Bool) = true then
      if aN.tag = some "tr" then diff_tr_by_cells cfg aO.events aN.events none st
      else if aN.tag = some "table" then
        diff_table_by_rows cfg aO.events aN.events st
      else edAppendInto cfg aO.events aN.events st
    else
      let oldEvents := aO.events
      let newEvents := aN.events
      if ¬ events_equal_normalized oldEvents newEvents ∧
          can_visual_container_replace cfg oldEvents newEvents then
        let sigDiffers :=
          structure_signature oldEvents cfg ≠ structure_signature newEvents cfg
        if sigDiffers ∧ (diff_inline_formatting cfg oldEvents newEvents st).1 then
          (diff_inline_formatting cfg oldEvents newEvents st).2
        else if sigDiffers ∧ equalInnerShape oldEvents newEvents then
          containerInnerDiff cfg oldEvents newEvents st
        else if raw_text_from_events oldEvents ≠ raw_text_from_events newEvents ∧
            equalInnerShape oldEvents newEvents then
          containerInnerDiff cfg oldEvents newEvents st
        else
          withDiffGroup cfg (render_visual_replace_inline cfg oldEvents newEvents)
            st
      else if ¬ events_equal_normalized oldEvents newEvents ∧
          wsOnlyTriple oldEvents newEvents then
        edAppendInto cfg oldEvents newEvents st
      else if ¬ events_equal_normalized oldEvents newEvents ∧
          raw_text_from_events oldEvents ≠ raw_text_from_events newEvents ∧
          equalInnerShape oldEvents newEvents then
        containerInnerDiff cfg oldEvents newEvents st
      else if cfg.force_event_diff_on_equal_for_tags ≠ [] ∧
          ¬ events_equal_normalized oldEvents newEvents ∧
          (hasForceTag cfg.force_event_diff_on_equal_for_tags oldEvents ∨
            hasForceTag cfg.force_event_diff_on_equal_for_tags newEvents) then
        forceTagBranch cfg oldEvents newEvents st
      else
        withContext none (block_process cfg newEvents) st

/-- `StreamDiffer._process_equal_opcode`. -/
def processEqualOpcode (cfg : DiffConfig) (oldSlice newSlice : List Atom)
    (st : DiffState) : DiffState :=
  (longzip oldSlice newSlice).foldl (fun s p => processEqualPair cfg p.1 p.2 s) st


/-! ## The outer opcode loop of `StreamDiffer.process` -/

/-- `_has_list_tags`. -/
def hasListTags (events : List Event) : Bool :=
  events.any (fun e => match e with
    | Event.Start t _ => ["ul", "ol", "li"].contains (qname_localname t)
    | _ => false)

/-- `_count_block_wrappers`. -/
def countBlockWrappers (events : List Event) : Nat :=
  events.countP (fun e => match e with
    | Event.Start t _ =>
      ["p", "h1", "h2", "h3", "h4", "h5", "h6"].contains (qname_localname t)
    | _ => false)

/-- First single-event `ol`/`ul` start atom in an atom range. -/
def findListStartAtom (atoms : List Atom) (j1 j2 : Nat) :
    Option (Event × String) :=
  ((sliceList atoms j1 j2).filterMap (fun a =>
    match a.events with
    | [Event.Start t attrs] =>
      let ln := qname_localname t
      if ln = "ol" ∨ ln = "ul" then some (Event.Start t attrs, ln) else none
    | _ => none)).head?

/-- Old-side check of the forward scan range (`all_p_to_li` over old atoms);
the state is `(has_block, text_only)`. -/
def sfOld (oldSlice : List Atom) : Option (Bool × Bool) :=
  oldSlice.foldl (fun acc a =>
    match acc with
    | none => none
    | some (hb, to_) =>
      if a.kind = "text" then some (hb, to_)
      else if a.kind = "block" ∧ a.tag = some "p" then some (true, false)
      else none) (some (false, true))

/-- New-side check of the forward scan range; the state adds the END-found
flag. -/
def sfNew (newSlice : List Atom) (listTag : String) (hb0 to0 : Bool) :
    Option (Bool × Bool × Bool) :=
  newSlice.foldl (fun acc a =>
    match acc with
    | none => none
    | some (hb, to_, ef) =>
      if a.kind = "text" then some (hb, to_, ef)
      else if a.kind = "block" ∧ a.tag = some "li" then some (true, false, ef)
      else
        match a.events with
        | [Event.End t] =>
          if a.kind = "event" ∧ qname_localname t = listTag then
            some (hb, false, true)
          else none
        | _ => none) (some (hb0, to0, false))

/-- Range analysis of one `equal`/`replace` opcode in the forward scan. -/
def scanRangeCheck (oldAtoms newAtoms : List Atom) (listTag : String)
    (op : Opcode) : Option (Bool × Bool × Bool) :=
  match sfOld (sliceList oldAtoms op.i1 op.i2) with
  | none => none
  | some (hb, to_) => sfNew (sliceList newAtoms op.j1 op.j2) listTag hb to_

/-- Forward look-ahead loop for the text-to-list structural pattern; returns
the found flag, the collected ranges and the final scan index. -/
def scanFwdLoop (oldAtoms newAtoms : List Atom) (listTag : String) :
    List Opcode → Nat → List Opcode → Bool × List Opcode × Nat
  | [], scanK, ranges => (false, ranges, scanK)
  | op :: rest, scanK, ranges =>
    match op.tag with
    | OpTag.equal | OpTag.replace =>
      match scanRangeCheck oldAtoms newAtoms listTag op with
      | some (hb, to_, ef) =>
        if hb ∨ to_ then
          if ef then (true, ranges ++ [op], scanK + 1)
          else scanFwdLoop oldAtoms newAtoms listTag rest (scanK + 1)
            (ranges ++ [op])
        else (false, ranges, scanK)
      | none => (false, ranges, scanK)
    | OpTag.insert =>
      let endFound := (sliceList newAtoms op.j1 op.j2).any (fun a =>
        match a.events with
        | [Event.End t] => qname_localname t = listTag
        | _ => false)
      if endFound ∧ ranges ≠ [] then (true, ranges, scanK + 1)
      else (false, ranges, scanK)
    | OpTag.delete =>
      scanFwdLoop oldAtoms newAtoms listTag rest (scanK + 1) (ranges ++ [op])

/-- All text payloads joined (`''.join(e[1] for e in evs if e[0] == TEXT)`). -/
def allTextJoin (events : List Event) : String :=
  String.join (events.filterMap (fun e => match e with
    | Event.Text s => some s
    | _ => none))

/-- Python-dict insertion for arbitrary values. -/
def dictInsertG {β : Type} (d : List (String × β)) (k : String) (v : β) :
    List (String × β) :=
  if (d.find? (fun p => p.1 = k)).isSome then
    d.map (fun p => if p.1 = k then (k, v) else p)
  else d ++ [(k, v)]

/-- Python-dict lookup for arbitrary values. -/
def dictGetG {β : Type} (d : List (String × β)) (k : String) : Option β :=
  (d.find? (fun p => p.1 = k)).map Prod.snd

/-- Per-`li` emission of the forward structural-list rewrite. -/
def emitFwdLi (cfg : DiffConfig) (diffId : Option String)
    (oldLiByText : List (String × List Event)) (acc : DiffState)
    (liAtom : Atom) : DiffState :=
  match liAtom.events with
  | (Event.Start liTag liAttrs0) :: _ =>
    let liEvs := liAtom.events
    let liAttrs1 := inject_cls liAttrs0 "diff-bullet-ins"
    let newTxt := pyStrip (allTextJoin liEvs)
    let oldLiEvs := dictGetG oldLiByText newTxt
    let info := match oldLiEvs with
      | some oevs =>
        match oevs.head? with
        | some (Event.Start _ oAttrs) =>
          (inject_refattr cfg liAttrs1 oAttrs, decide (oAttrs ≠ liAttrs0), oAttrs)
        | _ => (liAttrs1, false, ([] : Attrs))
      | none => (liAttrs1, false, ([] : Attrs))
    let liAttrs2 := info.1
    let liStyleChanged := info.2.1
    let oldLiAttrs := info.2.2
    let liAttrs3 := match diffId with
      | some d => setAttr liAttrs2 cfg.diff_id_attr d
      | none => liAttrs2
    let acc1 := dsEnter acc liTag liAttrs3
    let inner := (liEvs.drop 1).dropLast
    let acc2 :=
      if liStyleChanged ∧ oldLiEvs.isSome then
        let oevs := oldLiEvs.getD []
        withDiffGroup cfg (fun t =>
          let oldStyleVal := attrsGet oldLiAttrs "style"
          let delTagAttrs : Attrs := match oldStyleVal with
            | some v => if v ≠ "" then [("style", v)] else []
            | none => []
          let (delTagAttrs2, t1) := match diffId with
            | some _ =>
              let (x, t1) := newDiffId t
              (attrsOr delTagAttrs [(cfg.diff_id_attr, x)], t1)
            | none => (delTagAttrs, t)
          let t2 := dsAppend t1 (Event.Start "del" delTagAttrs2)
          let t3 := ((oevs.drop 1).dropLast).foldl dsAppend t2
          let t4 := dsAppend t3 (Event.End "del")
          let (insAttrs, t5) := match diffId with
            | some _ =>
              let (y, t5) := newDiffId t4
              (attrsOr ([] : Attrs) [(cfg.diff_id_attr, y)], t5)
            | none => (([] : Attrs), t4)
          let t6 := dsAppend t5 (Event.Start "ins" insAttrs)
          let t7 := inner.foldl dsAppend t6
          dsAppend t7 (Event.End "ins")) acc1
      else
        match oldLiEvs with
        | some oevs =>
          if (oevs.drop 1).dropLast ≠ inner then
            edAppendInto cfg ((oevs.drop 1).dropLast) inner acc1
          else inner.foldl dsAppend acc1
        | none => inner.foldl dsAppend acc1
    match liEvs.getLast? with
    | some (Event.End lt) => (dsLeave cfg acc2 lt).2
    | some (Event.Text d) => (dsLeave cfg acc2 d).2
    | _ => acc2
  | _ => acc

/-- Emission of the forward (text-to-list) structural pattern. -/
def emitFwdStructuralList (cfg : DiffConfig) (oldPAtoms newLiAtoms : List Atom)
    (listStartEv : Event) (st : DiffState) : DiffState :=
  withDiffGroup cfg (fun s =>
    let (diffId, s0) := maybeNewDiffId cfg s
    let revertEvents := concat_events oldPAtoms
    let delAttrs : Attrs :=
      [("class", "structural-revert-data"), ("style", "display:none")]
    let delAttrs2 := match diffId with
      | some d => attrsOr delAttrs [(cfg.diff_id_attr, d)]
      | none => delAttrs
    let s1 := dsAppend s0 (Event.Start "del" delAttrs2)
    let s2 := revertEvents.foldl dsAppend s1
    let s3 := dsAppend s2 (Event.End "del")
    let listPair := match listStartEv with
      | Event.Start t a => (t, a)
      | _ => ("", ([] : Attrs))
    let listAttrs1 := inject_cls listPair.2 "tagdiff_added"
    let listAttrs2 := match diffId with
      | some d => setAttr listAttrs1 cfg.diff_id_attr d
      | none => listAttrs1
    let s4 := dsEnter s3 listPair.1 listAttrs2
    let oldLiByText := oldPAtoms.foldl (fun acc oatom =>
      match oatom.events with
      | (Event.Start t _) :: _ =>
        if qname_localname t = "li" then
          dictInsertG acc (pyStrip (allTextJoin oatom.events)) oatom.events
        else acc
      | _ => acc) ([] : List (String × List Event))
    let s5 := newLiAtoms.foldl (emitFwdLi cfg diffId oldLiByText) s4
    (dsLeave cfg s5 listPair.1).2) st

/-- Old-side all-`li` check of the reverse scan. -/
def srOld (oldSlice : List Atom) : Option Bool :=
  oldSlice.foldl (fun acc a =>
    match acc with
    | none => none
    | some hb =>
      if a.kind = "text" then some hb
      else if a.kind = "block" ∧ a.tag = some "li" then some true
      else none) (some false)

/-- New-side all-`p` check of the reverse scan. -/
def srNew (newSlice : List Atom) (hb0 : Bool) : Option Bool :=
  newSlice.foldl (fun acc a =>
    match acc with
    | none => none
    | some hb =>
      if a.kind = "text" then some hb
      else if a.kind = "block" ∧ a.tag = some "p" then some true
      else none) (some hb0)

/-- Range analysis of one `equal` opcode in the reverse scan. -/
def scanRevRangeCheck (oldAtoms newAtoms : List Atom) (op : Opcode) :
    Option Bool :=
  match srOld (sliceList oldAtoms op.i1 op.i2) with
  | none => none
  | some hb => srNew (sliceList newAtoms op.j1 op.j2) hb

/-- Reverse look-ahead loop for the list-to-text pattern; on success returns
the collected ranges, the closing opcode and the END event, with the index of
the closing opcode. -/
def scanRevLoop (oldAtoms newAtoms : List Atom) (listTag : String) :
    List Opcode → Nat → List Opcode →
      Option (List Opcode × Opcode × Event) × Nat
  | [], scanK, _ => (none, scanK)
  | op :: rest, scanK, ranges =>
    match op.tag with
    | OpTag.equal =>
      match scanRevRangeCheck oldAtoms newAtoms op with
      | some hb =>
        if hb then scanRevLoop oldAtoms newAtoms listTag rest (scanK + 1)
          (ranges ++ [op])
        else (none, scanK)
      | none => (none, scanK)
    | OpTag.delete | OpTag.replace =>
      let endEv := ((sliceList oldAtoms op.i1 op.i2).filterMap (fun a =>
        match a.events with
        | [Event.End t] =>
          if qname_localname t = listTag then some (Event.End t) else none
        | _ => none)).head?
      match endEv with
      | some e =>
        if ranges ≠ [] then (some (ranges, op, e), scanK) else (none, scanK)
      | none => (none, scanK)
    | OpTag.insert => (none, scanK)

/-- Emission of the reverse (list-to-text) structural pattern. -/
def emitRevStructuralList (cfg : DiffConfig) (oldLiAtoms newPAtoms : List Atom)
    (listStartEv endEv : Event) (st : DiffState) : DiffState :=
  withDiffGroup cfg (fun s =>
    let (diffId, s0) := maybeNewDiffId cfg s
    let listPair := match listStartEv with
      | Event.Start t a => (t, a)
      | _ => ("", ([] : Attrs))
    let listAttrs1 := inject_cls listPair.2 "tagdiff_deleted"
    let listAttrs2 := match diffId with
      | some d => setAttr listAttrs1 cfg.diff_id_attr d
      | none => listAttrs1
    let s1 := dsEnter s0 listPair.1 listAttrs2
    let s2 := oldLiAtoms.foldl (fun acc liAtom =>
      match liAtom.events with
      | (Event.Start liTag liAttrs0) :: _ =>
        let liEvs := liAtom.events
        let liAttrs1 := inject_cls liAttrs0 "diff-bullet-del"
        let liAttrs2 := match diffId with
          | some d => setAttr liAttrs1 cfg.diff_id_attr d
          | none => liAttrs1
        let acc1 := dsEnter acc liTag liAttrs2
        let acc2 := ((liEvs.drop 1).dropLast).foldl dsAppend acc1
        match liEvs.getLast? with
        | some (Event.End lt) => (dsLeave cfg acc2 lt).2
        | some (Event.Text d) => (dsLeave cfg acc2 d).2
        | _ => acc2
      | _ => acc) s1
    let s3 := match endEv with
      | Event.End t => (dsLeave cfg s2 t).2
      | _ => s2
    let revertEvents := concat_events newPAtoms
    let insAttrs : Attrs :=
      [("class", "structural-revert-data"), ("style", "display:none")]
    let insAttrs2 := match diffId with
      | some d => attrsOr insAttrs [(cfg.diff_id_attr, d)]
      | none => insAttrs
    let s4 := dsAppend s3 (Event.Start "ins" insAttrs2)
    let s5 := revertEvents.foldl dsAppend s4
    dsAppend s5 (Event.End "ins")) st

/-- Block atoms of an atom-range slice. -/
def blockAtomsIn (atoms : List Atom) (i1 i2 : Nat) : List Atom :=
  (sliceList atoms i1 i2).filter (fun a => a.kind == "block")


/-- Depth scan over atoms for the closing list END
(the `end_idx_old` / `end_idx_new` searches). -/
def feaiGo (lname : String) : List (Nat × Atom) → Int → Option Nat
  | [], _ => none
  | (oi, a) :: rest, depth =>
    let res := a.events.foldl (fun acc ev =>
      match ev with
      | Event.Start t _ =>
        if qname_localname t = lname then (acc.1 + 1, acc.2) else acc
      | Event.End t =>
        if qname_localname t = lname then
          (acc.1 - 1, acc.2 || decide (acc.1 - 1 = 0))
        else acc
      | _ => acc) ((depth, false) : Int × Bool)
    if res.2 then some oi
    else feaiGo lname rest res.1

/-- Index of the atom containing the matching list END, scanning from
`startIdx` with depth 1. -/
def findEndAtomIdx (atoms : List Atom) (startIdx : Nat) (lname : String) :
    Option Nat :=
  feaiGo lname (atoms.enum.drop startIdx) 1

/-- The `_get_lst` helper: the `list-style-type` declaration value. -/
def getLst (styleVal : Option String) : Option String :=
  ((strSplitOnChar ';' (styleVal.getD "")).filterMap (fun part =>
    let p := pyStrip part
    if strStartsWith "list-style-type" (pyLower p) then
      match strSplitOnChar ':' p with
      | _ :: v0 :: vrest =>
        some (pyLower (pyStrip (String.intercalate ":" (v0 :: vrest))))
      | _ => some ""
    else none)).head?

/-- The consumed-opcode skip loop after the list rewrite. -/
def skipConsumedGo (opcodes : List Opcode) (endIdxOld endIdxNew : Nat) :
    Nat → Nat → Nat
  | 0, k => k
  | fuel + 1, k =>
    match opcodes.get? (k + 1) with
    | some nxt =>
      if nxt.i1 ≤ endIdxOld ∨ nxt.j1 ≤ endIdxNew then
        skipConsumedGo opcodes endIdxOld endIdxNew fuel (k + 1)
      else k
    | none => k

/-- Per-`li` emission of the list-swap rewrite. -/
def emitListSwapLi (cfg : DiffConfig) (diffId : Option String)
    (isBulletChange : Bool) (inheritedChanged : List (String × String))
    (oldLiAtoms : List Atom) (liIdx : Nat) (liAtom : Atom) (st : DiffState) :
    DiffState :=
  match liAtom.events with
  | (Event.Start liTag liAttrs0) :: _ =>
    let liEvs := liAtom.events
    let liAttrs1 := if isBulletChange then inject_cls liAttrs0 "diff-bullet-ins"
      else liAttrs0
    let oldLiEvsL : List Event := if liIdx < oldLiAtoms.length then
        (((oldLiAtoms.get? liIdx).map Atom.events).getD [])
      else []
    let info := match oldLiEvsL.head? with
      | some (Event.Start _ oAttrs) =>
        (inject_refattr cfg liAttrs1 oAttrs, decide (oAttrs ≠ liAttrs0), oAttrs)
      | _ => (liAttrs1, false, ([] : Attrs))
    let liAttrs2 := info.1
    let liStyleChanged := info.2.1
    let oldLiAttrs := info.2.2
    let liAttrs3 := match diffId with
      | some d => setAttr liAttrs2 cfg.diff_id_attr d
      | none => liAttrs2
    let st1 := dsEnter st liTag liAttrs3
    let inner := (liEvs.drop 1).dropLast
    let st2 :=
      if liStyleChanged ∧ oldLiEvsL ≠ [] then
        withDiffGroup cfg (fun t =>
          let oldStyleVal := attrsGet oldLiAttrs "style"
          let delTagAttrs : Attrs := match oldStyleVal with
            | some v => if v ≠ "" then [("style", v)] else []
            | none => []
          let (delTagAttrs2, t1) := match diffId with
            | some _ =>
              let (x, t1) := newDiffId t
              (attrsOr delTagAttrs [(cfg.diff_id_attr, x)], t1)
            | none => (delTagAttrs, t)
          let t2 := dsAppend t1 (Event.Start "del" delTagAttrs2)
          let t3 := ((oldLiEvsL.drop 1).dropLast).foldl dsAppend t2
          let t4 := dsAppend t3 (Event.End "del")
          let (insAttrs, t5) := match diffId with
            | some _ =>
              let (y, t5) := newDiffId t4
              (attrsOr ([] : Attrs) [(cfg.diff_id_attr, y)], t5)
            | none => (([] : Attrs), t4)
          let t6 := dsAppend t5 (Event.Start "ins" insAttrs)
          let t7 := inner.foldl dsAppend t6
          dsAppend t7 (Event.End "ins")) st1
      else if oldLiEvsL ≠ [] ∧ (oldLiEvsL.drop 1).dropLast ≠ inner then
        edAppendInto cfg ((oldLiEvsL.drop 1).dropLast) inner st1
      else if inheritedChanged ≠ [] ∧ oldLiEvsL ≠ [] then
        let oldLiStyle := if liIdx < oldLiAtoms.length then
            (attrsGet oldLiAttrs "style").getD ""
          else ""
        let oldLiCss := parseCssDict oldLiStyle
        let merged := inheritedChanged.foldl (fun m pv =>
          if (attrsGet m pv.1).isNone then m ++ [pv] else m) oldLiCss
        let mergedStyle := if merged ≠ [] then
            String.intercalate "; " (merged.map (fun p => p.1 ++ ": " ++ p.2))
          else ""
        withDiffGroup cfg (fun t =>
          let delTagAttrs : Attrs :=
            if mergedStyle ≠ "" then [("style", mergedStyle)] else []
          let (delTagAttrs2, t1) := match diffId with
            | some _ =>
              let (x, t1) := newDiffId t
              (attrsOr delTagAttrs [(cfg.diff_id_attr, x)], t1)
            | none => (delTagAttrs, t)
          let t2 := dsAppend t1 (Event.Start "del" delTagAttrs2)
          let t3 := ((oldLiEvsL.drop 1).dropLast).foldl dsAppend t2
          let t4 := dsAppend t3 (Event.End "del")
          let (insAttrs, t5) := match diffId with
            | some _ =>
              let (y, t5) := newDiffId t4
              (attrsOr ([] : Attrs) [(cfg.diff_id_attr, y)], t5)
            | none => (([] : Attrs), t4)
          let t6 := dsAppend t5 (Event.Start "ins" insAttrs)
          let t7 := inner.foldl dsAppend t6
          dsAppend t7 (Event.End "ins")) st1
      else inner.foldl dsAppend st1
    match liEvs.getLast? with
    | some (Event.End lt) => (dsLeave cfg st2 lt).2
    | some (Event.Text d) => (dsLeave cfg st2 d).2
    | _ => st2
  | _ => st

/-- Body of the list-swap rewrite (inside its diff group). -/
def emitListSwap (cfg : DiffConfig) (oldT : String) (oldAttrs : Attrs)
    (newT : String) (newAttrs : Attrs)
    (oldListAtoms oldLiAtoms newLiAtoms : List Atom)
    (endAtomEvents : List Event) (s : DiffState) : DiffState :=
  let (diffId, s0) := maybeNewDiffId cfg s
  let revertEvents := concat_events oldListAtoms
  let delAttrs : Attrs :=
    [("class", "structural-revert-data"), ("style", "display:none")]
  let delAttrs2 := match diffId with
    | some d => attrsOr delAttrs [(cfg.diff_id_attr, d)]
    | none => delAttrs
  let s1 := dsAppend s0 (Event.Start "del" delAttrs2)
  let s2 := revertEvents.foldl dsAppend s1
  let s3 := dsAppend s2 (Event.End "del")
  let oldLst := getLst (attrsGet oldAttrs "style")
  let newLst := getLst (attrsGet newAttrs "style")
  let isBulletChange := decide (oldT ≠ newT) ||
    (decide (oldLst ≠ newLst) && (oldLst.isSome || newLst.isSome))
  let listAttrsNew0 :=
    if isBulletChange then
      let a := inject_cls newAttrs "tagdiff_added"
      if oldT ≠ newT then attrsOr a [("data-old-tag", qname_localname oldT)]
      else a
    else inject_cls newAttrs "tagdiff_replaced"
  let listAttrsNew1 := inject_refattr cfg listAttrsNew0 oldAttrs
  let listAttrsNew2 := match diffId with
    | some d => setAttr listAttrsNew1 cfg.diff_id_attr d
    | none => listAttrsNew1
  let s4 := dsEnter s3 newT listAttrsNew2
  let oldCss := parseCssDict ((attrsGet oldAttrs "style").getD "")
  let newCss := parseCssDict ((attrsGet newAttrs "style").getD "")
  let inheritedChanged := _INHERITABLE_PROPS.foldl (fun acc prop =>
    let o := attrsGet oldCss prop
    let n := attrsGet newCss prop
    if o ≠ n ∧ (o.isSome ∨ n.isSome) then
      acc ++ [(prop, if optTruthy o then o.getD "" else "initial")]
    else acc) ([] : List (String × String))
  let s5 := newLiAtoms.enum.foldl (fun acc p =>
    emitListSwapLi cfg diffId isBulletChange inheritedChanged oldLiAtoms p.1
      p.2 acc) s4
  match endAtomEvents.head? with
  | some (Event.End t) => (dsLeave cfg s5 t).2
  | some (Event.Text d) => (dsLeave cfg s5 d).2
  | _ => s5

/-- The structural-tag tuple of the replace special check in `process`. -/
def structuralSwapTags : List String :=
  ["table", "thead", "tbody", "tfoot", "tr", "td", "th", "ul", "ol", "li"]

/-- The attribute-only / list-swap special handling of a `replace` opcode in
`process`; `some` carries the produced state and the next loop index. -/
def replaceStructuralSpecial (cfg : DiffConfig) (oldAtoms newAtoms : List Atom)
    (opcodes : List Opcode) (k : Nat) (op : Opcode) (st : DiffState) :
    Option (DiffState × Nat) :=
  if ¬ (op.i2 = op.i1 + 1 ∧ op.j2 = op.j1 + 1) then none
  else
    match oldAtoms.get? op.i1, newAtoms.get? op.j1 with
    | some oldAtom, some newAtom =>
      match oldAtom.events, newAtom.events with
      | [Event.Start oldT oldAttrs], [Event.Start newT newAttrs] =>
        let lname := qname_localname oldT
        let newLname := qname_localname newT
        let isAllowedSwap := lname = newLname ∨
          ((lname = "ul" ∨ lname = "ol") ∧ (newLname = "ul" ∨ newLname = "ol"))
        if isAllowedSwap ∧ structuralSwapTags.contains lname ∧
            structuralSwapTags.contains newLname then
          if (lname = "ul" ∨ lname = "ol") ∧ (newLname = "ul" ∨ newLname = "ol") then
            match findEndAtomIdx oldAtoms (op.i1 + 1) lname,
                findEndAtomIdx newAtoms (op.j1 + 1) newLname with
            | some endIdxOld, some endIdxNew =>
              let oldListAtoms := sliceList oldAtoms op.i1 (endIdxOld + 1)
              let newLiAtoms := (sliceList newAtoms (op.j1 + 1) endIdxNew).filter
                (fun a => a.tag == some "li")
              let oldLiAtoms := (sliceList oldAtoms (op.i1 + 1) endIdxOld).filter
                (fun a => a.tag == some "li")
              if newLiAtoms ≠ [] then
                let endAtomEvents :=
                  (((newAtoms.get? endIdxNew).map Atom.events).getD [])
                let st1 := withDiffGroup cfg (emitListSwap cfg oldT oldAttrs
                  newT newAttrs oldListAtoms oldLiAtoms newLiAtoms
                  endAtomEvents) st
                let k2 := skipConsumedGo opcodes endIdxOld endIdxNew
                  opcodes.length k
                some (st1, k2 + 1)
              else none
            | _, _ => none
          else if lname = newLname ∧ oldAttrs ≠ newAttrs then
            some (enter_mark_replaced cfg newT newAttrs oldAttrs (some oldT) st,
              k + 1)
          else none
        else none
      | _, _ => none
    | _, _ => none

/-- One `(state, next index)` step of the opcode loop of
`StreamDiffer.process`. -/
def processStep (cfg : DiffConfig) (oldAtoms newAtoms : List Atom)
    (opcodes : List Opcode) (k : Nat) (op : Opcode) (st : DiffState) :
    DiffState × Nat :=
  let fwdListInfo := if op.tag = OpTag.insert ∨ op.tag = OpTag.replace then
      findListStartAtom newAtoms op.j1 op.j2
    else none
  let fwdResult : Option (DiffState × Nat) :=
    match fwdListInfo with
    | some (listStartEv, listTag) =>
      let scanRes := scanFwdLoop oldAtoms newAtoms listTag
        (opcodes.drop (k + 1)) (k + 1) []
      if scanRes.1 then
        let oldPAtoms :=
          (if op.tag = OpTag.replace then blockAtomsIn oldAtoms op.i1 op.i2
           else []) ++
          scanRes.2.1.foldl (fun acc r => acc ++ blockAtomsIn oldAtoms r.i1 r.i2)
            []
        let newLiAtoms := scanRes.2.1.foldl
          (fun acc r => acc ++ blockAtomsIn newAtoms r.j1 r.j2) []
        if oldPAtoms ≠ [] ∧ newLiAtoms ≠ [] then
          some (emitFwdStructuralList cfg oldPAtoms newLiAtoms listStartEv st,
            scanRes.2.2)
        else some (st, k)
      else none
    | none => none
  match fwdResult with
  | some r => r
  | none =>
    let revResult : Option (DiffState × Nat) :=
      if op.tag = OpTag.delete ∨ (op.tag = OpTag.replace ∧ fwdListInfo = none) then
        match findListStartAtom oldAtoms op.i1 op.i2 with
        | some (listStartEv, listTag) =>
          match scanRevLoop oldAtoms newAtoms listTag (opcodes.drop (k + 1))
              (k + 1) [] with
          | (some (ranges, endOp, endEv), scanK) =>
            let oldLiAtoms := ranges.foldl
              (fun acc r => acc ++ blockAtomsIn oldAtoms r.i1 r.i2) []
            let newPAtoms :=
              (if op.tag = OpTag.replace then blockAtomsIn newAtoms op.j1 op.j2
               else []) ++
              ranges.foldl (fun acc r => acc ++ blockAtomsIn newAtoms r.j1 r.j2)
                [] ++
              (if endOp.tag = OpTag.replace then
                blockAtomsIn newAtoms endOp.j1 endOp.j2
               else [])
            if oldLiAtoms ≠ [] ∧ newPAtoms ≠ [] then
              some (emitRevStructuralList cfg oldLiAtoms newPAtoms listStartEv
                endEv st, scanK + 1)
            else none
          | (none, _) => none
        | none => none
      else none
    match revResult with
    | some r => r
    | none =>
      let pairResult : Option (DiffState × Nat) :=
        if (op.tag = OpTag.delete ∨ op.tag = OpTag.insert) ∧
            k + 1 < opcodes.length then
          match opcodes.get? (k + 1) with
          | some op2 =>
            if op.tag = OpTag.delete ∧ op2.tag = OpTag.insert then
              let oldEvs := concat_events (sliceList oldAtoms op.i1 op.i2)
              let newEvs := concat_events (sliceList newAtoms op2.j1 op2.j2)
              if hasListTags oldEvs ≠ hasListTags newEvs ∧
                  countBlockWrappers oldEvs ≤ 1 ∧ countBlockWrappers newEvs ≤ 2 then
                some (withDiffGroup cfg (fun s =>
                  withContext (some "ins") (block_process cfg newEvs)
                    (withContext (some "del") (block_process cfg oldEvs) s)) st,
                  k + 2)
              else none
            else if op.tag = OpTag.insert ∧ op2.tag = OpTag.delete then
              let oldEvs := concat_events (sliceList oldAtoms op2.i1 op2.i2)
              let newEvs := concat_events (sliceList newAtoms op.j1 op.j2)
              if hasListTags oldEvs ≠ hasListTags newEvs ∧
                  countBlockWrappers oldEvs ≤ 1 ∧ countBlockWrappers newEvs ≤ 2 then
                some (withDiffGroup cfg (fun s =>
                  withContext (some "ins") (block_process cfg newEvs)
                    (withContext (some "del") (block_process cfg oldEvs) s)) st,
                  k + 2)
              else none
            else none
          | none => none
        else none
      match pairResult with
      | some r => r
      | none =>
        match op.tag with
        | OpTag.replace =>
          match replaceStructuralSpecial cfg oldAtoms newAtoms opcodes k op st with
          | some r => r
          | none =>
            (processReplaceOpcode cfg (sliceList oldAtoms op.i1 op.i2)
              (sliceList newAtoms op.j1 op.j2) st, k + 1)
        | OpTag.delete =>
          (withDiffGroup cfg (withContext (some "del") (block_process cfg
            (concat_events (sliceList oldAtoms op.i1 op.i2)))) st, k + 1)
        | OpTag.insert =>
          (withDiffGroup cfg (withContext (some "ins") (block_process cfg
            (concat_events (sliceList newAtoms op.j1 op.j2)))) st, k + 1)
        | OpTag.equal =>
          (processEqualOpcode cfg (sliceList oldAtoms op.i1 op.i2)
            (sliceList newAtoms op.j1 op.j2) st, k + 1)

/-- The `while k < len(opcodes)` loop of `StreamDiffer.process`.  The source
loop can fail to advance `k` on one (empty-collection) corner of the forward
structural-list branch, so the loop takes explicit fuel. -/
def processLoop (cfg : DiffConfig) (oldAtoms newAtoms : List Atom)
    (opcodes : List Opcode) : Nat → Nat → DiffState → DiffState
  | 0, _, st => st
  | fuel + 1, k, st =>
    match opcodes.get? k with
    | none => st
    | some op =>
      let step := processStep cfg oldAtoms newAtoms opcodes k op st
      processLoop cfg oldAtoms newAtoms opcodes fuel step.2 step.1

/-- `StreamDiffer.process` (the fuel bounds the opcode loop). -/
def process (cfg : DiffConfig) (oldEvents newEvents : List Event)
    (fuel : Nat) : DiffState :=
  if cfg.bulk_replace_similarity_threshold > 0 ∧
      pyStrip (extract_text_from_events oldEvents) ≠ "" ∧
      pyStrip (extract_text_from_events newEvents) ≠ "" ∧
      ratio (extract_text_from_events oldEvents).data
        (extract_text_from_events newEvents).data <
        cfg.bulk_replace_similarity_threshold then
    withDiffGroup cfg (fun s =>
      withContext (some "ins") (block_process cfg newEvents)
        (withContext (some "del") (block_process cfg oldEvents) s)) initState
  else
    let oldAtoms := atomize_events oldEvents cfg
    let newAtoms := atomize_events newEvents cfg
    let opcodes0 := getOpcodes (oldAtoms.map Atom.key) (newAtoms.map Atom.key)
    let opcodes := if cfg.delete_first then
        normalize_opcodes_for_delete_first opcodes0
      else opcodes0
    dsLeaveAll (processLoop cfg oldAtoms newAtoms opcodes fuel 0 initState)

/-- `StreamDiffer.get_diff_stream` followed by the adjacent-merge pass. -/
def get_diff_stream (cfg : DiffConfig) (oldEvents newEvents : List Event)
    (fuel : Nat) : List Event :=
  let st := process cfg oldEvents newEvents fuel
  if cfg.merge_adjacent_change_tags then merge_adjacent_change_tags st.result cfg
  else st.result


/-! ## Claim C5: the junk-suppression filter of the text matcher

The source keeps a block when `block[2] > effective_threshold or block[2] == 0`
(strictly above), so a block whose size equals the effective threshold is
discarded even though its length is not *below* the bound. -/

/-- C5, counterexample: for `a = [1,2,3,4]`, `b = [1,5,6,7]` and the default
threshold 2 the effective threshold is `min 2 (4 / 4) = 1`; the matching
block of size 1 is not below that bound, yet
`InsensitiveSequenceMatcher.get_matching_blocks` discards it. -/
theorem C5_counterexample :
    Match.mk 0 0 1 ∈ getMatchingBlocks ([1, 2, 3, 4] : List Nat) [1, 5, 6, 7] ∧
    ¬ ((Match.mk 0 0 1).size <
        min 2 (min (List.length ([1, 2, 3, 4] : List Nat))
          (List.length ([1, 5, 6, 7] : List Nat)) / 4)) ∧
    Match.mk 0 0 1 ∉
      insensitiveMatchingBlocks ([1, 2, 3, 4] : List Nat) [1, 5, 6, 7] 2 := by
  decide

/-- C5, amended: `InsensitiveSequenceMatcher.get_matching_blocks` keeps
exactly the matching blocks whose length is strictly *greater than*
`min(threshold, min(len(a), len(b)) / 4)` together with the zero-length
blocks (in particular the terminating sentinel); every block whose length
equals the positive effective threshold is discarded. -/
theorem C5_amended {α : Type} [DecidableEq α] (a b : List α) (threshold : Nat)
    (m : Match) :
    m ∈ insensitiveMatchingBlocks a b threshold ↔
      m ∈ getMatchingBlocks a b ∧
        (min threshold (min a.length b.length / 4) < m.size ∨ m.size = 0) := by
  unfold insensitiveMatchingBlocks
  rw [List.mem_filter]
  simp [gt_iff_lt]


/-! ## Claim C8: style-value normalization in attribute equality -/

/-- The empty style value normalizes to the empty declaration list. -/
theorem normalize_style_value_empty : normalize_style_value "" = [] := by
  decide

/-- Styles with equal normal forms have equal canonical renderings. -/
theorem renderStyleNorm_congr (s1 s2 : String)
    (h : normalize_style_value s1 = normalize_style_value s2) :
    renderStyleNorm s1 = renderStyleNorm s2 := by
  unfold renderStyleNorm
  rw [h]

/-- C8: `_attrs_equal_normalized` compares style values through the
normal form (split on `;`, trim, lowercase property names, drop empties,
sort), so attribute lists agreeing on everything but the spelling of an
equivalent style value compare equal; in particular
`"font-size: 20px; color: red"` equals `"color: red; font-size:20px"`. -/
theorem C8_claim (base : Attrs) (s1 s2 : String)
    (hnorm : normalize_style_value s1 = normalize_style_value s2) :
    _attrs_equal_normalized (("style", s1) :: base) (("style", s2) :: base) =
      true ∧
    _attrs_equal_normalized [("style", "font-size: 20px; color: red")]
      [("style", "color: red; font-size:20px")] = true := by
  refine ⟨?_, by decide⟩
  have hmap : (("style", s1) :: base).map (fun kv : String × String =>
      if kv.1 = "style" ∧ kv.2 ≠ "" then (kv.1, renderStyleNorm kv.2) else kv) =
      (("style", s2) :: base).map (fun kv : String × String =>
      if kv.1 = "style" ∧ kv.2 ≠ "" then (kv.1, renderStyleNorm kv.2) else kv) := by
    by_cases h1 : s1 = "" <;> by_cases h2 : s2 = ""
    · subst h1; subst h2; rfl
    · subst h1
      have hz : normalize_style_value s2 = [] := by
        rw [← hnorm]; exact normalize_style_value_empty
      have hr : renderStyleNorm s2 = "" := by
        unfold renderStyleNorm; rw [hz]; rfl
      simp [h2, hr]
    · subst h2
      have hz : normalize_style_value s1 = [] := by
        rw [hnorm]; exact normalize_style_value_empty
      have hr : renderStyleNorm s1 = "" := by
        unfold renderStyleNorm; rw [hz]; rfl
      simp [h1, hr]
    · have hr := renderStyleNorm_congr s1 s2 hnorm
      simp [h1, h2, hr]
  show (sortPairsByName (dedupLastWins ((("style", s1) :: base).map
      (fun kv : String × String =>
        if kv.1 = "style" ∧ kv.2 ≠ "" then (kv.1, renderStyleNorm kv.2)
        else kv))) ==
    sortPairsByName (dedupLastWins ((("style", s2) :: base).map
      (fun kv : String × String =>
        if kv.1 = "style" ∧ kv.2 ≠ "" then (kv.1, renderStyleNorm kv.2)
        else kv)))) = true
  rw [hmap]
  exact beq_self_eq_true _

/-- C8, witness: the claim applied to the spec's example pair over a shared
`class` attribute. -/
theorem C8_witness :
    _attrs_equal_normalized
      [("style", "font-size: 20px; color: red"), ("class", "x")]
      [("style", "color: red; font-size:20px"), ("class", "x")] = true ∧
    _attrs_equal_normalized [("style", "font-size: 20px; color: red")]
      [("style", "color: red; font-size:20px")] = true :=
  C8_claim [("class", "x")] "font-size: 20px; color: red"
    "color: red; font-size:20px" (by decide)


/-! ## Claim C4: the bulk-replace branch of `StreamDiffer.process` -/

/-- C4: when the bulk-replace threshold is positive, both whitespace-collapsed
text contents are non-empty and their similarity ratio is strictly below the
threshold, `process` skips the outer atom alignment entirely: its whole
output is one diff group (id "1", the only id allocated before the body
runs) holding all old events processed under the `del` context followed by
all new events processed under the `ins` context. -/
theorem C4_claim (cfg : DiffConfig) (oldEvents newEvents : List Event)
    (fuel : Nat) (hids : cfg.add_diff_ids = true)
    (hthr : cfg.bulk_replace_similarity_threshold > 0)
    (hold : pyStrip (extract_text_from_events oldEvents) ≠ "")
    (hnew : pyStrip (extract_text_from_events newEvents) ≠ "")
    (hratio : ratio (extract_text_from_events oldEvents).data
      (extract_text_from_events newEvents).data <
      cfg.bulk_replace_similarity_threshold) :
    process cfg oldEvents newEvents fuel =
      (let stBody := withContext (some "ins") (block_process cfg newEvents)
        (withContext (some "del") (block_process cfg oldEvents)
          { initState with diffIdCounter := 1, diffIdStack := ["1"] })
       { stBody with diffIdStack := stBody.diffIdStack.dropLast }) := by
  unfold process
  rw [if_pos ⟨hthr, hold, hnew, hratio⟩]
  unfold withDiffGroup
  rw [if_pos hids]
  rfl

/-- C4, witness: two short, entirely different texts (ratio 0) trigger the
bulk branch under the default configuration. -/
theorem C4_witness :
    process defaultConfig [Event.Text "aaaa"] [Event.Text "zzzz"] 0 =
      (let stBody := withContext (some "ins")
        (block_process defaultConfig [Event.Text "zzzz"])
        (withContext (some "del") (block_process defaultConfig
          [Event.Text "aaaa"])
          { initState with diffIdCounter := 1, diffIdStack := ["1"] })
       { stBody with diffIdStack := stBody.diffIdStack.dropLast }) :=
  C4_claim defaultConfig [Event.Text "aaaa"] [Event.Text "zzzz"] 0 (by decide)
    (by decide) (by decide) (by decide) (by decide)


/-! ## Claim C6: pending-buffer flushing in `diff_text` -/

/-- `append` writes to the result when no style buffer is active. -/
theorem dsAppend_nobuf (st : DiffState) (e : Event) (h : st.styleBuf = []) :
    dsAppend st e = { st with result := st.result ++ [e] } := by
  unfold dsAppend
  rw [h]
  rfl

/-- `mark_text` on a `del`/`ins` marker with an explicit id under the
whitespace-preserving default appends exactly the three marker events. -/
theorem mark_text_marker (cfg : DiffConfig) (text d tag : String)
    (st : DiffState) (hids : cfg.add_diff_ids = true)
    (hpre : cfg.preserve_whitespace_in_diff = true)
    (htag : tag = "del" ∨ tag = "ins") (hbuf : st.styleBuf = []) :
    mark_text cfg text tag (some d) st =
      { st with result := st.result ++
          [Event.Start tag [(cfg.diff_id_attr, d)],
           Event.Text (makeWsVisible text), Event.End tag] } := by
  obtain ⟨res, stk, ctx, skip, wrap, cnt, idstk, sbuf⟩ := st
  simp only at hbuf
  subst hbuf
  rcases htag with h | h <;> subst h <;>
  · unfold mark_text
    rw [if_pos ⟨hpre, by decide⟩]
    unfold changeAttrs
    rw [if_pos hids]
    simp [dsAppend, setAttr]

/-- C6: `flush_pending` in `diff_text` — with both buffers non-empty one
fresh diff id (the incremented counter) is allocated and placed on both the
`del` and the `ins` marker, the `del` emitted first; a lone non-empty buffer
is emitted with its own freshly allocated id. -/
theorem C6_claim (cfg : DiffConfig) (pd pins : List String) (st : DiffState)
    (hids : cfg.add_diff_ids = true)
    (hpre : cfg.preserve_whitespace_in_diff = true)
    (hbuf : st.styleBuf = []) :
    (pd ≠ [] → pins ≠ [] →
      flushPending cfg pd pins st =
        { st with
            result := st.result ++
              [Event.Start "del"
                 [(cfg.diff_id_attr, toString (st.diffIdCounter + 1))],
               Event.Text (makeWsVisible (String.join pd)), Event.End "del",
               Event.Start "ins"
                 [(cfg.diff_id_attr, toString (st.diffIdCounter + 1))],
               Event.Text (makeWsVisible (String.join pins)), Event.End "ins"]
            diffIdCounter := st.diffIdCounter + 1 }) ∧
    (pd ≠ [] → pins = [] →
      flushPending cfg pd pins st =
        { st with
            result := st.result ++
              [Event.Start "del"
                 [(cfg.diff_id_attr, toString (st.diffIdCounter + 1))],
               Event.Text (makeWsVisible (String.join pd)), Event.End "del"]
            diffIdCounter := st.diffIdCounter + 1 }) ∧
    (pd = [] → pins ≠ [] →
      flushPending cfg pd pins st =
        { st with
            result := st.result ++
              [Event.Start "ins"
                 [(cfg.diff_id_attr, toString (st.diffIdCounter + 1))],
               Event.Text (makeWsVisible (String.join pins)), Event.End "ins"]
            diffIdCounter := st.diffIdCounter + 1 }) := by
  obtain ⟨res, stk, ctx, skip, wrap, cnt, idstk, sbuf⟩ := st
  simp only at hbuf
  subst hbuf
  refine ⟨fun h1 h2 => ?_, fun h1 h2 => ?_, fun h1 h2 => ?_⟩
  · unfold flushPending
    rw [if_pos ⟨h1, h2⟩]
    unfold maybeNewDiffId
    rw [if_pos hids]
    simp only [newDiffId]
    rw [mark_text_marker cfg _ _ _ _ hids hpre (Or.inl rfl) rfl]
    rw [mark_text_marker cfg _ _ _ _ hids hpre (Or.inr rfl) rfl]
    simp
  · subst h2
    unfold flushPending
    rw [if_neg (fun h => h.2 rfl)]
    rw [if_pos h1]
    unfold maybeNewDiffId
    rw [if_pos hids]
    simp only [newDiffId]
    rw [mark_text_marker cfg _ _ _ _ hids hpre (Or.inl rfl) rfl]
    rw [if_neg (fun h => h rfl)]
  · subst h1
    unfold flushPending
    rw [if_neg (fun h => h.1 rfl)]
    rw [if_neg (show ¬(([] : List String) ≠ []) from fun h => h rfl)]
    rw [if_pos h2]
    unfold maybeNewDiffId
    rw [if_pos hids]
    simp only [newDiffId]
    rw [mark_text_marker cfg _ _ _ _ hids hpre (Or.inr rfl) rfl]

/-- C6, witness: one deleted and one inserted word share the id "1"; a lone
deletion and a lone insertion each allocate their own id. -/
theorem C6_witness :
    (["x"] ≠ ([] : List String) → ["y"] ≠ ([] : List String) →
      flushPending defaultConfig ["x"] ["y"] initState =
        { initState with
            result := initState.result ++
              [Event.Start "del"
                 [(defaultConfig.diff_id_attr, toString (initState.diffIdCounter + 1))],
               Event.Text (makeWsVisible (String.join ["x"])), Event.End "del",
               Event.Start "ins"
                 [(defaultConfig.diff_id_attr, toString (initState.diffIdCounter + 1))],
               Event.Text (makeWsVisible (String.join ["y"])), Event.End "ins"]
            diffIdCounter := initState.diffIdCounter + 1 }) ∧
    (["x"] ≠ ([] : List String) → ["y"] = ([] : List String) →
      flushPending defaultConfig ["x"] ["y"] initState =
        { initState with
            result := initState.result ++
              [Event.Start "del"
                 [(defaultConfig.diff_id_attr, toString (initState.diffIdCounter + 1))],
               Event.Text (makeWsVisible (String.join ["x"])), Event.End "del"]
            diffIdCounter := initState.diffIdCounter + 1 }) ∧
    (["x"] = ([] : List String) → ["y"] ≠ ([] : List String) →
      flushPending defaultConfig ["x"] ["y"] initState =
        { initState with
            result := initState.result ++
              [Event.Start "ins"
                 [(defaultConfig.diff_id_attr, toString (initState.diffIdCounter + 1))],
               Event.Text (makeWsVisible (String.join ["y"])), Event.End "ins"]
            diffIdCounter := initState.diffIdCounter + 1 }) :=
  C6_claim defaultConfig ["x"] ["y"] initState (by decide) (by decide) rfl


/-! ## Claim C7: the style-only change buffer flushed by `StreamDiffer.leave` -/

/-- Folding `append` over a buffered event list with no active style buffer
appends the whole list to the result. -/
theorem foldl_dsAppend_nobuf (evs : List Event) (st : DiffState)
    (h : st.styleBuf = []) :
    evs.foldl dsAppend st = { st with result := st.result ++ evs } := by
  induction evs generalizing st with
  | nil => simp
  | cons e rest ih =>
    rw [List.foldl_cons, dsAppend_nobuf st e h, ih _ (by simpa using h)]
    simp

/-- `append` on a literal state with no active style buffer, in the
constructor form convenient for iterated rewriting. -/
theorem dsAppend_nil (res : List Event) (stk : List String)
    (ctx : Option String) (skip : List String)
    (wrap : List (String × String × Option String)) (cnt : Nat)
    (idstk : List String) (e : Event) :
    dsAppend (DiffState.mk res stk ctx skip wrap cnt idstk []) e =
      DiffState.mk (res ++ [e]) stk ctx skip wrap cnt idstk [] := rfl

/-- Folding `append` over a literal state with no active style buffer. -/
theorem foldl_dsAppend_nil (evs : List Event) (res : List Event)
    (stk : List String) (ctx : Option String) (skip : List String)
    (wrap : List (String × String × Option String)) (cnt : Nat)
    (idstk : List String) :
    evs.foldl dsAppend (DiffState.mk res stk ctx skip wrap cnt idstk []) =
      DiffState.mk (res ++ evs) stk ctx skip wrap cnt idstk [] := by
  induction evs generalizing res with
  | nil => simp
  | cons e rest ih =>
    rw [List.foldl_cons, dsAppend_nil, ih]
    simp

/-- C7, counterexample: entering a `span` whose attributes changed only in
the style buffers the inner text, and `leave` flushes the buffer as a
`del` carrying the old style and an `ins`; but the two markers receive
distinct freshly allocated diff ids ("2" and "3"), not one shared id. -/
theorem C7_counterexample :
    (let st1 := enter_mark_replaced defaultConfig "span"
        [("style", "color: blue")] [("style", "color: red")] none initState
     let st2 := dsAppend st1 (Event.Text "x")
     let st3 := (dsLeave defaultConfig st2 "span").2
     st3.result =
       [Event.Start "span" [("style", "color: blue"), ("data-diff-id", "1")],
        Event.Start "del" [("style", "color: red"), ("data-diff-id", "2")],
        Event.Text "x", Event.End "del",
        Event.Start "ins" [("data-diff-id", "3")],
        Event.Text "x", Event.End "ins", Event.End "span"]) ∧
    ("2" : String) ≠ "3" := by
  decide

/-- C7, amended: on leaving a same-tag element whose style-only change was
buffered (with an id allocated at enter time), the buffered content is
emitted once inside a `del` carrying the old style and once inside an
`ins`, the `del` first — but each of the two markers gets its own freshly
allocated diff id (counter + 1 on the `del`, counter + 2 on the `ins`),
so the pair does not share one id. -/
theorem C7_amended (cfg : DiffConfig) (st : DiffState)
    (tag oldStyle d : String) (evs : List Event)
    (hstack : st.stack.getLast? = some tag)
    (hbuf : st.styleBuf = [StyleBufEntry.mk tag oldStyle evs (some d)])
    (hstyle : oldStyle ≠ "") (hattr : cfg.diff_id_attr ≠ "style") :
    dsLeave cfg st tag =
      (true,
        { st with
            styleBuf := []
            diffIdCounter := st.diffIdCounter + 2
            result := st.result ++
              [Event.Start "del" [("style", oldStyle),
                 (cfg.diff_id_attr, toString (st.diffIdCounter + 1))]] ++ evs ++
              [Event.End "del",
               Event.Start "ins"
                 [(cfg.diff_id_attr, toString (st.diffIdCounter + 2))]] ++ evs ++
              [Event.End "ins", Event.End tag]
            stack := st.stack.dropLast }) := by
  obtain ⟨res, stk, ctx, skip, wrap, cnt, idstk, sbuf⟩ := st
  simp only at hstack hbuf
  subst hbuf
  unfold dsLeave
  simp only [hstack, if_true, List.getLast?_singleton, newDiffId]
  rw [if_pos hstyle]
  have hattr2 : "style" ≠ cfg.diff_id_attr := Ne.symm hattr
  have hor : attrsOr [("style", oldStyle)] [(cfg.diff_id_attr,
      toString (cnt + 1))] =
      [("style", oldStyle), (cfg.diff_id_attr, toString (cnt + 1))] := by
    simp [attrsOr, attrsGet, hattr, hattr2]
  rw [hor]
  simp only [List.dropLast_single, dsAppend_nil, foldl_dsAppend_nil]
  simp

/-- C7, witness: the amended flush equation at a concrete buffered span with
old style `color: red`, starting from counter 5: the `del` gets id "6", the
`ins` id "7". -/
theorem C7_witness :
    dsLeave defaultConfig
      (DiffState.mk [] ["span"] none [] [] 5 []
        [StyleBufEntry.mk "span" "color: red" [Event.Text "x"] (some "1")])
      "span" =
      (true,
        { DiffState.mk [] ["span"] none [] [] 5 []
            [StyleBufEntry.mk "span" "color: red" [Event.Text "x"] (some "1")]
          with
            styleBuf := []
            diffIdCounter := 5 + 2
            result := [] ++
              [Event.Start "del" [("style", "color: red"),
                 (defaultConfig.diff_id_attr, toString (5 + 1))]] ++
              [Event.Text "x"] ++
              [Event.End "del",
               Event.Start "ins"
                 [(defaultConfig.diff_id_attr, toString (5 + 2))]] ++
              [Event.Text "x"] ++
              [Event.End "ins", Event.End "span"]
            stack := ["span"].dropLast }) :=
  C7_amended defaultConfig
    (DiffState.mk [] ["span"] none [] [] 5 []
      [StyleBufEntry.mk "span" "color: red" [Event.Text "x"] (some "1")])
    "span" "color: red" "1" [Event.Text "x"] rfl rfl (by decide) (by decide)


/-! ## Claim C3: single-column removal/insertion alignment in table rows -/

/-- The best-index fold shared by `best_single_delete_index` and
`best_single_insert_index`, over an abstract score function. -/
def bestIdxFold (score : Nat → Nat) (n : Nat) : Nat × Int :=
  (List.range n).foldl (fun acc k =>
    if ((score k : Int) > acc.2) then (k, (score k : Int)) else acc)
    ((0 : Nat), (-1 : Int))

/-- The best-index fold returns the least index attaining the maximal score:
the result is in range, carries its own score, weakly dominates every index
and strictly dominates every smaller index. -/
theorem bestIdxFold_spec (score : Nat → Nat) (n : Nat) (hn : n ≠ 0) :
    (bestIdxFold score n).1 < n ∧
    (bestIdxFold score n).2 = (score (bestIdxFold score n).1 : Int) ∧
    (∀ j, j < n → score j ≤ score (bestIdxFold score n).1) ∧
    (∀ j, j < (bestIdxFold score n).1 →
      score j < score (bestIdxFold score n).1) := by
  induction n with
  | zero => exact absurd rfl hn
  | succ m ih =>
    by_cases hm : m = 0
    · subst hm
      have hone : bestIdxFold score 1 = (0, (score 0 : Int)) := by
        unfold bestIdxFold
        rw [show List.range 1 = [0] from rfl, List.foldl_cons, List.foldl_nil]
        rw [if_pos (by omega)]
      rw [hone]
      refine ⟨Nat.zero_lt_one, rfl, ?_, ?_⟩
      · intro j hj
        interval_cases j
        exact le_refl _
      · intro j hj
        exact absurd hj (Nat.not_lt_zero j)
    · obtain ⟨h1, h2, h3, h4⟩ := ih hm
      have hstep : bestIdxFold score (m + 1) =
          (if ((score m : Int) > (bestIdxFold score m).2) then
            (m, (score m : Int))
          else bestIdxFold score m) := by
        unfold bestIdxFold
        rw [List.range_succ, List.foldl_append, List.foldl_cons, List.foldl_nil]
      by_cases hgt : (score m : Int) > (bestIdxFold score m).2
      · rw [hstep, if_pos hgt]
        have hlt : score (bestIdxFold score m).1 < score m := by
          rw [h2] at hgt
          exact_mod_cast hgt
        refine ⟨Nat.lt_succ_self m, rfl, ?_, ?_⟩
        · intro j hj
          rcases Nat.lt_succ_iff_lt_or_eq.mp hj with h | h
          · exact le_of_lt (lt_of_le_of_lt (h3 j h) hlt)
          · subst h
            exact le_refl _
        · intro j hj
          exact lt_of_le_of_lt (h3 j hj) hlt
      · rw [hstep, if_neg hgt]
        have hle : score m ≤ score (bestIdxFold score m).1 := by
          rw [h2] at hgt
          exact_mod_cast not_lt.mp hgt
        refine ⟨Nat.lt_succ_of_lt h1, h2, ?_, h4⟩
        intro j hj
        rcases Nat.lt_succ_iff_lt_or_eq.mp hj with h | h
        · exact h3 j h
        · subst h
          exact hle

/-- C3: with one extra old cell, `best_single_delete_index` returns an index
`k < len(old)` whose prefix+suffix alignment score (position matches of
`old[0..k)` against `new[0..k)` plus of `old[k+1..)` against `new[k..)`,
as computed by `bsdiScore`) is maximal, and among maximal indices the
smallest (every smaller index scores strictly less); the mirror statement
holds for `best_single_insert_index` with `bsiiScore`.  The cells away from
the chosen index are paired positionally by `diff_tr_by_cells` (old `idx`
with new `idx` below `k`, old `idx+1` with new `idx` from `k` on), as its
single-delete branch shows. -/
theorem C3_claim {α : Type} [DecidableEq α] (oldk newk : List α) :
    (oldk ≠ [] →
      best_single_delete_index oldk newk < oldk.length ∧
      (∀ j, j < oldk.length → bsdiScore oldk newk j ≤
        bsdiScore oldk newk (best_single_delete_index oldk newk)) ∧
      (∀ j, j < best_single_delete_index oldk newk →
        bsdiScore oldk newk j <
          bsdiScore oldk newk (best_single_delete_index oldk newk))) ∧
    (newk ≠ [] →
      best_single_insert_index oldk newk < newk.length ∧
      (∀ j, j < newk.length → bsiiScore oldk newk j ≤
        bsiiScore oldk newk (best_single_insert_index oldk newk)) ∧
      (∀ j, j < best_single_insert_index oldk newk →
        bsiiScore oldk newk j <
          bsiiScore oldk newk (best_single_insert_index oldk newk))) := by
  constructor
  · intro h
    have hn : oldk.length ≠ 0 := fun hc => h (List.length_eq_zero.mp hc)
    have heq : best_single_delete_index oldk newk =
        (bestIdxFold (bsdiScore oldk newk) oldk.length).1 := rfl
    obtain ⟨h1, _, h3, h4⟩ := bestIdxFold_spec (bsdiScore oldk newk)
      oldk.length hn
    rw [heq]
    exact ⟨h1, h3, h4⟩
  · intro h
    have hn : newk.length ≠ 0 := fun hc => h (List.length_eq_zero.mp hc)
    have heq : best_single_insert_index oldk newk =
        (bestIdxFold (bsiiScore oldk newk) newk.length).1 := rfl
    obtain ⟨h1, _, h3, h4⟩ := bestIdxFold_spec (bsiiScore oldk newk)
      newk.length hn
    rw [heq]
    exact ⟨h1, h3, h4⟩


/-! ## Claim C2: structural tags under a change context -/

/-- Scan for a structural-tag `Start` lying strictly inside an open
`ins`/`del` wrapper (the depth counts the wrappers currently open). -/
def structStartInsideWrapper : Nat → List Event → Bool
  | _, [] => false
  | depth, Event.Start t _ :: rest =>
    if qname_localname t = "ins" ∨ qname_localname t = "del" then
      structStartInsideWrapper (depth + 1) rest
    else if blockStructuralTags.contains (qname_localname t) ∧ depth > 0 then
      true
    else structStartInsideWrapper depth rest
  | depth, Event.End t :: rest =>
    if qname_localname t = "ins" ∨ qname_localname t = "del" then
      structStartInsideWrapper (depth - 1) rest
    else structStartInsideWrapper depth rest
  | depth, Event.Text _ :: rest => structStartInsideWrapper depth rest

/-- No `ins`/`del` tag of its own in an event list. -/
def noInsDelTags (events : List Event) : Bool :=
  events.all (fun e => match e with
    | Event.Start t _ =>
      !(qname_localname t = "ins" ∨ qname_localname t = "del" : Bool)
    | Event.End t =>
      !(qname_localname t = "ins" ∨ qname_localname t = "del" : Bool)
    | Event.Text _ => true)

/-- C2, counterexample: diffing two tables whose start attributes differ
emits the hidden structural-revert `del` that replays the whole old table,
so a `table` (and `tr`, `td`) `Start` emitted by the engine lies strictly
inside an engine-emitted `del` wrapper, although neither input carries any
`ins`/`del` of its own. -/
theorem C2_counterexample :
    structStartInsideWrapper 0
      (get_diff_stream defaultConfig
        [Event.Start "table" [("class", "a")], Event.Start "tr" [],
         Event.Start "td" [], Event.Text "x", Event.End "td",
         Event.End "tr", Event.End "table"]
        [Event.Start "table" [("class", "b")], Event.Start "tr" [],
         Event.Start "td" [], Event.Text "x", Event.End "td",
         Event.End "tr", Event.End "table"] 10) = true ∧
    noInsDelTags
      ([Event.Start "table" [("class", "a")], Event.Start "tr" [],
        Event.Start "td" [], Event.Text "x", Event.End "td",
        Event.End "tr", Event.End "table"] ++
       [Event.Start "table" [("class", "b")], Event.Start "tr" [],
        Event.Start "td" [], Event.Text "x", Event.End "td",
        Event.End "tr", Event.End "table"]) = true := by
  decide

/-- `_set_attr` binds the set name to the new value. -/
theorem attrsGet_setAttr_self (a : Attrs) (n v : String) :
    attrsGet (setAttr a n v) n = some v := by
  unfold setAttr
  induction a with
  | nil => simp [attrsGet]
  | cons kv rest ih =>
    obtain ⟨k, w⟩ := kv
    by_cases h : k = n
    · simpa [List.filter_cons, h] using ih
    · simp only [List.filter_cons]
      rw [if_pos (by simpa using h)]
      rw [List.cons_append]
      conv_lhs => unfold attrsGet
      rw [if_neg h]
      exact ih

/-- `_set_attr` leaves other names alone. -/
theorem attrsGet_setAttr_ne (a : Attrs) (n v m : String) (h : m ≠ n) :
    attrsGet (setAttr a n v) m = attrsGet a m := by
  unfold setAttr
  induction a with
  | nil =>
    simp only [List.filter_nil, List.nil_append]
    conv_lhs => unfold attrsGet
    rw [if_neg (fun hh : n = m => h hh.symm)]
  | cons kv rest ih =>
    obtain ⟨k, w⟩ := kv
    by_cases hk : k = n
    · subst hk
      simp only [List.filter_cons]
      rw [if_neg (by simp)]
      rw [ih]
      conv_rhs => unfold attrsGet
      rw [if_neg (fun hh : k = m => h hh.symm)]
    · simp only [List.filter_cons]
      rw [if_pos (by simpa using hk)]
      rw [List.cons_append]
      conv_lhs => unfold attrsGet
      conv_rhs => unfold attrsGet
      by_cases hkm : k = m
      · rw [if_pos hkm, if_pos hkm]
      · rw [if_neg hkm, if_neg hkm]
        exact ih

/-- `attrsGet` through the genshi `|` with a single fresh-or-replacing
binding: the bound name always reads back the new value. -/
theorem attrsGet_attrsOr_single (a : Attrs) (n v : String) :
    attrsGet (attrsOr a [(n, v)]) n = some v := by
  unfold attrsOr
  induction a with
  | nil => simp [attrsGet]
  | cons kv rest ih =>
    obtain ⟨k, w⟩ := kv
    by_cases hk : n = k
    · subst hk
      simp only [List.map_cons]
      rw [show attrsGet [(n, v)] n = some v from by
        conv_lhs => unfold attrsGet
        rw [if_pos rfl]]
      rw [List.cons_append]
      conv_lhs => unfold attrsGet
      rw [if_pos rfl]
    · simp only [List.map_cons]
      rw [show attrsGet [(n, v)] k = none from by
        conv_lhs => unfold attrsGet
        rw [if_neg hk]
        rfl]
      rw [List.cons_append]
      conv_lhs => unfold attrsGet
      rw [if_neg (fun hh : k = n => hk hh.symm)]
      have hstep : attrsGet ((k, w) :: rest) n = attrsGet rest n := by
        conv_lhs => unfold attrsGet
        rw [if_neg (fun hh : k = n => hk hh.symm)]
      simp only [List.filter_cons, List.filter_nil, hstep]
      simp only [List.filter_cons, List.filter_nil] at ih
      exact ih

/-- `inject_class` reads back the class with the injected name appended to
the space-joined pre-existing value. -/
theorem attrsGet_inject_cls (attrs : Attrs) (c : String) :
    attrsGet (inject_cls attrs c) "class" =
      some (match attrsGet attrs "class" with
        | some cv => if cv ≠ "" then cv ++ " " ++ c else c
        | none => c) := by
  unfold inject_cls
  exact attrsGet_attrsOr_single attrs "class" _

/-- C2, amended: a structural (non-`br`) tag opened under an active
`ins`/`del` context is not wrapped in an `ins`/`del`; the engine emits one
`Start` of the tag itself, whose class is the pre-existing class value
space-joined with `tagdiff_added` (context `ins`) or `tagdiff_deleted`
(context `del`) and which carries the active diff id, pushes the tag on the
stack, and keeps the context (the children are processed under the same
context).  The claim's final sentence does not hold for the whole engine:
the structural-revert `del` of `diff_table_by_rows` replays structural
`Start` events inside an engine-emitted `del`. -/
theorem C2_amended (cfg : DiffConfig) (tag : String) (attrs : Attrs)
    (st : DiffState) (d : String)
    (hstruct : blockStructuralTags.contains (qname_localname tag) = true)
    (hbr : qname_localname tag ≠ "br")
    (hctx : st.context = some "ins" ∨ st.context = some "del")
    (hids : cfg.add_diff_ids = true)
    (hactive : activeDiffId st = some d)
    (hbuf : st.styleBuf = [])
    (hattr : cfg.diff_id_attr ≠ "class") :
    (let cls := "tagdiff_" ++
      (if st.context = some "ins" then "added" else "deleted")
     let attrs2 := setAttr (inject_cls attrs cls) cfg.diff_id_attr d
     handle_start_event cfg tag attrs st =
       (true, { st with
                  result := st.result ++ [Event.Start tag attrs2]
                  stack := st.stack ++ [tag] }) ∧
     attrsGet attrs2 "class" = some (match attrsGet attrs "class" with
       | some cv => if cv ≠ "" then cv ++ " " ++ cls else cls
       | none => cls) ∧
     attrsGet attrs2 cfg.diff_id_attr = some d) := by
  refine ⟨?_, ?_, ?_⟩
  · unfold handle_start_event
    rw [if_neg (fun h => hbr h.1)]
    rw [if_pos ⟨hstruct, hctx⟩]
    simp only []
    rw [if_pos hids]
    rw [hactive]
    simp only []
    unfold dsEnter
    rw [dsAppend_nobuf _ _ (by simpa using hbuf)]
  · rw [attrsGet_setAttr_ne _ _ _ _ (fun h => hattr h.symm)]
    exact attrsGet_inject_cls attrs _
  · exact attrsGet_setAttr_self _ _ _

/-- C2, witness: a `tr` with one pre-existing class opened under the `ins`
context with active diff id "7". -/
theorem C2_witness :
    (let cls := "tagdiff_" ++
      (if (DiffState.mk [] [] (some "ins") [] [] 8 ["7"] []).context =
          some "ins" then "added" else "deleted")
     let attrs2 := setAttr (inject_cls [("class", "row")] cls)
       defaultConfig.diff_id_attr "7"
     handle_start_event defaultConfig "tr" [("class", "row")]
        (DiffState.mk [] [] (some "ins") [] [] 8 ["7"] []) =
       (true, { DiffState.mk [] [] (some "ins") [] [] 8 ["7"] [] with
                  result := [] ++ [Event.Start "tr" attrs2]
                  stack := [] ++ ["tr"] }) ∧
     attrsGet attrs2 "class" =
       some (match attrsGet [("class", "row")] "class" with
         | some cv => if cv ≠ "" then cv ++ " " ++ cls else cls
         | none => cls) ∧
     attrsGet attrs2 defaultConfig.diff_id_attr = some "7") :=
  C2_amended defaultConfig "tr" [("class", "row")]
    (DiffState.mk [] [] (some "ins") [] [] 8 ["7"] []) "7" (by decide)
    (by decide) (Or.inl rfl) (by decide) rfl rfl (by decide)


/-! ## Claim C9: the atomizer partitions the stream

The atomizer keeps every non-text event verbatim and in order, but it cuts
each non-empty text event into the token runs of its payload; `SplitsTo`
is the refinement relation that captures exactly this. -/

/-- `SplitsTo xs ys`: `ys` is `xs` with each text event either kept or
replaced by consecutive text events whose payloads concatenate to the
original payload, and every other event kept verbatim in order. -/
inductive SplitsTo : List Event → List Event → Prop
  | nil : SplitsTo [] []
  | keep (e : Event) {xs ys : List Event} : SplitsTo xs ys →
      SplitsTo (e :: xs) (e :: ys)
  | split (d : String) (parts : List String) {xs ys : List Event} :
      String.join parts = d → SplitsTo xs ys →
      SplitsTo (Event.Text d :: xs) (parts.map Event.Text ++ ys)

/-- Every stream refines itself. -/
theorem SplitsTo.refl_list : ∀ xs : List Event, SplitsTo xs xs
  | [] => SplitsTo.nil
  | e :: rest => SplitsTo.keep e (SplitsTo.refl_list rest)

/-- A common verbatim prefix preserves the refinement. -/
theorem splitsTo_append_left (c : List Event) {xs ys : List Event}
    (h : SplitsTo xs ys) : SplitsTo (c ++ xs) (c ++ ys) := by
  induction c with
  | nil => simpa using h
  | cons e rest ih => exact SplitsTo.keep e ih

/-- Accumulator form of `concat_events`. -/
theorem concat_events_go (atoms : List Atom) (acc : List Event) :
    atoms.foldl (fun rv a => rv ++ a.events) acc =
      acc ++ atoms.foldl (fun rv a => rv ++ a.events) [] := by
  induction atoms generalizing acc with
  | nil => simp
  | cons a rest ih =>
    rw [List.foldl_cons, List.foldl_cons, ih,
      ih (([] : List Event) ++ a.events)]
    simp

/-- `concat_events` over a cons. -/
theorem concat_events_cons (a : Atom) (atoms : List Atom) :
    concat_events (a :: atoms) = a.events ++ concat_events atoms := by
  unfold concat_events
  rw [List.foldl_cons, concat_events_go]
  simp

/-- `concat_events` over an append. -/
theorem concat_events_append (xs ys : List Atom) :
    concat_events (xs ++ ys) = concat_events xs ++ concat_events ys := by
  induction xs with
  | nil => simp [concat_events]
  | cons a rest ih =>
    rw [List.cons_append, concat_events_cons, concat_events_cons, ih,
      List.append_assoc]

/-- `concat_events` of the text atoms built from a token-run list. -/
theorem concat_events_textAtoms (l : List String) :
    concat_events (l.map (fun p =>
      Atom.mk "text" (PyVal.tup [PyVal.s "t", PyVal.s p]) none
        [Event.Text p])) = l.map Event.Text := by
  induction l with
  | nil => rfl
  | cons p rest ih =>
    rw [List.map_cons, concat_events_cons, ih]
    rfl

/-- `String.join` over a cons. -/
theorem string_join_cons (s : String) (l : List String) :
    String.join (s :: l) = s ++ String.join l := by
  show List.foldl (fun r s => r ++ s) ("" ++ s) l = s ++ String.join l
  have haux : ∀ (l : List String) (acc : String),
      List.foldl (fun r s => r ++ s) acc l =
        acc ++ List.foldl (fun r s => r ++ s) "" l := by
    intro l
    induction l with
    | nil => intro acc; simp
    | cons t rest ih =>
      intro acc
      rw [List.foldl_cons, List.foldl_cons, ih, ih ("" ++ t)]
      simp [String.append_assoc]
  rw [haux]
  simp [String.join]

/-- Joining the token runs started from an open accumulator restores the
reversed accumulator followed by the remaining characters. -/
theorem tokenRunsGo_join_some (cs : List Char) : ∀ (cls : Nat)
    (acc : List Char),
    String.join (tokenRunsGo (some (cls, acc)) cs) =
      String.mk (acc.reverse ++ cs) := by
  induction cs with
  | nil =>
    intro cls acc
    rw [show tokenRunsGo (some (cls, acc)) [] = [String.mk acc.reverse]
      from rfl]
    rw [string_join_cons]
    show String.mk acc.reverse ++ "" = String.mk (acc.reverse ++ [])
    simp
  | cons c rest ih =>
    intro cls acc
    have hstep : tokenRunsGo (some (cls, acc)) (c :: rest) =
        (if charCls c = cls then tokenRunsGo (some (cls, c :: acc)) rest
         else String.mk acc.reverse ::
           tokenRunsGo (some (charCls c, [c])) rest) := rfl
    by_cases h : charCls c = cls
    · rw [hstep, if_pos h]
      rw [ih cls (c :: acc)]
      simp
    · rw [hstep, if_neg h]
      rw [string_join_cons, ih (charCls c) [c]]
      show String.mk (acc.reverse ++ ([c].reverse ++ rest)) = _
      simp

/-- Joining the token runs of a character list restores the list. -/
theorem tokenRunsGo_join_none (cs : List Char) :
    String.join (tokenRunsGo none cs) = String.mk cs := by
  cases cs with
  | nil => rfl
  | cons c rest =>
    rw [show tokenRunsGo none (c :: rest) =
        tokenRunsGo (some (charCls c, [c])) rest from rfl]
    rw [tokenRunsGo_join_some rest (charCls c) [c]]
    rfl

/-- A python slice glued back onto the tail it was cut from. -/
theorem sliceList_append_drop (l : List Event) (i j : Nat) (h : i ≤ j) :
    sliceList l i j ++ l.drop j = l.drop i := by
  unfold sliceList
  by_cases hle : l.length ≤ i
  · rw [List.drop_eq_nil_of_le hle, List.drop_eq_nil_of_le (le_trans hle h),
      List.drop_eq_nil_of_le (le_trans (by simp [List.length_take]) hle)]
    rfl
  · push_neg at hle
    conv_rhs => rw [← List.take_append_drop j l]
    rw [List.drop_append_eq_append_drop]
    congr 1
    rw [List.length_take]
    rw [Nat.sub_eq_zero_of_le (le_min h (le_of_lt hle)), List.drop_zero]

/-- The `find_block_end` scan never runs backwards. -/
theorem fbeGo_ge (tagName : String) : ∀ (l : List Event) (j depth : Nat),
    j ≤ fbeGo tagName l j depth := by
  intro l
  induction l with
  | nil => intro j depth; exact le_refl j
  | cons e rest ih =>
    intro j depth
    match e with
    | Event.Start t a =>
      show j ≤ (if qname_localname t = tagName then
          fbeGo tagName rest (j + 1) (depth + 1)
        else fbeGo tagName rest (j + 1) depth)
      by_cases h : qname_localname t = tagName
      · rw [if_pos h]; exact le_trans (Nat.le_succ j) (ih (j + 1) (depth + 1))
      · rw [if_neg h]; exact le_trans (Nat.le_succ j) (ih (j + 1) depth)
    | Event.End t =>
      show j ≤ (if qname_localname t = tagName then
          (if depth = 1 then j + 1 else fbeGo tagName rest (j + 1) (depth - 1))
        else fbeGo tagName rest (j + 1) depth)
      by_cases h : qname_localname t = tagName
      · rw [if_pos h]
        by_cases hd : depth = 1
        · rw [if_pos hd]; exact Nat.le_succ j
        · rw [if_neg hd]
          exact le_trans (Nat.le_succ j) (ih (j + 1) (depth - 1))
      · rw [if_neg h]; exact le_trans (Nat.le_succ j) (ih (j + 1) depth)
    | Event.Text d =>
      show j ≤ fbeGo tagName rest (j + 1) depth
      exact le_trans (Nat.le_succ j) (ih (j + 1) depth)

/-- `find_block_end` lands strictly past the opening index. -/
theorem find_block_end_gt (events : List Event) (i : Nat) (tagName : String) :
    i < find_block_end events i tagName := by
  unfold find_block_end
  exact lt_of_lt_of_le (Nat.lt_succ_self i)
    (fbeGo_ge tagName (events.drop (i + 1)) (i + 1) 1)

/-- The atomizer loop refines the unprocessed suffix of the stream into the
concatenation of the atoms it produces, given enough fuel. -/
theorem atomizeGo_splits (cfg : DiffConfig) (events : List Event)
    (blockTags visualTags : List String) : ∀ (fuel i : Nat),
    events.length ≤ i + fuel →
    SplitsTo (events.drop i)
      (concat_events (atomizeGo cfg events blockTags visualTags fuel i)) := by
  intro fuel
  induction fuel with
  | zero =>
    intro i hfuel
    rw [List.drop_eq_nil_of_le (by omega)]
    exact SplitsTo.nil
  | succ fuel ih =>
    intro i hfuel
    match hgi : events.get? i with
    | none =>
      rw [show atomizeGo cfg events blockTags visualTags (fuel + 1) i = []
        from by unfold atomizeGo; rw [hgi]]
      rw [List.drop_eq_nil_of_le (List.get?_eq_none.mp hgi)]
      exact SplitsTo.nil
    | some ev =>
      have hlt : i < events.length := by
        by_contra hc
        rw [List.get?_eq_none.mpr (by omega)] at hgi
        exact Option.noConfusion hgi
      have hdrop : events.drop i = ev :: events.drop (i + 1) := by
        rw [List.drop_eq_getElem_cons hlt]
        have h2 : events[i]? = some events[i] := List.getElem?_eq_getElem hlt
        have h3 : events[i]? = some ev := by
          rw [← List.get?_eq_getElem?]
          exact hgi
        rw [h2] at h3
        rw [Option.some.inj h3]
      match ev with
      | Event.Start tag attrs =>
        by_cases hbr : qname_localname tag = "br" ∧
            isBrEnd (events.get? (i + 1))
        · obtain ⟨hbr1, hbr2⟩ := hbr
          match hgi2 : events.get? (i + 1) with
          | some (Event.End t2) =>
            rw [show atomizeGo cfg events blockTags visualTags (fuel + 1) i =
                Atom.mk "br" (PyVal.tup [PyVal.s "br"]) none
                  [Event.Start tag attrs, Event.End t2] ::
                  atomizeGo cfg events blockTags visualTags fuel (i + 2)
              from by
                conv_lhs => unfold atomizeGo
                rw [hgi]
                simp only []
                rw [if_pos ⟨hbr1, by rw [hgi2] at hbr2 ⊢; exact hbr2⟩]
                rw [hgi2]]
            rw [concat_events_cons]
            have hdrop2 : events.drop (i + 1) =
                Event.End t2 :: events.drop (i + 2) := by
              have hlt2 : i + 1 < events.length := by
                by_contra hc
                rw [List.get?_eq_none.mpr (by omega)] at hgi2
                exact Option.noConfusion hgi2
              rw [List.drop_eq_getElem_cons hlt2]
              have h2 : events[i + 1]? = some events[i + 1] :=
                List.getElem?_eq_getElem hlt2
              have h3 : events[i + 1]? = some (Event.End t2) := by
                rw [← List.get?_eq_getElem?]
                exact hgi2
              rw [h2] at h3
              rw [Option.some.inj h3]
            rw [hdrop, hdrop2]
            exact SplitsTo.keep _ (SplitsTo.keep _ (ih (i + 2) (by omega)))
          | some (Event.Start _ _) =>
            rw [hgi2] at hbr2
            exact absurd hbr2 (by simp [isBrEnd])
          | some (Event.Text _) =>
            rw [hgi2] at hbr2
            exact absurd hbr2 (by simp [isBrEnd])
          | none =>
            rw [hgi2] at hbr2
            exact absurd hbr2 (by simp [isBrEnd])
        · by_cases hblk : blockTags.contains (qname_localname tag) ∧
              ¬ is_diff_wrapper tag attrs
          · by_cases hdiv : qname_localname tag = "div"
            · by_cases hstr : has_structural_children
                  (sliceList events i
                    (find_block_end events i (qname_localname tag)))
              · rw [show atomizeGo cfg events blockTags visualTags
                    (fuel + 1) i =
                    Atom.mk "event" (eventKeyPyVal (Event.Start tag attrs))
                      none [Event.Start tag attrs] ::
                      atomizeGo cfg events blockTags visualTags fuel (i + 1)
                  from by
                    conv_lhs => unfold atomizeGo
                    rw [hgi]
                    simp only []
                    rw [if_neg hbr, if_pos hblk, if_pos hdiv,
                      if_neg (fun hc => hc hstr)]]
                rw [concat_events_cons, hdrop]
                exact SplitsTo.keep _ (ih (i + 1) (by omega))
              ·
                rw [show atomizeGo cfg events blockTags visualTags
                    (fuel + 1) i =
                    Atom.mk "block"
                      (if visualTags.contains (qname_localname tag) then
                        PyVal.tup [PyVal.s (qname_localname tag),
                          PyVal.s (extract_text_from_events
                            (sliceList events i (find_block_end events i
                              (qname_localname tag)))),
                          attrs_signature attrs cfg,
                          structure_signature (sliceList events i
                            (find_block_end events i (qname_localname tag)))
                            cfg]
                      else PyVal.tup [PyVal.s (qname_localname tag),
                        PyVal.s (extract_text_from_events
                          (sliceList events i (find_block_end events i
                            (qname_localname tag))))])
                      (some (qname_localname tag))
                      (sliceList events i
                        (find_block_end events i (qname_localname tag))) ::
                      atomizeGo cfg events blockTags visualTags fuel
                        (find_block_end events i (qname_localname tag))
                  from by
                    conv_lhs => unfold atomizeGo
                    rw [hgi]
                    simp only []
                    rw [if_neg hbr, if_pos hblk, if_pos hdiv, if_pos hstr]]
                rw [concat_events_cons]
                have hij := find_block_end_gt events i (qname_localname tag)
                rw [← sliceList_append_drop events i
                  (find_block_end events i (qname_localname tag))
                  (le_of_lt hij)]
                exact splitsTo_append_left _ (ih _ (by omega))
            · rw [show atomizeGo cfg events blockTags visualTags
                  (fuel + 1) i =
                  Atom.mk "block"
                    (create_block_atom_key (qname_localname tag)
                      (sliceList events i (find_block_end events i
                        (qname_localname tag))) attrs cfg visualTags)
                    (some (qname_localname tag))
                    (sliceList events i
                      (find_block_end events i (qname_localname tag))) ::
                    atomizeGo cfg events blockTags visualTags fuel
                      (find_block_end events i (qname_localname tag))
                from by
                  conv_lhs => unfold atomizeGo
                  rw [hgi]
                  simp only []
                  rw [if_neg hbr, if_pos hblk, if_neg hdiv]]
              rw [concat_events_cons]
              have hij := find_block_end_gt events i (qname_localname tag)
              rw [← sliceList_append_drop events i
                (find_block_end events i (qname_localname tag))
                (le_of_lt hij)]
              exact splitsTo_append_left _ (ih _ (by omega))
          · rw [show atomizeGo cfg events blockTags visualTags (fuel + 1) i =
                Atom.mk "event" (eventKeyPyVal (Event.Start tag attrs)) none
                  [Event.Start tag attrs] ::
                  atomizeGo cfg events blockTags visualTags fuel (i + 1)
              from by
                conv_lhs => unfold atomizeGo
                rw [hgi]
                simp only []
                rw [if_neg hbr, if_neg hblk]]
            rw [concat_events_cons, hdrop]
            exact SplitsTo.keep _ (ih (i + 1) (by omega))
      | Event.Text d =>
        by_cases htok : cfg.tokenize_text ∧ d ≠ ""
        · rw [show atomizeGo cfg events blockTags visualTags (fuel + 1) i =
              (tokenRunsGo none d.data).map (fun p =>
                Atom.mk "text" (PyVal.tup [PyVal.s "t", PyVal.s p]) none
                  [Event.Text p]) ++
                atomizeGo cfg events blockTags visualTags fuel (i + 1)
            from by
              conv_lhs => unfold atomizeGo
              rw [hgi]
              simp only []
              rw [if_pos htok]]
          rw [concat_events_append, concat_events_textAtoms, hdrop]
          exact SplitsTo.split d (tokenRunsGo none d.data)
            (by rw [tokenRunsGo_join_none]) (ih (i + 1) (by omega))
        · rw [show atomizeGo cfg events blockTags visualTags (fuel + 1) i =
              Atom.mk "event" (eventKeyPyVal (Event.Text d)) none
                [Event.Text d] ::
                atomizeGo cfg events blockTags visualTags fuel (i + 1)
            from by
              conv_lhs => unfold atomizeGo
              rw [hgi]
              simp only []
              rw [if_neg htok]]
          rw [concat_events_cons, hdrop]
          exact SplitsTo.keep _ (ih (i + 1) (by omega))
      | Event.End tag =>
        rw [show atomizeGo cfg events blockTags visualTags (fuel + 1) i =
            Atom.mk "event" (eventKeyPyVal (Event.End tag)) none
              [Event.End tag] ::
              atomizeGo cfg events blockTags visualTags fuel (i + 1)
          from by
            conv_lhs => unfold atomizeGo
            rw [hgi]]
        rw [concat_events_cons, hdrop]
        exact SplitsTo.keep _ (ih (i + 1) (by omega))

/-- C9, counterexample: the default configuration tokenizes text, so the
concatenation of the atoms' events of `[Text "a b"]` is
`[Text "a", Text " ", Text "b"]`, not the original list. -/
theorem C9_counterexample :
    concat_events (atomize_events [Event.Text "a b"] defaultConfig) =
      [Event.Text "a", Event.Text " ", Event.Text "b"] ∧
    concat_events (atomize_events [Event.Text "a b"] defaultConfig) ≠
      [Event.Text "a b"] := by
  decide

/-- C9, amended: for every event list and configuration the concatenation of
the atoms' events is the original list with each non-empty text event cut
into consecutive text events whose payloads concatenate back to the
original payload (`SplitsTo`); no event is lost, duplicated, reordered, and
no non-text event is rewritten. -/
theorem C9_amended (events : List Event) (cfg : DiffConfig) :
    SplitsTo events (concat_events (atomize_events events cfg)) := by
  have h := atomizeGo_splits cfg events (build_block_tags_set cfg).1
    (build_block_tags_set cfg).2 events.length 0 (by omega)
  rw [List.drop_zero] at h
  exact h


/-! ## Claim C10: the shape of `diff_table_by_rows` output -/

/-- Not a `thead`/`tbody`/`tfoot` start or end. -/
def eventNoW : Event → Bool
  | Event.Start t _ => !(["thead", "tbody", "tfoot"].contains (qname_localname t))
  | Event.End t => !(["thead", "tbody", "tfoot"].contains (qname_localname t))
  | Event.Text _ => true

/-- A cell whose event list is non-empty, starts with a `Start` and ends
with an `End` (the shape `_diff_cell_pair` handles in place). -/
def cellWellFormed (c : Cell) : Bool :=
  !c.events.isEmpty && headIsStart c.events && lastIsEnd c.events

/-- What `diff_tr_by_cells` emits for a row diffed against itself: the row's
first event, the cells' events in order (the events between cells are
dropped), and the row's last event. -/
def selfRowOut (row : List Event) : List Event :=
  row.head?.toList ++
    ((extract_direct_tr_cells row).map Cell.events).flatten ++
    row.getLast?.toList

/-- What `diff_table_by_rows` emits for a table diffed against itself: the
table's first event, the per-row output for each extracted `tr` block (the
events between the blocks — `thead`/`tbody`/`tfoot` wrappers included — are
dropped), and the table's last event. -/
def selfTableOut (tbl : List Event) : List Event :=
  tbl.head?.toList ++ ((extract_tr_blocks tbl).map selfRowOut).flatten ++
    tbl.getLast?.toList

/-- `_attrs_equal_normalized` is reflexive. -/
theorem attrs_equal_normalized_refl (a : Attrs) :
    _attrs_equal_normalized a a = true := by
  unfold _attrs_equal_normalized
  exact beq_self_eq_true _

/-- `_diff_cell_pair` on an identical well-formed cell (no inherited table
style): the cell's events are emitted verbatim. -/
theorem diffCellPair_self (cfg : DiffConfig) (c : Cell) (st : DiffState)
    (hwf : cellWellFormed c = true) (hbuf : st.styleBuf = []) :
    diffCellPair cfg none c c st =
      { st with result := st.result ++ c.events } := by
  unfold cellWellFormed at hwf
  simp only [Bool.and_eq_true] at hwf
  obtain ⟨⟨hne, hhead⟩, hlast⟩ := hwf
  rw [Bool.not_eq_true'] at hne
  obtain ⟨tag, a, hh⟩ : ∃ tag a,
      c.events.head? = some (Event.Start tag a) := by
    unfold headIsStart at hhead
    match hh : c.events.head? with
    | some (Event.Start t a) => exact ⟨t, a, rfl⟩
    | some (Event.End t) => rw [hh] at hhead; simp at hhead
    | some (Event.Text d) => rw [hh] at hhead; simp at hhead
    | none => rw [hh] at hhead; simp at hhead
  unfold diffCellPair
  rw [if_neg (by simp [hne, hhead, hlast])]
  simp only [hh]
  rw [if_pos ⟨trivial, attrs_equal_normalized_refl _⟩]
  rw [if_pos trivial]
  exact foldl_dsAppend_nobuf c.events st hbuf

/-- The general cell loop of `diff_tr_by_cells` on identical cell lists:
every pair lands in `_diff_cell_pair`'s identical case, so the cells'
events are emitted verbatim in order. -/
theorem dtbcLoop_self (cfg : DiffConfig) (cells : List Cell)
    (align : List (String × String)) : ∀ (fuel i : Nat) (st : DiffState),
    cells.length ≤ i + fuel →
    (∀ c ∈ cells, cellWellFormed c = true) → st.styleBuf = [] →
    dtbcLoop cfg none cells cells align align fuel i i st =
      { st with result := st.result ++
          (((cells.drop i).map Cell.events).flatten) } := by
  intro fuel
  induction fuel with
  | zero =>
    intro i st hlen hwf hbuf
    rw [List.drop_eq_nil_of_le (by omega)]
    simp [dtbcLoop]
  | succ fuel ih =>
    intro i st hlen hwf hbuf
    by_cases hi : i < cells.length
    · have hc : ∃ c, cells.get? i = some c := by
        rw [List.get?_eq_getElem?, List.getElem?_eq_getElem hi]
        exact ⟨cells[i], rfl⟩
      obtain ⟨c, hc⟩ := hc
      have hcm : c ∈ cells := List.get?_mem hc
      have hdropc : cells.drop i = c :: cells.drop (i + 1) := by
        rw [List.drop_eq_getElem_cons hi]
        have h2 : cells[i]? = some cells[i] := List.getElem?_eq_getElem hi
        rw [List.get?_eq_getElem?, h2] at hc
        rw [Option.some.inj hc]
      rw [show dtbcLoop cfg none cells cells align align (fuel + 1) i i st =
          dtbcLoop cfg none cells cells align align fuel (i + 1) (i + 1)
            (diffCellPair cfg none c c st) from by
        conv_lhs => unfold dtbcLoop
        rw [if_pos (Or.inl hi)]
        rw [if_pos ⟨hi, hi, rfl⟩]
        rw [hc]]
      rw [diffCellPair_self cfg c _ (hwf c hcm) hbuf]
      rw [ih (i + 1) _ (by omega) hwf (by simpa using hbuf)]
      rw [hdropc]
      simp
    · have hdrop : cells.drop i = [] := List.drop_eq_nil_of_le (by omega)
      rw [show dtbcLoop cfg none cells cells align align (fuel + 1) i i st =
          st from by
        conv_lhs => unfold dtbcLoop
        rw [if_neg (by omega)]]
      rw [hdrop]
      simp

/-- `diff_tr_by_cells` on an identical row whose cells are well-formed:
first event, cells verbatim, last event. -/
theorem diff_tr_by_cells_self (cfg : DiffConfig) (row : List Event)
    (st : DiffState) (hne : row.isEmpty = false)
    (hwf : ∀ c ∈ extract_direct_tr_cells row, cellWellFormed c = true)
    (hbuf : st.styleBuf = []) :
    diff_tr_by_cells cfg row row none st =
      { st with result := st.result ++ selfRowOut row } := by
  obtain ⟨e, rest, rfl⟩ : ∃ e rest, row = e :: rest := by
    cases row with
    | nil => simp at hne
    | cons e rest => exact ⟨e, rest, rfl⟩
  unfold diff_tr_by_cells
  rw [if_neg (by simp)]
  simp only [List.head?_cons]
  rw [dsAppend_nobuf _ _ hbuf]
  rw [if_neg (by omega)]
  rw [if_neg (by omega)]
  rw [dtbcLoop_self cfg _ _ _ 0 _ (by omega) hwf (by simpa using hbuf)]
  simp only [List.drop_zero]
  match hlast : (e :: rest).getLast? with
  | some e2 =>
    simp only []
    rw [dsAppend_nobuf _ _ (by simpa using hbuf)]
    unfold selfRowOut
    simp [hlast]
  | none => simp at hlast


/-- The per-opcode row loop of `diff_table_by_rows` on an `equal` range of
identical rows (indices read from offset `i`). -/
theorem rowsFold_self (cfg : DiffConfig) (rows : List (List Event)) :
    ∀ (n i : Nat) (st : DiffState), i + n ≤ rows.length →
    (∀ r ∈ rows, r.isEmpty = false) →
    (∀ r ∈ rows, ∀ c ∈ extract_direct_tr_cells r, cellWellFormed c = true) →
    st.styleBuf = [] →
    (List.range n).foldl (rowPairStep cfg rows rows none i i) st =
      { st with result := st.result ++
          ((((rows.drop i).take n).map selfRowOut).flatten) } := by
  intro n
  induction n with
  | zero =>
    intro i st hlen hne hwf hbuf
    simp [List.range_zero]
  | succ n ih =>
    intro i st hlen hne hwf hbuf
    have hi : i < rows.length := by omega
    obtain ⟨r, hr⟩ : ∃ r, rows.get? i = some r :=
      ⟨rows[i], by rw [List.get?_eq_getElem?, List.getElem?_eq_getElem hi]⟩
    have hrm : r ∈ rows := List.get?_mem hr
    have hdropr : rows.drop i = r :: rows.drop (i + 1) := by
      rw [List.drop_eq_getElem_cons hi]
      have h2 : rows[i]? = some rows[i] := List.getElem?_eq_getElem hi
      rw [List.get?_eq_getElem?, h2] at hr
      rw [Option.some.inj hr]
    rw [List.range_succ_eq_map, List.foldl_cons]
    have hstep0 : rowPairStep cfg rows rows none i i st 0 =
        diff_tr_by_cells cfg r r none st := by
      unfold rowPairStep
      rw [show i + 0 = i from rfl, hr]
    rw [hstep0]
    rw [diff_tr_by_cells_self cfg r st (hne r hrm) (hwf r hrm) hbuf]
    rw [List.foldl_map]
    have hsh : ∀ (s : DiffState) (t : Nat),
        rowPairStep cfg rows rows none i i s (Nat.succ t) =
        rowPairStep cfg rows rows none (i + 1) (i + 1) s t := by
      intro s t
      unfold rowPairStep
      rw [show i + Nat.succ t = (i + 1) + t from by omega]
    simp only [hsh]
    rw [show (fun (x : DiffState) (y : Nat) =>
        rowPairStep cfg rows rows none (i + 1) (i + 1) x y) =
        rowPairStep cfg rows rows none (i + 1) (i + 1) from rfl]
    rw [ih (i + 1) _ (by omega) hne hwf (by simpa using hbuf)]
    rw [hdropr]
    simp [List.append_assoc]

/-- The events of every extracted cell come from the row itself. -/
theorem mem_of_mem_sliceList {e : Event} {l : List Event} {i j : Nat}
    (h : e ∈ sliceList l i j) : e ∈ l := by
  unfold sliceList at h
  exact List.mem_of_mem_take (List.mem_of_mem_drop h)

/-- Cell extraction only repackages events of the row. -/
theorem edcGo_events_mem (trEvents : List Event) : ∀ (fuel i : Nat)
    (c : Cell), c ∈ edcGo trEvents fuel i → ∀ e ∈ c.events, e ∈ trEvents := by
  intro fuel
  induction fuel with
  | zero =>
    intro i c hc
    simp [edcGo] at hc
  | succ fuel ih =>
    intro i c hc e he
    rw [show edcGo trEvents (fuel + 1) i = (match trEvents.get? i with
        | none => []
        | some (Event.Start tag attrs) =>
          if qname_localname tag = "td" ∨ qname_localname tag = "th" then
            Cell.mk (qname_localname tag)
              (sliceList trEvents i
                (find_block_end trEvents i (qname_localname tag))) attrs ::
              edcGo trEvents fuel
                (find_block_end trEvents i (qname_localname tag))
          else edcGo trEvents fuel (i + 1)
        | some _ => edcGo trEvents fuel (i + 1)) from by
      conv_lhs => unfold edcGo] at hc
    match hgi : trEvents.get? i with
    | none =>
      rw [hgi] at hc
      simp at hc
    | some (Event.Start tag attrs) =>
      rw [hgi] at hc
      simp only [] at hc
      by_cases hcell : qname_localname tag = "td" ∨ qname_localname tag = "th"
      · rw [if_pos hcell] at hc
        rcases List.mem_cons.mp hc with hhd | htl
        · subst hhd
          exact mem_of_mem_sliceList he
        · exact ih _ c htl e he
      · rw [if_neg hcell] at hc
        exact ih _ c hc e he
    | some (Event.End t) =>
      rw [hgi] at hc
      exact ih _ c hc e he
    | some (Event.Text d) =>
      rw [hgi] at hc
      exact ih _ c hc e he

/-- An element of the head-option belongs to the list. -/
theorem mem_of_head?_toList {e : Event} {l : List Event}
    (h : e ∈ l.head?.toList) : e ∈ l := by
  cases l with
  | nil => simp at h
  | cons a rest =>
    simp at h
    simp [h]

/-- An element of the last-option belongs to the list. -/
theorem mem_of_getLast?_toList {e : Event} {l : List Event}
    (h : e ∈ l.getLast?.toList) : e ∈ l := by
  match hl : l.getLast? with
  | none =>
    rw [hl] at h
    simp at h
  | some a =>
    rw [hl] at h
    simp at h
    subst h
    exact List.mem_of_getLast?_eq_some hl

/-- C10, amended: for identical non-empty table slices whose extracted `tr`
blocks are non-empty with well-formed cells, the output of
`diff_table_by_rows` is exactly: the table's first event, the per-row
emission of each aligned `tr` block (its first event, its cells' events
verbatim, its last event), and the table's last event.  Events between the
`tr` blocks — `thead`/`tbody`/`tfoot` wrappers included — are dropped, so
when the first and last events and the `tr` blocks carry no
`thead`/`tbody`/`tfoot` tag, none occurs in the output.  (When the table
start attributes differ, the hidden structural-revert `del` replays the
whole old table instead, `thead`/`tbody`/`tfoot` included.) -/
theorem C10_amended (cfg : DiffConfig) (tbl : List Event) (st : DiffState)
    (hne : tbl.isEmpty = false)
    (hrows : ∀ r ∈ extract_tr_blocks tbl, r.isEmpty = false)
    (hcells : ∀ r ∈ extract_tr_blocks tbl, ∀ c ∈ extract_direct_tr_cells r,
      cellWellFormed c = true)
    (hbuf : st.styleBuf = []) :
    diff_table_by_rows cfg tbl tbl st =
      { st with result := st.result ++ selfTableOut tbl } ∧
    (tbl.head?.toList.all eventNoW = true →
     tbl.getLast?.toList.all eventNoW = true →
     (∀ r ∈ extract_tr_blocks tbl, r.all eventNoW = true) →
     (selfTableOut tbl).all eventNoW = true) := by
  constructor
  · obtain ⟨e, rest, rfl⟩ : ∃ e rest, tbl = e :: rest := by
      cases tbl with
      | nil => simp at hne
      | cons e rest => exact ⟨e, rest, rfl⟩
    unfold diff_table_by_rows
    rw [if_neg (by simp)]
    simp only [List.head?_cons]
    have hrows2 := hrows
    have hcells2 := hcells
    have hlen0 : ((extract_tr_blocks (e :: rest)).map row_key).length =
        (extract_tr_blocks (e :: rest)).length := List.length_map _ _
    match e with
    | Event.Start tag attrs =>
      simp only [attrs_equal_normalized_refl, Bool.not_true,
        Bool.false_eq_true, if_false]
      rw [dsAppend_nobuf _ _ hbuf]
      rw [getOpcodes_self]
      by_cases hrn : ((extract_tr_blocks (Event.Start tag attrs :: rest)).map
          row_key).length = 0
      · rw [if_pos hrn, List.foldl_nil]
        rw [hlen0] at hrn
        match hlast : (Event.Start tag attrs :: rest).getLast? with
        | some e2 =>
          simp only []
          rw [dsAppend_nobuf _ _ (by simpa using hbuf)]
          unfold selfTableOut
          rw [List.length_eq_zero.mp hrn]
          simp [hlast]
        | none => simp at hlast
      · rw [if_neg hrn, List.foldl_cons, List.foldl_nil]
        simp only []
        simp only [List.length_map, Nat.sub_zero, Nat.min_self]
        rw [rowsFold_self cfg _ _ 0 _ (by omega) hrows2 hcells2
          (by simpa using hbuf)]
        simp only [List.drop_zero, List.take_length]
        match hlast : (Event.Start tag attrs :: rest).getLast? with
        | some e2 =>
          simp only []
          rw [dsAppend_nobuf _ _ (by simpa using hbuf)]
          unfold selfTableOut
          simp [hlast]
        | none => simp at hlast
    | Event.End t =>
      simp only [Bool.false_eq_true, if_false]
      rw [dsAppend_nobuf _ _ hbuf]
      rw [getOpcodes_self]
      by_cases hrn : ((extract_tr_blocks (Event.End t :: rest)).map
          row_key).length = 0
      · rw [if_pos hrn, List.foldl_nil]
        rw [hlen0] at hrn
        match hlast : (Event.End t :: rest).getLast? with
        | some e2 =>
          simp only []
          rw [dsAppend_nobuf _ _ (by simpa using hbuf)]
          unfold selfTableOut
          rw [List.length_eq_zero.mp hrn]
          simp [hlast]
        | none => simp at hlast
      · rw [if_neg hrn, List.foldl_cons, List.foldl_nil]
        simp only []
        simp only [List.length_map, Nat.sub_zero, Nat.min_self]
        rw [rowsFold_self cfg _ _ 0 _ (by omega) hrows2 hcells2
          (by simpa using hbuf)]
        simp only [List.drop_zero, List.take_length]
        match hlast : (Event.End t :: rest).getLast? with
        | some e2 =>
          simp only []
          rw [dsAppend_nobuf _ _ (by simpa using hbuf)]
          unfold selfTableOut
          simp [hlast]
        | none => simp at hlast
    | Event.Text d =>
      simp only [Bool.false_eq_true, if_false]
      rw [dsAppend_nobuf _ _ hbuf]
      rw [getOpcodes_self]
      by_cases hrn : ((extract_tr_blocks (Event.Text d :: rest)).map
          row_key).length = 0
      · rw [if_pos hrn, List.foldl_nil]
        rw [hlen0] at hrn
        match hlast : (Event.Text d :: rest).getLast? with
        | some e2 =>
          simp only []
          rw [dsAppend_nobuf _ _ (by simpa using hbuf)]
          unfold selfTableOut
          rw [List.length_eq_zero.mp hrn]
          simp [hlast]
        | none => simp at hlast
      · rw [if_neg hrn, List.foldl_cons, List.foldl_nil]
        simp only []
        simp only [List.length_map, Nat.sub_zero, Nat.min_self]
        rw [rowsFold_self cfg _ _ 0 _ (by omega) hrows2 hcells2
          (by simpa using hbuf)]
        simp only [List.drop_zero, List.take_length]
        match hlast : (Event.Text d :: rest).getLast? with
        | some e2 =>
          simp only []
          rw [dsAppend_nobuf _ _ (by simpa using hbuf)]
          unfold selfTableOut
          simp [hlast]
        | none => simp at hlast
  · intro hHead hLast hRows
    unfold selfTableOut
    simp only [List.all_eq_true] at hHead hLast hRows ⊢
    intro e he
    rcases List.mem_append.mp he with he1 | he2
    · rcases List.mem_append.mp he1 with hh | hmid
      · exact hHead e hh
      · obtain ⟨l, hl, hel⟩ := List.mem_flatten.mp hmid
        obtain ⟨r, hr, rfl⟩ := List.mem_map.mp hl
        unfold selfRowOut at hel
        rcases List.mem_append.mp hel with hel1 | hlr
        · rcases List.mem_append.mp hel1 with hhr | hcells2
          · exact hRows r hr e (mem_of_head?_toList hhr)
          · obtain ⟨cl, hcl, hecl⟩ := List.mem_flatten.mp hcells2
            obtain ⟨c, hc, rfl⟩ := List.mem_map.mp hcl
            exact hRows r hr e (edcGo_events_mem r r.length 0 c hc e hecl)
        · exact hRows r hr e (mem_of_getLast?_toList hlr)
    · exact hLast e he2


/-- C10, counterexample: when the table start attributes differ, the hidden
structural-revert `del` replays the whole old table verbatim, so the
`thead` Start of the input appears in the output of `diff_table_by_rows`,
contradicting the claim that `thead`/`tbody`/`tfoot` events are never
present in the output stream. -/
theorem C10_counterexample :
    Event.Start "thead" [] ∈
      (diff_table_by_rows defaultConfig
        [Event.Start "table" [("class", "a")], Event.Start "thead" [],
         Event.Start "tr" [], Event.Start "td" [], Event.Text "x",
         Event.End "td", Event.End "tr", Event.End "thead",
         Event.End "table"]
        [Event.Start "table" [("class", "b")], Event.Start "thead" [],
         Event.Start "tr" [], Event.Start "td" [], Event.Text "x",
         Event.End "td", Event.End "tr", Event.End "thead",
         Event.End "table"]
        initState).result := by
  decide

/-- A table slice with a `thead` wrapper around its only row. -/
def C10exampleTable : List Event :=
  [Event.Start "table" [], Event.Start "thead" [], Event.Start "tr" [],
   Event.Start "td" [], Event.Text "x", Event.End "td", Event.End "tr",
   Event.End "thead", Event.End "table"]

/-- C10, witness: the amended theorem at a concrete table whose `thead`
wrapper is present in the input but absent from the output. -/
theorem C10_witness :
    (diff_table_by_rows defaultConfig C10exampleTable C10exampleTable
        initState =
      { initState with
          result := initState.result ++ selfTableOut C10exampleTable } ∧
     (C10exampleTable.head?.toList.all eventNoW = true →
      C10exampleTable.getLast?.toList.all eventNoW = true →
      (∀ r ∈ extract_tr_blocks C10exampleTable, r.all eventNoW = true) →
      (selfTableOut C10exampleTable).all eventNoW = true)) :=
  C10_amended defaultConfig C10exampleTable initState (by decide) (by decide)
    (by decide) rfl


/-! ## Claim C1: self-diff round trip -/

/-- A class value carrying one of the engine's marker class fragments. -/
def classHasMarker (attrs : Attrs) : Bool :=
  match attrsGet attrs "class" with
  | some c => listContainsSeq "tagdiff_".data c.data ||
      listContainsSeq "diff-bullet-".data c.data
  | none => false

/-- No `ins`/`del` tag and no marker class on this event. -/
def eventMarkerFree : Event → Bool
  | Event.Start t a =>
    !(qname_localname t = "ins" ∨ qname_localname t = "del" : Bool) &&
      !(classHasMarker a)
  | Event.End t =>
    !(qname_localname t = "ins" ∨ qname_localname t = "del" : Bool)
  | Event.Text _ => true

/-- No change marker of any kind in the stream. -/
def markerFree (events : List Event) : Bool := events.all eventMarkerFree

/-- Stack evolution of a well-nested stream: starts push their tag, ends
must close the innermost open tag, text is ignored; `none` on a mismatch. -/
def wellNestedGo : List String → List Event → Option (List String)
  | stk, [] => some stk
  | stk, Event.Start t _ :: rest => wellNestedGo (stk ++ [t]) rest
  | stk, Event.End t :: rest =>
    (match stk.getLast? with
     | some top => if t = top then wellNestedGo stk.dropLast rest else none
     | none => none)
  | stk, Event.Text _ :: rest => wellNestedGo stk rest

/-- An atom that `_process_equal_opcode` handles through plain block
processing: not a block atom of one of the table/list tags. -/
def atomPlain (a : Atom) : Bool :=
  !(a.kind == "block" &&
    (Option.rec false
      (fun t => ["table", "tr", "td", "th", "ul", "ol", "li"].contains t)
      a.tag : Bool))

/-- Normalized event equality is reflexive. -/
theorem eventEqNormalized_refl (e : Event) : eventEqNormalized e e = true := by
  cases e <;> simp [eventEqNormalized]

/-- All pairs of the self-zip compare equal under normalization. -/
theorem zip_all_eventEq_refl (evs : List Event) :
    (evs.zip evs).all (fun pq => eventEqNormalized pq.1 pq.2) = true := by
  induction evs with
  | nil => rfl
  | cons e rest ih =>
    rw [List.zip_cons_cons, List.all_cons, eventEqNormalized_refl, ih]
    rfl

/-- Normalized stream equality is reflexive. -/
theorem events_equal_normalized_refl (evs : List Event) :
    events_equal_normalized evs evs = true := by
  unfold events_equal_normalized
  rw [zip_all_eventEq_refl, beq_self_eq_true]
  rfl

/-- `longzip` of a list with itself pairs every element with itself. -/
theorem longzip_self {α : Type} (l : List α) :
    longzip l l = l.map (fun a => (some a, some a)) := by
  induction l with
  | nil => rfl
  | cons a rest ih =>
    rw [show longzip (a :: rest) (a :: rest) =
      (some a, some a) :: longzip rest rest from rfl, ih]
    rfl

/-- One merge step on a marker-free event just appends it. -/
theorem mergeStep_markerFree (attr : String) (out : List Event) (e : Event)
    (h : eventMarkerFree e = true) :
    mergeStep attr ["ins", "del"] out e = out ++ [e] := by
  match e with
  | Event.Start t a =>
    unfold mergeStep
    simp only []
    rw [if_neg ?hc]
    case hc =>
      unfold eventMarkerFree at h
      rw [Bool.and_eq_true] at h
      have hnp : ¬(qname_localname t = "ins" ∨ qname_localname t = "del") := by
        have h1 := h.1
        rw [Bool.not_eq_true'] at h1
        exact of_decide_eq_false h1
      intro hcon
      exact hnp (by simpa using hcon)
  | Event.End t => rfl
  | Event.Text d => rfl

/-- The merge fold leaves a marker-free stream untouched. -/
theorem merge_markerFree_go (attr : String) : ∀ (events out : List Event),
    events.all eventMarkerFree = true →
    events.foldl (mergeStep attr ["ins", "del"]) out = out ++ events := by
  intro events
  induction events with
  | nil =>
    intro out h
    simp
  | cons e rest ih =>
    intro out h
    rw [List.all_cons, Bool.and_eq_true] at h
    rw [List.foldl_cons, mergeStep_markerFree attr out e h.1, ih _ h.2]
    simp

/-- `merge_adjacent_change_tags` is the identity on marker-free streams. -/
theorem merge_adjacent_markerFree (events : List Event) (cfg : DiffConfig)
    (h : markerFree events = true) :
    merge_adjacent_change_tags events cfg = events := by
  unfold merge_adjacent_change_tags
  rw [merge_markerFree_go cfg.diff_id_attr events [] h]
  rfl

/-- One step of `block_process`, written out. -/
theorem block_process_cons (cfg : DiffConfig) (e : Event)
    (rest : List Event) (st : DiffState) :
    block_process cfg (e :: rest) st = block_process cfg rest
      (match e with
       | Event.Start tag attrs => (handle_start_event cfg tag attrs st).2
       | Event.End tag => (handle_end_event cfg tag st).2
       | Event.Text data => handle_text_event cfg data st) := rfl

/-- Unfolding equation of the nesting walk at an End event. -/
theorem wellNestedGo_end (stk : List String) (t : String) (rest : List Event) :
    wellNestedGo stk (Event.End t :: rest) =
      (match stk.getLast? with
       | some top => if t = top then wellNestedGo stk.dropLast rest else none
       | none => none) := rfl

/-- Splitting text events does not change the nesting stack evolution. -/
theorem wellNestedGo_splits {xs ys : List Event} (h : SplitsTo xs ys) :
    ∀ stk, wellNestedGo stk ys = wellNestedGo stk xs := by
  induction h with
  | nil => intro stk; rfl
  | keep e h ih =>
    intro stk
    match e with
    | Event.Start t a => exact ih (stk ++ [t])
    | Event.End t =>
      rw [wellNestedGo_end, wellNestedGo_end]
      cases htop : stk.getLast? with
      | none => rfl
      | some top =>
        simp only []
        by_cases ht : t = top
        · rw [if_pos ht, if_pos ht]
          exact ih _
        · rw [if_neg ht, if_neg ht]
    | Event.Text d => exact ih stk
  | split d parts hjoin h ih =>
    intro stk
    have htexts : ∀ (ps : List String) (stk : List String) (zs : List Event),
        wellNestedGo stk (ps.map Event.Text ++ zs) = wellNestedGo stk zs := by
      intro ps
      induction ps with
      | nil => intro stk zs; rfl
      | cons p prest ihp => intro stk zs; exact ihp stk zs
    rw [htexts]
    exact ih stk

/-- Splitting text events preserves marker freedom. -/
theorem markerFree_of_splitsTo {xs ys : List Event} (h : SplitsTo xs ys)
    (hmf : markerFree xs = true) : markerFree ys = true := by
  induction h with
  | nil => rfl
  | keep e h ih =>
    unfold markerFree at hmf ⊢
    rw [List.all_cons, Bool.and_eq_true] at hmf ⊢
    exact ⟨hmf.1, ih hmf.2⟩
  | split d parts hjoin h ih =>
    unfold markerFree at hmf ⊢
    rw [List.all_cons, Bool.and_eq_true] at hmf
    rw [List.all_append, Bool.and_eq_true]
    refine ⟨?_, ih hmf.2⟩
    rw [List.all_eq_true]
    intro e he
    obtain ⟨p, hp, rfl⟩ := List.mem_map.mp he
    rfl

/-- The nesting walk distributes over concatenation. -/
theorem wellNestedGo_append : ∀ (xs ys : List Event) (stk : List String),
    wellNestedGo stk (xs ++ ys) =
      (match wellNestedGo stk xs with
       | some s => wellNestedGo s ys
       | none => none) := by
  intro xs
  induction xs with
  | nil => intro ys stk; rfl
  | cons e rest ih =>
    intro ys stk
    match e with
    | Event.Start t a => exact ih ys (stk ++ [t])
    | Event.End t =>
      rw [show (Event.End t :: rest) ++ ys = Event.End t :: (rest ++ ys)
        from rfl]
      rw [wellNestedGo_end, wellNestedGo_end]
      cases htop : stk.getLast? with
      | none => rfl
      | some top =>
        simp only []
        by_cases ht : t = top
        · rw [if_pos ht, if_pos ht]
          exact ih ys stk.dropLast
        · rw [if_neg ht, if_neg ht]
    | Event.Text d => exact ih ys stk

/-- Setting an already-absent context is a no-op. -/
theorem setContext_eta (st : DiffState) (h : st.context = none) :
    { st with context := none } = st := by
  obtain ⟨res, stk, ctx, skp, wrp, cnt, idstk, sbuf⟩ := st
  simp only [] at h
  subst h
  rfl

/-- A start event outside any change context just enters the element. -/
theorem handle_start_plain (cfg : DiffConfig) (tag : String) (attrs : Attrs)
    (st : DiffState) (hctx : st.context = none) (hbuf : st.styleBuf = []) :
    (handle_start_event cfg tag attrs st).2 =
      { st with result := st.result ++ [Event.Start tag attrs]
                stack := st.stack ++ [tag] } := by
  have hin : ¬(st.context = some "ins" ∨ st.context = some "del") := by
    rw [hctx]
    rintro (h | h) <;> exact Option.noConfusion h
  unfold handle_start_event
  simp only []
  rw [if_neg (fun h => hin h.2), if_neg (fun h => hin h.2),
    if_neg (fun h => hin h.2), if_neg (fun h => hin h.2)]
  unfold dsEnter
  rw [dsAppend_nobuf { st with stack := st.stack ++ [tag] }
    (Event.Start tag attrs) hbuf]

/-- The wrapper-unwind loop does nothing when no wrappers are pending. -/
theorem handleEndLoop_nowrap (cfg : DiffConfig) (lname tag : String)
    (fuel : Nat) (handled : Bool) (st : DiffState)
    (hwrap : st.wrapChangeEndFor = []) :
    handleEndLoop cfg lname tag (fuel + 1) handled st = (handled, st) := by
  unfold handleEndLoop
  rw [hwrap]
  rfl

/-- An end event matching the innermost open tag, outside any change
context and with no pending wrappers or buffers, closes the element. -/
theorem handle_end_plain (cfg : DiffConfig) (tag : String) (st : DiffState)
    (top : String) (hskip : st.skipEndFor = [])
    (hwrap : st.wrapChangeEndFor = []) (hbuf : st.styleBuf = [])
    (htop : st.stack.getLast? = some top) (htag : tag = top) :
    (handle_end_event cfg tag st).2 =
      { st with result := st.result ++ [Event.End tag]
                stack := st.stack.dropLast } := by
  obtain ⟨res, stk, ctx, skp, wrp, cnt, idstk, sbuf⟩ := st
  simp only [] at hskip hwrap hbuf htop
  subst hskip
  subst hwrap
  subst hbuf
  unfold handle_end_event
  simp only []
  rw [if_neg (by simp)]
  rw [handleEndLoop_nowrap cfg _ tag _ false _ rfl]
  simp only [Bool.false_eq_true, if_false]
  unfold dsLeave
  simp only []
  rw [htop]
  simp only []
  rw [if_pos htag]
  simp only [List.getLast?_nil]
  rw [dsAppend_nobuf _ (Event.End tag) rfl]

/-- A text event outside any change context is emitted verbatim. -/
theorem handle_text_plain (cfg : DiffConfig) (d : String) (st : DiffState)
    (hctx : st.context = none) (hbuf : st.styleBuf = []) :
    handle_text_event cfg d st =
      { st with result := st.result ++ [Event.Text d] } := by
  unfold handle_text_event
  conv_lhs => rw [hctx]
  exact dsAppend_nobuf st _ hbuf

/-- Block processing outside any change context, on a stream whose nesting
walk succeeds, copies the stream verbatim and updates the open-tag stack. -/
theorem block_process_plain (cfg : DiffConfig) : ∀ (evs : List Event)
    (st : DiffState) (stk2 : List String),
    st.context = none → st.skipEndFor = [] → st.wrapChangeEndFor = [] →
    st.styleBuf = [] → wellNestedGo st.stack evs = some stk2 →
    block_process cfg evs st =
      { st with result := st.result ++ evs, stack := stk2 } := by
  intro evs
  induction evs with
  | nil =>
    intro st stk2 hctx hskip hwrap hbuf hnest
    have hstk : stk2 = st.stack := (Option.some.inj hnest).symm
    subst hstk
    show st = _
    obtain ⟨res, stk, ctx, skp, wrp, cnt, idstk, sbuf⟩ := st
    simp
  | cons e rest ih =>
    intro st stk2 hctx hskip hwrap hbuf hnest
    rw [block_process_cons]
    match e with
    | Event.Start t a =>
      simp only []
      rw [handle_start_plain cfg t a st hctx hbuf]
      have hstep := ih ({ st with
          result := st.result ++ [Event.Start t a]
          stack := st.stack ++ [t] }) stk2 hctx hskip hwrap hbuf hnest
      rw [hstep]
      simp
    | Event.End t =>
      simp only []
      rw [wellNestedGo_end] at hnest
      match htop : st.stack.getLast? with
      | none =>
        rw [htop] at hnest
        simp only [] at hnest
        exact Option.noConfusion hnest
      | some top =>
        rw [htop] at hnest
        simp only [] at hnest
        by_cases htag : t = top
        · rw [if_pos htag] at hnest
          rw [handle_end_plain cfg t st top hskip hwrap hbuf htop htag]
          have hstep := ih ({ st with
              result := st.result ++ [Event.End t]
              stack := st.stack.dropLast }) stk2 hctx hskip hwrap hbuf hnest
          rw [hstep]
          simp
        · rw [if_neg htag] at hnest
          exact Option.noConfusion hnest
    | Event.Text d =>
      simp only []
      rw [handle_text_plain cfg d st hctx hbuf]
      have hstep := ih ({ st with result := st.result ++ [Event.Text d] })
        stk2 hctx hskip hwrap hbuf hnest
      rw [hstep]
      simp

/-- Running a body under a `none` context from a `none` context is just the
body followed by restoring `none`. -/
theorem withContext_none_plain (body : DiffState → DiffState) (st : DiffState)
    (hctx : st.context = none) :
    withContext none body st = { body st with context := none } := by
  unfold withContext
  simp only []
  rw [setContext_eta st hctx, hctx]

/-- On two identical plain atoms the equal-pair handler copies the atom's
events verbatim. -/
theorem processEqualPair_self_plain (cfg : DiffConfig) (a : Atom)
    (st : DiffState) (stk2 : List String) (hplain : atomPlain a = true)
    (hctx : st.context = none) (hskip : st.skipEndFor = [])
    (hwrap : st.wrapChangeEndFor = []) (hbuf : st.styleBuf = [])
    (hnest : wellNestedGo st.stack a.events = some stk2) :
    processEqualPair cfg (some a) (some a) st =
      { st with result := st.result ++ a.events, stack := stk2 } := by
  unfold processEqualPair
  simp only []
  rw [if_neg ?h1, if_neg ?h2, if_neg ?h3]
  case h1 =>
    rintro (⟨hp, hl⟩ | ⟨hp, hl⟩) <;> (rw [hp] at hl; simp at hl)
  case h2 =>
    rintro ⟨-, -, hne⟩
    exact hne rfl
  case h3 =>
    rintro ⟨hk, hm⟩
    unfold atomPlain at hplain
    rw [Bool.not_eq_true'] at hplain
    rw [hk, hm] at hplain
    simp at hplain
  rw [if_neg ?h4, if_neg ?h5, if_neg ?h6, if_neg ?h7]
  case h4 =>
    rintro ⟨hne, -⟩
    exact hne (events_equal_normalized_refl _)
  case h5 =>
    rintro ⟨hne, -⟩
    exact hne (events_equal_normalized_refl _)
  case h6 =>
    rintro ⟨hne, -⟩
    exact hne (events_equal_normalized_refl _)
  case h7 =>
    rintro ⟨-, hne, -⟩
    exact hne (events_equal_normalized_refl _)
  rw [withContext_none_plain _ st hctx]
  rw [block_process_plain cfg a.events st stk2 hctx hskip hwrap hbuf hnest]
  simp only []
  rw [hctx]

/-- The equal-opcode handler on two identical lists of plain atoms copies
their concatenated events verbatim. -/
theorem processEqualOpcode_self_plain (cfg : DiffConfig) : ∀ (atoms : List Atom)
    (st : DiffState) (stk2 : List String),
    (∀ a ∈ atoms, atomPlain a = true) →
    st.context = none → st.skipEndFor = [] → st.wrapChangeEndFor = [] →
    st.styleBuf = [] → wellNestedGo st.stack (concat_events atoms) = some stk2 →
    processEqualOpcode cfg atoms atoms st =
      { st with result := st.result ++ concat_events atoms, stack := stk2 } := by
  intro atoms
  induction atoms with
  | nil =>
    intro st stk2 _ hctx hskip hwrap hbuf hnest
    have hstk : stk2 = st.stack := (Option.some.inj hnest).symm
    subst hstk
    show st = _
    obtain ⟨res, stk, ctx, skp, wrp, cnt, idstk, sbuf⟩ := st
    simp [concat_events]
  | cons a rest ih =>
    intro st stk2 hplain hctx hskip hwrap hbuf hnest
    rw [concat_events_cons, wellNestedGo_append] at hnest
    match hmid : wellNestedGo st.stack a.events with
    | none =>
      rw [hmid] at hnest
      simp only [] at hnest
      exact Option.noConfusion hnest
    | some stk1 =>
      rw [hmid] at hnest
      simp only [] at hnest
      unfold processEqualOpcode
      rw [longzip_self, List.map_cons, List.foldl_cons]
      simp only []
      rw [processEqualPair_self_plain cfg a st stk1 (hplain a (by simp))
        hctx hskip hwrap hbuf hmid]
      have hfold : (rest.map (fun x => (some x, some x))).foldl
          (fun s p => processEqualPair cfg p.1 p.2 s)
          ({ st with result := st.result ++ a.events, stack := stk1 }) =
          processEqualOpcode cfg rest rest
            ({ st with result := st.result ++ a.events, stack := stk1 }) := by
        unfold processEqualOpcode
        rw [longzip_self]
      rw [hfold]
      have hstep := ih ({ st with result := st.result ++ a.events
                                  stack := stk1 })
        stk2 (fun x hx => hplain x (by simp [hx])) hctx hskip hwrap hbuf hnest
      rw [hstep]
      rw [concat_events_cons]
      simp

/-- A full Python slice is the identity. -/
theorem sliceList_full {α : Type} (l : List α) : sliceList l 0 l.length = l := by
  unfold sliceList
  rw [List.take_length, List.drop_zero]

/-- The opcode loop stops when the index runs off the opcode list. -/
theorem processLoop_stop (cfg : DiffConfig) (oldAtoms newAtoms : List Atom)
    (opcodes : List Opcode) (fuel k : Nat) (st : DiffState)
    (hk : opcodes.get? k = none) :
    processLoop cfg oldAtoms newAtoms opcodes fuel k st = st := by
  match fuel with
  | 0 => rfl
  | fuel + 1 =>
    unfold processLoop
    rw [hk]

/-- One step on a single full-width equal opcode runs the equal handler. -/
theorem processStep_single_equal (cfg : DiffConfig) (atoms : List Atom)
    (n : Nat) (st : DiffState) :
    processStep cfg atoms atoms [Opcode.mk OpTag.equal 0 n 0 n] 0
      (Opcode.mk OpTag.equal 0 n 0 n) st =
      (processEqualOpcode cfg (sliceList atoms 0 n) (sliceList atoms 0 n) st,
        1) := rfl

/-- The opcode loop over one full-width equal opcode is the equal handler. -/
theorem processLoop_single_equal (cfg : DiffConfig) (atoms : List Atom)
    (n fuel : Nat) (st : DiffState) :
    processLoop cfg atoms atoms [Opcode.mk OpTag.equal 0 n 0 n] (fuel + 1) 0 st =
      processEqualOpcode cfg (sliceList atoms 0 n) (sliceList atoms 0 n) st := by
  unfold processLoop
  simp only []
  rw [show ([Opcode.mk OpTag.equal 0 n 0 n] : List Opcode).get? 0 =
    some (Opcode.mk OpTag.equal 0 n 0 n) from rfl]
  simp only []
  rw [processStep_single_equal]
  simp only []
  exact processLoop_stop cfg atoms atoms _ fuel 1 _ rfl

/-- Leaving all elements is a no-op when no element is open. -/
theorem dsLeaveAll_nil (st : DiffState) (h : st.stack = []) :
    dsLeaveAll st = st := by
  obtain ⟨res, stk, ctx, skp, wrp, cnt, idstk, sbuf⟩ := st
  simp only [] at h
  subst h
  rfl

/-- A string over the empty character list strips to the empty string. -/
theorem pyStrip_nil (s : String) (h : s.data = []) : pyStrip s = "" := by
  unfold pyStrip
  rw [h]
  rfl

/-- The delete-first normalization leaves a single opcode alone. -/
theorem normalize_single (op : Opcode) :
    normalize_opcodes_for_delete_first [op] = [op] := rfl

/-- Claim C1, counterexample: self-diff does not always produce output free
of `ins` elements with every event unchanged.  A fragment that itself
contains an `<ins>` element keeps it in the output, and a text event whose
content holds a space is re-emitted split into word and whitespace tokens
rather than unchanged. -/
theorem C1_counterexample :
    (Event.Start "ins" [] ∈ get_diff_stream defaultConfig
      [Event.Start "p" [], Event.Start "ins" [], Event.Text "x",
       Event.End "ins", Event.End "p"]
      [Event.Start "p" [], Event.Start "ins" [], Event.Text "x",
       Event.End "ins", Event.End "p"] 10) ∧
    get_diff_stream defaultConfig [Event.Text "a b"] [Event.Text "a b"] 10 ≠
      [Event.Text "a b"] := by decide

/-- Claim C1 (amended): for a well-nested, marker-free fragment `X` whose
atoms are plain (no table or list block atoms), diffing `X` against itself
emits the input stream with text events possibly split into concatenation-
preserving tokens, and the output carries no `ins`/`del` tag and no
`tagdiff_` or `diff-bullet-` marker class. -/
theorem C1_amended (X : List Event) (fuel : Nat) (hfuel : 1 ≤ fuel)
    (hnest : wellNestedGo [] X = some [])
    (hplain : ∀ a ∈ atomize_events X defaultConfig, atomPlain a = true)
    (hmf : markerFree X = true) :
    SplitsTo X (get_diff_stream defaultConfig X X fuel) ∧
    markerFree (get_diff_stream defaultConfig X X fuel) = true := by
  have hsplit : SplitsTo X (concat_events (atomize_events X defaultConfig)) := by
    have h := atomizeGo_splits defaultConfig X
      (build_block_tags_set defaultConfig).1
      (build_block_tags_set defaultConfig).2 X.length 0 (by omega)
    rw [List.drop_zero] at h
    exact h
  have hmfY : markerFree (concat_events (atomize_events X defaultConfig)) =
      true := markerFree_of_splitsTo hsplit hmf
  have hnestY : wellNestedGo []
      (concat_events (atomize_events X defaultConfig)) = some [] := by
    rw [wellNestedGo_splits hsplit]
    exact hnest
  have hbulk : ¬(defaultConfig.bulk_replace_similarity_threshold > 0 ∧
      pyStrip (extract_text_from_events X) ≠ "" ∧
      pyStrip (extract_text_from_events X) ≠ "" ∧
      ratio (extract_text_from_events X).data
        (extract_text_from_events X).data <
        defaultConfig.bulk_replace_similarity_threshold) := by
    rintro ⟨-, hs, -, hr⟩
    have hlen : (extract_text_from_events X).data.length ≠ 0 := by
      intro hc
      exact hs (pyStrip_nil _ (List.length_eq_zero.mp hc))
    rw [ratio_self _ hlen] at hr
    exact absurd hr (by decide)
  obtain ⟨f1, rfl⟩ : ∃ f1, fuel = f1 + 1 := ⟨fuel - 1, by omega⟩
  have hproc : process defaultConfig X X (f1 + 1) =
      { initState with
          result := concat_events (atomize_events X defaultConfig)
          stack := [] } := by
    unfold process
    rw [if_neg hbulk]
    simp only []
    rw [getOpcodes_self]
    rw [List.length_map]
    by_cases hat : (atomize_events X defaultConfig).length = 0
    · rw [if_pos hat]
      rw [if_pos (show defaultConfig.delete_first = true from rfl)]
      rw [show normalize_opcodes_for_delete_first [] = [] from rfl]
      rw [processLoop_stop defaultConfig _ _ [] (f1 + 1) 0 initState rfl]
      rw [dsLeaveAll_nil initState rfl]
      rw [List.length_eq_zero.mp hat]
      rfl
    · rw [if_neg hat]
      rw [if_pos (show defaultConfig.delete_first = true from rfl)]
      rw [normalize_single]
      rw [processLoop_single_equal]
      rw [sliceList_full]
      rw [processEqualOpcode_self_plain defaultConfig _ initState []
        hplain rfl rfl rfl rfl hnestY]
      rw [dsLeaveAll_nil _ rfl]
      rfl
  have hout : get_diff_stream defaultConfig X X (f1 + 1) =
      concat_events (atomize_events X defaultConfig) := by
    unfold get_diff_stream
    rw [hproc]
    simp only []
    rw [if_pos (show defaultConfig.merge_adjacent_change_tags = true from rfl)]
    exact merge_adjacent_markerFree _ _ hmfY
  rw [hout]
  exact ⟨hsplit, hmfY⟩

/-- Example fragment for the C1 witness. -/
def C1exampleEvents : List Event :=
  [Event.Start "p" [], Event.Text "hello world", Event.End "p"]

/-- Witness for C1: the amended round-trip statement applied to a small
paragraph fragment. -/
theorem C1_witness :
    SplitsTo C1exampleEvents
      (get_diff_stream defaultConfig C1exampleEvents C1exampleEvents 2) ∧
    markerFree
      (get_diff_stream defaultConfig C1exampleEvents C1exampleEvents 2) =
      true :=
  C1_amended C1exampleEvents 2 (by decide) (by decide) (by decide) (by decide)

end HD
